import Mathlib

/-!
# Pixel-buffer resampling of `render.c`

A shallow embedding of the blit, filter and 3x subpixel downsampling routines
of `src/render.c` and of the two functions that drive them,
`pdf_page_render_to_buffer` and `pdf_page_render`, followed by the properties
proved about them.

Conventions of the embedding.

* C `int` values are `Int`; a conversion to `unsigned int` (the loop counters
  `x`, `y` are `unsigned int`, so `x < width - 1` compares after conversion)
  is `toU32`, a conversion to `unsigned char` (a store of an `int` through an
  `unsigned char*`) is `toU8`.
* An `unsigned char*` is the `Int` offset it points at.  The source is only
  ever read and the destination only ever written, and the callers pass a
  freshly allocated pixmap as source, so the two are separate objects:
  the source is a partial byte map `SrcMem` (a read outside the object is
  `none` and aborts the run), the destination is a `DstBuf`, its initial
  contents together with the list of stores performed, latest first.
* A `double` is the exact rational it represents, and a product of doubles
  is rounded to the nearest double (`roundDouble`).  The mupdf and zathura libraries are not
  in `src/`: what they return is passed in, and the record a call leaves
  behind lists what it did to them (handles still live, allocator calls).
-/

namespace Render

/-! ## Machine integers and memory -/

/-- Largest value of a 32-bit C `int`. -/
def INT_MAX : Int := 2147483647

/-- A C `int` converted to `unsigned int`. -/
def toU32 (i : Int) : Nat := (i % 4294967296).toNat

/-- A C `int` converted to `unsigned char`. -/
def toU8 (i : Int) : Nat := (i % 256).toNat

/-- Bytes readable through the source pointer, by offset. -/
abbrev SrcMem := Int → Option Nat

/-- Destination memory: the contents before the call and the stores made so
far as (offset, byte) pairs, the latest store first. -/
structure DstBuf where
  init : Int → Nat
  writes : List (Int × Nat)

/-- The store `*(unsigned char*)a = v`. -/
def DstBuf.store (b : DstBuf) (a : Int) (v : Nat) : DstBuf :=
  { b with writes := (a, v) :: b.writes }

/-- The byte held at offset `a`: the latest store there, else the initial byte. -/
def DstBuf.get (b : DstBuf) (a : Int) : Nat :=
  (b.writes.lookup a).getD (b.init a)

/-- Offset of byte `c` of pixel `p` in row `y` of a plane at `base` with row
stride `stride` and `n` bytes per pixel. -/
def pix (base stride n : Int) (y p c : Nat) : Int :=
  base + (y : Int) * stride + (p : Int) * n + (c : Int)

/-! ## `buffer_blit_row`, `buffer_blit` -/

/-- The statements `d[0] = s[0]; d[1] = s[1]; d[2] = s[2];`. -/
def copy3 (smem : SrcMem) (b : DstBuf) (d s : Int) : Option DstBuf := do
  let v0 ← smem (s + 0)
  let b := b.store (d + 0) v0
  let v1 ← smem (s + 1)
  let b := b.store (d + 1) v1
  let v2 ← smem (s + 2)
  let b := b.store (d + 2) v2
  pure b

/-- The loop `for (; width; width--)` of `buffer_blit_row`, with `k` iterations left. -/
def buffer_blit_row_loop (smem : SrcMem) (dst_ncmpt src_ncmpt : Int) :
    Nat → DstBuf → Int → Int → Option DstBuf
  | 0, b, _, _ => some b
  | k + 1, b, dst, src => do
    let b ← copy3 smem b dst src
    buffer_blit_row_loop smem dst_ncmpt src_ncmpt k b (dst + dst_ncmpt) (src + src_ncmpt)

/-- `buffer_blit_row`: the counter `width` runs down to zero, so the body runs
`width` times (a negative `int` would wrap around first, `toU32 width` times
in all). -/
def buffer_blit_row (smem : SrcMem) (b : DstBuf) (dst dst_ncmpt src src_ncmpt width : Int) :
    Option DstBuf :=
  buffer_blit_row_loop smem dst_ncmpt src_ncmpt (toU32 width) b dst src

/-- The loop `for (unsigned int y = 0; y < height; y++)` of `buffer_blit`. -/
def buffer_blit_loop (smem : SrcMem) (dst_ncmpt dst_stride src_ncmpt src_stride width : Int) :
    Nat → DstBuf → Int → Int → Option DstBuf
  | 0, b, _, _ => some b
  | k + 1, b, dst, src => do
    let b ← buffer_blit_row smem b dst dst_ncmpt src src_ncmpt width
    buffer_blit_loop smem dst_ncmpt dst_stride src_ncmpt src_stride width k b
      (dst + dst_stride) (src + src_stride)

/-- `buffer_blit`. -/
def buffer_blit (smem : SrcMem) (b : DstBuf) (dst dst_ncmpt dst_stride src src_ncmpt src_stride
    width height : Int) : Option DstBuf :=
  buffer_blit_loop smem dst_ncmpt dst_stride src_ncmpt src_stride width (toU32 height) b dst src

/-! ## `filter` -/

/-- First enumerator of `enum {SUBPIXEL_HRGB, SUBPIXEL_HBGR, SUBPIXEL_VRGB, SUBPIXEL_VBGR}`. -/
def SUBPIXEL_HRGB : Int := 0

/-- Second enumerator. -/
def SUBPIXEL_HBGR : Int := 1

/-- Third enumerator. -/
def SUBPIXEL_VRGB : Int := 2

/-- Fourth enumerator. -/
def SUBPIXEL_VBGR : Int := 3

/-- `filter`: the 5-tap filter, in C integer arithmetic (`/` truncates). -/
def filter (x0 x1 x2 x3 x4 : Int) : Int :=
  let FIR_WA : Int := 0x30
  let FIR_WC : Int := 0x20
  let w0 := FIR_WA - FIR_WC
  let w1 := FIR_WA + FIR_WC
  let w2 := FIR_WA * 2
  let W := w0 + w1 + w2 + w1 + w0
  Int.tdiv (x0 * w0 + x1 * w1 + x2 * w2 + x3 * w1 + x4 * w0 + Int.tdiv W 2) W

/-- The expression `filter(s[-n * 2], s[-n], s[0], s[n], s[n * 2])`. -/
def tap5 (smem : SrcMem) (s n : Int) : Option Int := do
  let x0 ← smem (s + -n * 2)
  let x1 ← smem (s + -n)
  let x2 ← smem (s + 0)
  let x3 ← smem (s + n)
  let x4 ← smem (s + n * 2)
  pure (filter x0 x1 x2 x3 x4)

/-- The three filtered stores of one interior pixel, shared by both
downsamplers: from `s += blue_offset` to the store into `d[2]`.  Returns the
buffer and the source pointer as it stands after the third store. -/
def filter3 (smem : SrcMem) (n blue_offset : Int) (b : DstBuf) (d s : Int) :
    Option (DstBuf × Int) := do
  let s := s + blue_offset
  let v ← tap5 smem s n
  let b := b.store (d + 0) (toU8 v)
  let s := s + (-blue_offset + 1)
  let v ← tap5 smem s n
  let b := b.store (d + 1) (toU8 v)
  let s := s + (-blue_offset + 1)
  let v ← tap5 smem s n
  let b := b.store (d + 2) (toU8 v)
  pure (b, s)

/-! ## `buffer_subpix_x` -/

/-- The loop `for (unsigned int x = 1; x < width - 1; x++)` of
`buffer_subpix_x`, with `k` iterations left; returns the buffer and the
pointers `d`, `s` at loop exit. -/
def subpix_x_cols (smem : SrcMem) (dst_ncmpt src_ncmpt n blue_offset : Int) :
    Nat → DstBuf → Int → Int → Option (DstBuf × Int × Int)
  | 0, b, d, s => some (b, d, s)
  | k + 1, b, d, s => do
    let (b, s) ← filter3 smem n blue_offset b d s
    let s := s + (blue_offset - 2 + src_ncmpt * 3)
    let d := d + dst_ncmpt
    subpix_x_cols smem dst_ncmpt src_ncmpt n blue_offset k b d s

/-- Body of the row loop of `buffer_subpix_x`. -/
def subpix_x_row (smem : SrcMem) (dst_ncmpt src_ncmpt n blue_offset width : Int)
    (b : DstBuf) (dst src : Int) : Option DstBuf := do
  let d := dst
  let s := src
  let b ← copy3 smem b d s
  let s := s + src_ncmpt * 3
  let d := d + dst_ncmpt
  let (b, d, s) ← subpix_x_cols smem dst_ncmpt src_ncmpt n blue_offset
    (toU32 (width - 1) - 1) b d s
  copy3 smem b d s

/-- The loop `for (unsigned int y = 0; y < height; y++)` of `buffer_subpix_x`. -/
def subpix_x_rows (smem : SrcMem) (dst_ncmpt dst_stride src_ncmpt src_stride n blue_offset
    width : Int) : Nat → DstBuf → Int → Int → Option DstBuf
  | 0, b, _, _ => some b
  | k + 1, b, dst, src => do
    let b ← subpix_x_row smem dst_ncmpt src_ncmpt n blue_offset width b dst src
    subpix_x_rows smem dst_ncmpt dst_stride src_ncmpt src_stride n blue_offset width k b
      (dst + dst_stride) (src + src_stride)

/-- `buffer_subpix_x`. -/
def buffer_subpix_x (smem : SrcMem) (b : DstBuf) (dst dst_ncmpt dst_stride src src_ncmpt
    src_stride width height subpix_order : Int) : Option DstBuf :=
  let n := src_ncmpt
  let blue_offset := if subpix_order = SUBPIXEL_HBGR then -n else n
  let src := src + n
  subpix_x_rows smem dst_ncmpt dst_stride src_ncmpt src_stride n blue_offset width
    (toU32 height) b dst src

/-! ## `buffer_subpix_y` -/

/-- The loop `for (unsigned int x = 0; x < width; x++)` of `buffer_subpix_y`. -/
def subpix_y_cols (smem : SrcMem) (dst_ncmpt src_ncmpt n blue_offset : Int) :
    Nat → DstBuf → Int → Int → Option DstBuf
  | 0, b, _, _ => some b
  | k + 1, b, d, s => do
    let (b, s) ← filter3 smem n blue_offset b d s
    let s := s + (blue_offset - 2 + src_ncmpt)
    let d := d + dst_ncmpt
    subpix_y_cols smem dst_ncmpt src_ncmpt n blue_offset k b d s

/-- The loop `for (unsigned int y = 1; y < height - 1; y++)` of
`buffer_subpix_y`; returns the buffer and the pointers `dst`, `src` at exit. -/
def subpix_y_rows (smem : SrcMem) (dst_ncmpt dst_stride src_ncmpt src_stride n blue_offset
    width : Int) : Nat → DstBuf → Int → Int → Option (DstBuf × Int × Int)
  | 0, b, dst, src => some (b, dst, src)
  | k + 1, b, dst, src => do
    let b ← subpix_y_cols smem dst_ncmpt src_ncmpt n blue_offset (toU32 width) b dst src
    subpix_y_rows smem dst_ncmpt dst_stride src_ncmpt src_stride n blue_offset width k b
      (dst + dst_stride) (src + src_stride * 3)

/-- `buffer_subpix_y`. -/
def buffer_subpix_y (smem : SrcMem) (b : DstBuf) (dst dst_ncmpt dst_stride src src_ncmpt
    src_stride width height subpix_order : Int) : Option DstBuf := do
  let n := src_stride
  let blue_offset := if subpix_order = SUBPIXEL_VBGR then -n else n
  let src := src + n
  let b ← buffer_blit_row smem b dst dst_ncmpt src src_ncmpt width
  let dst := dst + dst_stride
  let src := src + src_stride * 3
  let (b, dst, src) ← subpix_y_rows smem dst_ncmpt dst_stride src_ncmpt src_stride n
    blue_offset width (toU32 (height - 1) - 1) b dst src
  buffer_blit_row smem b dst dst_ncmpt src src_ncmpt width

/-! ## Machine arithmetic of `filter` and of the orchestrator -/

/-- An `unsigned int` converted to `int` on a two's complement machine. -/
def toI32 (u : Nat) : Int :=
  if u % 4294967296 < 2147483648 then ((u % 4294967296 : Nat) : Int)
  else ((u % 4294967296 : Nat) : Int) - 4294967296

/-- The `int` that a signed operation with exact result `i` leaves on a two's
complement machine (the C standard leaves the overflowing case undefined). -/
def wrapI32 (i : Int) : Int := toI32 (toU32 i)

/-- Product of two `unsigned int` values. -/
def mulU32 (a b : Nat) : Nat := (a * b) % 4294967296

/-- `filter` with every `int` operation reduced to 32 bits: the function as it
runs on arbitrary `int` arguments.  On byte samples no operation overflows
and it coincides with `filter`. -/
def filter_i32 (x0 x1 x2 x3 x4 : Int) : Int :=
  let FIR_WA : Int := 0x30
  let FIR_WC : Int := 0x20
  let w0 := wrapI32 (FIR_WA - FIR_WC)
  let w1 := wrapI32 (FIR_WA + FIR_WC)
  let w2 := wrapI32 (FIR_WA * 2)
  let W := wrapI32 (wrapI32 (wrapI32 (wrapI32 (w0 + w1) + w2) + w1) + w0)
  Int.tdiv
    (wrapI32 (wrapI32 (wrapI32 (wrapI32 (wrapI32 (wrapI32 (x0 * w0) + wrapI32 (x1 * w1))
      + wrapI32 (x2 * w2)) + wrapI32 (x3 * w1)) + wrapI32 (x4 * w0)) + Int.tdiv W 2))
    W

/-- A `double` (taken as the exact rational it represents) converted to
`unsigned int`: the fractional part is discarded. -/
def truncU32 (q : ℚ) : Nat := (Int.toNat (if 0 ≤ q then ⌊q⌋ else ⌈q⌉)) % 4294967296

/-- Exponent of the unit in the last place of the doubles next to `q > 0`:
53 significant bits, and no finer than `2^-1074` (subnormal range). -/
def ulpExp (q : ℚ) : Int := max (Int.log 2 q - 52) (-1074)

/-- The exact value `q` of a `double` operation rounded to the nearest
`double`, ties to the even significand (IEEE 754 binary64, default rounding;
values beyond the largest finite double are not represented).  The product
`a * b` of two doubles as C computes it is `roundDouble (a * b)`. -/
def roundDouble (q : ℚ) : ℚ :=
  if q = 0 then 0
  else
    let e := ulpExp |q|
    let m := q / (2 : ℚ) ^ e
    let f := ⌊m⌋
    let r := if m - f < 1 / 2 then f else if 1 / 2 < m - f then f + 1
      else if f % 2 = 0 then f else f + 1
    (r : ℚ) * (2 : ℚ) ^ e

/-! ## Collaborators of the orchestrator

The mupdf and zathura libraries are not part of `src/`; what `render.c`
observes of them is passed in. -/

/-- Modelled from the spec: the error codes that cross the plugin boundary
(§6: `Ok`, `Unknown`, `OutOfMemory`, `InvalidArguments`); the enumeration
`zathura_error_t` is declared outside `src/`. -/
inductive zathura_error_t where
  | ZATHURA_ERROR_OK
  | ZATHURA_ERROR_UNKNOWN
  | ZATHURA_ERROR_OUT_OF_MEMORY
  | ZATHURA_ERROR_INVALID_ARGUMENTS
  deriving DecidableEq

/-- What `render.c` tests of a `mupdf_document_t`: whether `ctx` is non-null. -/
structure mupdf_document_t where
  ctx : Bool

/-- What `render.c` tests of a `mupdf_page_t`: whether `page` is non-null. -/
structure mupdf_page_t where
  page : Bool

/-- The rasterizer as seen from one call: whether `fz_run_page` returns
(`false`: it throws), the value of `fz_pixmap_components`, and the object
behind `fz_pixmap_samples` of the pixmap created for the box `(0, 0, x1, y1)`
once the display list has been drawn into it. -/
structure Rasterizer where
  run_page_ok : Bool
  components : Nat
  samples : Int → Int → SrcMem

/-- The mupdf objects created by `pdf_page_render_to_buffer`. -/
inductive Handle where
  | display_list
  | list_device
  | pixmap
  | draw_device
  deriving DecidableEq

/-- The three routines that the dispatch chooses from. -/
inductive Routine where
  | subpix_x
  | subpix_y
  | blit
  deriving DecidableEq

/-- What one call of `pdf_page_render_to_buffer` leaves behind: the value
returned, the handles created and not dropped, the scale of the matrix given
to `fz_run_page`, the corner `(x1, y1)` of the box the pixmap is created with,
the routine dispatched to, and the destination (`none` once a routine has
read outside the pixmap). -/
structure ToBufferResult where
  error : zathura_error_t
  live : List Handle
  scale : Option (ℚ × ℚ)
  bbox : Option (Int × Int)
  routine : Option Routine
  image : Option DstBuf

/-- The value that `render.c` gives its local `subpix_order`. -/
def configured_subpix_order : Int := SUBPIXEL_HRGB

/-- The multipliers `(subpixx, subpixy)` as lines 139-145 compute them. -/
def subpix_factors (subpix_order : Int) : Int × Int :=
  let subpixx : Int := 1
  let subpixy : Int := 1
  if subpix_order = SUBPIXEL_HRGB ∨ subpix_order = SUBPIXEL_HBGR then (3, subpixy)
  else if subpix_order = SUBPIXEL_VRGB ∨ subpix_order = SUBPIXEL_VBGR then (subpixx, 3)
  else (subpixx, subpixy)

/-- `pdf_page_render_to_buffer`.  The source initialises its local
`subpix_order` to `SUBPIXEL_HRGB`; here it is a parameter (first argument),
`configured_subpix_order` being the value of the source.  `image` is `none`
for a null pointer, `buf` the destination object it points into. -/
def pdf_page_render_to_buffer (subpix_order : Int) (fz : Rasterizer)
    (mupdf_document : Option mupdf_document_t) (mupdf_page : Option mupdf_page_t)
    (image : Option Int) (buf : DstBuf) (rowstride components : Int)
    (page_width page_height : Nat) (scalex scaley : ℚ) : ToBufferResult :=
  match mupdf_document, mupdf_page, image with
  | some document, some page, some image =>
    if document.ctx = false ∨ page.page = false then
      ⟨.ZATHURA_ERROR_UNKNOWN, [], none, none, none, some buf⟩
    else
      -- fz_new_display_list, fz_new_list_device
      let live := [Handle.display_list, Handle.list_device]
      let subpixx := (subpix_factors subpix_order).1
      let subpixy := (subpix_factors subpix_order).2
      let scale := (scalex * (subpixx : ℚ), scaley * (subpixy : ℚ))
      if fz.run_page_ok = false then
        -- fz_catch
        ⟨.ZATHURA_ERROR_UNKNOWN, live, some scale, none, none, some buf⟩
      else
        -- fz_drop_device
        let live := live.erase Handle.list_device
        let x1 := toI32 (mulU32 page_width (toU32 subpixx))
        let y1 := toI32 (mulU32 page_height (toU32 subpixy))
        -- fz_new_pixmap_with_bbox, fz_clear_pixmap_with_value
        let live := live ++ [Handle.pixmap]
        -- fz_new_draw_device, fz_run_display_list, fz_drop_device
        let live := live ++ [Handle.draw_device]
        let live := live.erase Handle.draw_device
        let s : Int := 0
        let n := fz.components
        let out : Routine × Option DstBuf :=
          if subpixx = 3 then
            (Routine.subpix_x, buffer_subpix_x (fz.samples x1 y1) buf image components rowstride
              s (toI32 n) (toI32 (mulU32 (mulU32 n page_width) 3)) (toI32 page_width)
              (toI32 page_height) subpix_order)
          else if subpixy = 3 then
            (Routine.subpix_y, buffer_subpix_y (fz.samples x1 y1) buf image components rowstride
              s (toI32 n) (toI32 (mulU32 n page_width)) (toI32 page_width)
              (toI32 page_height) subpix_order)
          else
            (Routine.blit, buffer_blit (fz.samples x1 y1) buf image components rowstride
              s (toI32 n) (toI32 (mulU32 n page_width)) (toI32 page_width)
              (toI32 page_height))
        -- fz_drop_pixmap, fz_drop_display_list
        let live := live.erase Handle.pixmap
        let live := live.erase Handle.display_list
        ⟨.ZATHURA_ERROR_OK, live, some scale, some (x1, y1), some out.1, out.2⟩
  | _, _, _ => ⟨.ZATHURA_ERROR_UNKNOWN, [], none, none, none, some buf⟩

/-- What `render.c` reads of a `zathura_document_t`: the zoom factor
(`zathura_document_get_scale`) and the plugin data
(`zathura_document_get_data`, `none` for null). -/
structure zathura_document_t where
  scale : ℚ
  data : Option mupdf_document_t

/-- What `render.c` reads of a `zathura_page_t`: its document
(`zathura_page_get_document`, `none` for null) and its size in page units. -/
structure zathura_page_t where
  document : Option zathura_document_t
  width : ℚ
  height : ℚ

/-- The fields of a `zathura_image_buffer_t` that `render.c` reads. -/
structure zathura_image_buffer_t where
  data : Int
  rowstride : Int

/-- What one call of `pdf_page_render` leaves behind: the buffer returned
(`none` for `NULL`), the contents of `*error` (`none` when `error` is null),
the arguments of the calls of `zathura_image_buffer_create`, whether
`zathura_image_buffer_free` was called, the memory of the buffer, and the
record of the inner call. -/
structure RenderResult where
  image_buffer : Option zathura_image_buffer_t
  error : Option zathura_error_t
  created : List (Nat × Nat)
  freed : Bool
  image : Option DstBuf
  inner : Option ToBufferResult

/-- `pdf_page_render`.  `alloc` is `zathura_image_buffer_create` (`none`: it
returns `NULL`; otherwise the buffer and the initial contents of its memory);
`error` is `none` for a null pointer and otherwise the value `*error` holds
before the call. -/
def pdf_page_render (subpix_order : Int) (fz : Rasterizer)
    (alloc : Nat → Nat → Option (zathura_image_buffer_t × (Int → Nat)))
    (page : Option zathura_page_t) (mupdf_page : Option mupdf_page_t)
    (error : Option zathura_error_t) : RenderResult :=
  match page, mupdf_page with
  | some page, some mupdf_page =>
    match page.document with
    | none => ⟨none, error, [], false, none, none⟩
    | some document =>
      let scalex := document.scale
      let scaley := scalex
      let page_width := truncU32 (roundDouble (scalex * page.width))
      let page_height := truncU32 (roundDouble (scaley * page.height))
      match alloc page_width page_height with
      | none =>
        ⟨none, error.map (fun _ => .ZATHURA_ERROR_OUT_OF_MEMORY), [(page_width, page_height)],
          false, none, none⟩
      | some (image_buffer, init) =>
        let rowstride := image_buffer.rowstride
        let image := image_buffer.data
        let mupdf_document := document.data
        let r := pdf_page_render_to_buffer subpix_order fz mupdf_document (some mupdf_page)
          (some image) ⟨init, []⟩ rowstride 3 page_width page_height scalex scaley
        if r.error ≠ .ZATHURA_ERROR_OK then
          ⟨none, error.map (fun _ => r.error), [(page_width, page_height)], true, none, some r⟩
        else
          ⟨some image_buffer, error, [(page_width, page_height)], false, r.image, some r⟩
  | _, _ =>
    ⟨none, error.map (fun _ => .ZATHURA_ERROR_INVALID_ARGUMENTS), [], false, none, none⟩

/-! ## Specification-side definitions -/

/-- Output of `filter` on five neighbouring samples of the line `f`, centred
at position `p`, as stored into an `unsigned char`. -/
def win5 (f : Nat → Nat) (p : Nat) : Nat :=
  toU8 (filter (f (p - 2)) (f (p - 1)) (f p) (f (p + 1)) (f (p + 2)))

/-- Centre, along the oversampled axis, of the window filtered for channel `c`
of output position `x`: with the reversed (BGR) order blue sits at `3x` and
red at `3x+2`, otherwise blue at `3x+2` and red at `3x`; green is at `3x+1`. -/
def centre (reversed : Bool) (x c : Nat) : Nat :=
  if reversed then 3 * x + c else 3 * x + 2 - c

/-- Value that the 3x downsampler stores for channel `c` of output position
`x` (of `w`) from the oversampled line `f c`: the edge positions are copies
of samples `1` and `3w-2`, the interior ones are filtered. -/
def outLine (reversed : Bool) (w : Nat) (f : Nat → Nat → Nat) (x c : Nat) : Nat :=
  if x = 0 then f c 1
  else if x + 1 = w then f c (3 * w - 2)
  else win5 (f c) (centre reversed x c)

/-- The source object holds, from offset `src` on, a plane of `rows` rows of
`cols` pixels (row stride `stride`, `n` bytes per pixel) whose first three
bytes per pixel are `S y p 0`, `S y p 1`, `S y p 2`. -/
def HoldsPlane (smem : SrcMem) (src stride n : Int) (rows cols : Nat)
    (S : Nat → Nat → Nat → Nat) : Prop :=
  ∀ y p c, y < rows → p < cols → c < 3 → smem (pix src stride n y p c) = some (S y p c)

/-- Whether `subpix_order` makes `buffer_subpix_x` scan in reversed order
(`blue_offset = -n`). -/
def revX (subpix_order : Int) : Bool := decide (subpix_order = SUBPIXEL_HBGR)

/-- Whether `subpix_order` makes `buffer_subpix_y` scan in reversed order. -/
def revY (subpix_order : Int) : Bool := decide (subpix_order = SUBPIXEL_VBGR)

/-- Byte `c` of output pixel `(y, x)` of the horizontal downsampler, for output
width `w` and the oversampled plane `S`. -/
def outX (subpix_order : Int) (w : Nat) (S : Nat → Nat → Nat → Nat) (y x c : Nat) : Nat :=
  outLine (revX subpix_order) w (fun c p => S y p c) x c

/-- Byte `c` of output pixel `(y, x)` of the vertical downsampler, for output
height `h` and the oversampled plane `S`. -/
def outY (subpix_order : Int) (h : Nat) (S : Nat → Nat → Nat → Nat) (y x c : Nat) : Nat :=
  outLine (revY subpix_order) h (fun c r => S r x c) y c

/-! ## Concrete inputs -/

/-- A source object defined at every offset, whose byte at offset `a` is
`a mod 256`. -/
def rampMem : SrcMem := fun a => some (a.toNat % 256)

/-- The plane that `rampMem` holds from offset 0 on, for row stride `ss` and
`n` bytes per pixel. -/
def rampPlane (ss n : Int) : Nat → Nat → Nat → Nat :=
  fun y p c => (pix 0 ss n y p c).toNat % 256

/-- A source object in which exactly the three channel bytes of the pixels of
a plane of `rows` rows of `cols` pixels are readable (with the bytes `bytes`);
a read at any other offset fails. -/
def planeOnly (bytes : Int → Nat) (src stride n : Int) (rows cols : Nat) : SrcMem :=
  fun a =>
    if (List.range rows).any (fun y => (List.range cols).any (fun p =>
        (List.range 3).any (fun c => decide (a = pix src stride n y p c))))
    then some (bytes a) else none

/-- Channel byte `c` of the colour with blue `b`, green `g`, red `r`. -/
def bgr (b g r : Nat) (c : Nat) : Nat := if c = 0 then b else if c = 1 then g else r

/-- A source object filled with 3-byte pixels of one colour. -/
def flatMem (b g r : Nat) : SrcMem := fun a => some (bgr b g r (a % 3).toNat)

/-- An allocator that hands out a packed 3-byte-per-pixel buffer at offset 0,
filled with zeros. -/
def packedAlloc : Nat → Nat → Option (zathura_image_buffer_t × (Int → Nat)) :=
  fun w _ => some (⟨0, 3 * (w : Int)⟩, fun _ => 0)

/-- A rasterizer that succeeds and whose pixmaps have 4 bytes per pixel and
hold the ramp bytes. -/
def rampRasterizer : Rasterizer := ⟨true, 4, fun _ _ => rampMem⟩

/-- A page of `pw` by `ph` units in a document with zoom factor `s`, the
plugin data and its context present. -/
def pageOf (s pw ph : ℚ) : zathura_page_t := ⟨some ⟨s, some ⟨true⟩⟩, pw, ph⟩

/-- The oversampled plane with its pixel columns reversed: column `p` of the
result is column `3w-1-p` of `P`. -/
def mirror3 (w : Nat) (P : Nat → Nat → Nat → Nat) : Nat → Nat → Nat → Nat :=
  fun y p c => P y (3 * w - 1 - p) c

/-- A source object laid out with row stride `stride` and `n` bytes per pixel
from offset 0 on, whose byte `c` of pixel `p` in row `y` is `S y p c`. -/
def planeMem (S : Nat → Nat → Nat → Nat) (stride n : Nat) : SrcMem :=
  fun a => some (S (a.toNat / stride) (a.toNat % stride / n) (a.toNat % stride % n))

/-! ## Machine-integer facts -/

theorem toU32_natCast (k : Nat) (hk : (k : Int) ≤ INT_MAX) : toU32 (k : Int) = k := by
  unfold toU32
  unfold INT_MAX at hk
  omega

theorem toU32_pred (k : Nat) (h1 : 1 ≤ k) (hk : (k : Int) ≤ INT_MAX) :
    toU32 ((k : Int) - 1) - 1 = k - 2 := by
  unfold toU32
  unfold INT_MAX at hk
  omega

/-! ## The filter -/

theorem filter_eq_ediv (x0 x1 x2 x3 x4 : Int) :
    filter x0 x1 x2 x3 x4
      = Int.tdiv (16 * x0 + 80 * x1 + 96 * x2 + 80 * x3 + 16 * x4 + 144) 288 := by
  have hW : Int.tdiv 288 2 = 144 := by decide
  simp only [filter]
  norm_num [hW]
  congr 1
  ring

theorem filter_eq_div (x0 x1 x2 x3 x4 : Int)
    (h0 : 0 ≤ x0) (h1 : 0 ≤ x1) (h2 : 0 ≤ x2) (h3 : 0 ≤ x3) (h4 : 0 ≤ x4) :
    filter x0 x1 x2 x3 x4
      = (16 * x0 + 80 * x1 + 96 * x2 + 80 * x3 + 16 * x4 + 144) / 288 := by
  rw [filter_eq_ediv, Int.tdiv_eq_ediv (by omega) (by omega)]

theorem filter_range (x0 x1 x2 x3 x4 : Int)
    (h0 : 0 ≤ x0 ∧ x0 ≤ 255) (h1 : 0 ≤ x1 ∧ x1 ≤ 255) (h2 : 0 ≤ x2 ∧ x2 ≤ 255)
    (h3 : 0 ≤ x3 ∧ x3 ≤ 255) (h4 : 0 ≤ x4 ∧ x4 ≤ 255) :
    0 ≤ filter x0 x1 x2 x3 x4 ∧ filter x0 x1 x2 x3 x4 ≤ 255 := by
  rw [filter_eq_div x0 x1 x2 x3 x4 h0.1 h1.1 h2.1 h3.1 h4.1]
  omega

theorem filter_const (x : Int) (h : 0 ≤ x) : filter x x x x x = x := by
  rw [filter_eq_div x x x x x h h h h h]
  omega

theorem toU8_filter (x0 x1 x2 x3 x4 : Nat)
    (h0 : x0 < 256) (h1 : x1 < 256) (h2 : x2 < 256) (h3 : x3 < 256) (h4 : x4 < 256) :
    ((toU8 (filter x0 x1 x2 x3 x4) : Nat) : Int) = filter x0 x1 x2 x3 x4 := by
  have h := filter_range x0 x1 x2 x3 x4 (by omega) (by omega) (by omega) (by omega) (by omega)
  unfold toU8
  omega

/-! ## Destination memory -/

theorem lookup_eq_none_of_forall_not_mem (l : List (Int × Nat)) (a : Int)
    (h : ∀ v, (a, v) ∉ l) : l.lookup a = none := by
  induction l with
  | nil => rfl
  | cons e l ih =>
    obtain ⟨k, u⟩ := e
    have hk : a ≠ k := by
      intro e
      exact h u (by simp [e])
    have hl : ∀ v, (a, v) ∉ l := fun v hv => h v (List.mem_cons_of_mem _ hv)
    have hb : (a == k) = false := by simpa using hk
    simp [List.lookup_cons, hb, ih hl]

theorem lookup_eq_some_of_functional (l : List (Int × Nat)) (a : Int) (v : Nat)
    (hm : (a, v) ∈ l) (hf : ∀ u, (a, u) ∈ l → u = v) : l.lookup a = some v := by
  induction l with
  | nil => simp at hm
  | cons e l ih =>
    obtain ⟨k, u⟩ := e
    by_cases hk : a = k
    · subst hk
      have : u = v := hf u (by simp)
      simp [List.lookup_cons, this]
    · have hm2 : (a, v) ∈ l := by
        rcases List.mem_cons.1 hm with h | h
        · exact absurd (congrArg Prod.fst h) hk
        · exact h
      have := ih hm2 (fun u hu => hf u (List.mem_cons_of_mem _ hu))
      have hb : (a == k) = false := by simpa using hk
      simp [List.lookup_cons, hb, this]

/-- A byte no store went to still holds its initial value. -/
theorem DstBuf.get_of_not_written (b : DstBuf) (a : Int) (h : ∀ v, (a, v) ∉ b.writes) :
    b.get a = b.init a := by
  simp [DstBuf.get, lookup_eq_none_of_forall_not_mem b.writes a h]

/-- A byte all of whose stores carried the value `v` holds `v`. -/
theorem DstBuf.get_of_written (b : DstBuf) (a : Int) (v : Nat) (hm : (a, v) ∈ b.writes)
    (hf : ∀ u, (a, u) ∈ b.writes → u = v) : b.get a = v := by
  simp [DstBuf.get, lookup_eq_some_of_functional b.writes a v hm hf]

/-! ## Straight-line pieces -/

theorem copy3_spec (smem : SrcMem) (b : DstBuf) (d s : Int) (v0 v1 v2 : Nat)
    (h0 : smem s = some v0) (h1 : smem (s + 1) = some v1) (h2 : smem (s + 2) = some v2) :
    copy3 smem b d s
      = some ⟨b.init, (d + 2, v2) :: (d + 1, v1) :: (d, v0) :: b.writes⟩ := by
  simp [copy3, DstBuf.store, h0, h1, h2]

theorem tap5_spec (smem : SrcMem) (s n : Int) (x0 x1 x2 x3 x4 : Nat)
    (h0 : smem (s + -n * 2) = some x0) (h1 : smem (s + -n) = some x1)
    (h2 : smem (s + 0) = some x2) (h3 : smem (s + n) = some x3)
    (h4 : smem (s + n * 2) = some x4) :
    tap5 smem s n = some (filter x0 x1 x2 x3 x4) := by
  simp only [tap5, h0, h1, h2, h3, h4]
  rfl

/-- One interior pixel.  The seven samples around the current position are
`g (-3) c .. g 3 c`; `bo` is `blue_offset`, which is `n` or `-n`. -/
theorem filter3_spec (smem : SrcMem) (n : Int) (rev : Bool) (b : DstBuf) (d s : Int)
    (g : Int → Nat → Nat)
    (hg : ∀ k : Int, ∀ c : Nat, -3 ≤ k → k ≤ 3 → c < 3 → smem (s + k * n + c) = some (g k c)) :
    filter3 smem n (if rev then -n else n) b d s
      = some (⟨b.init,
          (d + 2, toU8 (filter (g ((if rev then 1 else -1) - 2) 2) (g ((if rev then 1 else -1) - 1) 2)
              (g (if rev then 1 else -1) 2) (g ((if rev then 1 else -1) + 1) 2)
              (g ((if rev then 1 else -1) + 2) 2))) ::
          (d + 1, toU8 (filter (g (-2) 1) (g (-1) 1) (g 0 1) (g 1 1) (g 2 1))) ::
          (d, toU8 (filter (g ((if rev then -1 else 1) - 2) 0) (g ((if rev then -1 else 1) - 1) 0)
              (g (if rev then -1 else 1) 0) (g ((if rev then -1 else 1) + 1) 0)
              (g ((if rev then -1 else 1) + 2) 0))) :: b.writes⟩,
        s + 2 - (if rev then -n else n)) := by
  have rd : ∀ (a : Int) (k : Int) (c : Nat), -3 ≤ k → k ≤ 3 → c < 3 → a = s + k * n + c →
      smem a = some (g k c) := by
    intro a k c h1 h2 h3 e
    rw [e]
    exact hg k c h1 h2 h3
  cases rev
  · -- blue_offset = n
    have tb := tap5_spec smem (s + n) n _ _ _ _ _
      (rd _ (-1) 0 (by omega) (by omega) (by omega) (by push_cast; ring))
      (rd _ 0 0 (by omega) (by omega) (by omega) (by push_cast; ring))
      (rd _ 1 0 (by omega) (by omega) (by omega) (by push_cast; ring))
      (rd _ 2 0 (by omega) (by omega) (by omega) (by push_cast; ring))
      (rd _ 3 0 (by omega) (by omega) (by omega) (by push_cast; ring))
    have tg := tap5_spec smem (s + n + (-n + 1)) n _ _ _ _ _
      (rd _ (-2) 1 (by omega) (by omega) (by omega) (by push_cast; ring))
      (rd _ (-1) 1 (by omega) (by omega) (by omega) (by push_cast; ring))
      (rd _ 0 1 (by omega) (by omega) (by omega) (by push_cast; ring))
      (rd _ 1 1 (by omega) (by omega) (by omega) (by push_cast; ring))
      (rd _ 2 1 (by omega) (by omega) (by omega) (by push_cast; ring))
    have tr := tap5_spec smem (s + n + (-n + 1) + (-n + 1)) n _ _ _ _ _
      (rd _ (-3) 2 (by omega) (by omega) (by omega) (by push_cast; ring))
      (rd _ (-2) 2 (by omega) (by omega) (by omega) (by push_cast; ring))
      (rd _ (-1) 2 (by omega) (by omega) (by omega) (by push_cast; ring))
      (rd _ 0 2 (by omega) (by omega) (by omega) (by push_cast; ring))
      (rd _ 1 2 (by omega) (by omega) (by omega) (by push_cast; ring))
    simp only [filter3, Bool.false_eq_true, if_false, tb, tg, tr, DstBuf.store]
    simp
    ring
  · -- blue_offset = -n
    have tb := tap5_spec smem (s + -n) n _ _ _ _ _
      (rd _ (-3) 0 (by omega) (by omega) (by omega) (by push_cast; ring))
      (rd _ (-2) 0 (by omega) (by omega) (by omega) (by push_cast; ring))
      (rd _ (-1) 0 (by omega) (by omega) (by omega) (by push_cast; ring))
      (rd _ 0 0 (by omega) (by omega) (by omega) (by push_cast; ring))
      (rd _ 1 0 (by omega) (by omega) (by omega) (by push_cast; ring))
    have tg := tap5_spec smem (s + -n + (- -n + 1)) n _ _ _ _ _
      (rd _ (-2) 1 (by omega) (by omega) (by omega) (by push_cast; ring))
      (rd _ (-1) 1 (by omega) (by omega) (by omega) (by push_cast; ring))
      (rd _ 0 1 (by omega) (by omega) (by omega) (by push_cast; ring))
      (rd _ 1 1 (by omega) (by omega) (by omega) (by push_cast; ring))
      (rd _ 2 1 (by omega) (by omega) (by omega) (by push_cast; ring))
    have tr := tap5_spec smem (s + -n + (- -n + 1) + (- -n + 1)) n _ _ _ _ _
      (rd _ (-1) 2 (by omega) (by omega) (by omega) (by push_cast; ring))
      (rd _ 0 2 (by omega) (by omega) (by omega) (by push_cast; ring))
      (rd _ 1 2 (by omega) (by omega) (by omega) (by push_cast; ring))
      (rd _ 2 2 (by omega) (by omega) (by omega) (by push_cast; ring))
      (rd _ 3 2 (by omega) (by omega) (by omega) (by push_cast; ring))
    simp only [filter3, if_true, tb, tg, tr, DstBuf.store]
    simp
    ring

/-- One interior pixel at position `x ≥ 1` of a line of samples: `s0` is the
offset of sample 0, consecutive samples are `n` bytes apart, and byte `c` of
sample `p` is `f c p`. -/
theorem filter3_line (smem : SrcMem) (n : Int) (rev : Bool) (b : DstBuf) (d s0 : Int)
    (f : Nat → Nat → Nat) (x : Nat) (hx : 1 ≤ x)
    (hf : ∀ p c : Nat, 3 * x - 2 ≤ p → p ≤ 3 * x + 4 → c < 3 →
      smem (s0 + (p : Int) * n + c) = some (f c p)) :
    filter3 smem n (if rev then -n else n) b d (s0 + ((3 * x + 1 : Nat) : Int) * n)
      = some (⟨b.init,
          (d + 2, win5 (f 2) (centre rev x 2)) :: (d + 1, win5 (f 1) (centre rev x 1)) ::
          (d, win5 (f 0) (centre rev x 0)) :: b.writes⟩,
        s0 + ((3 * x + 1 : Nat) : Int) * n + 2 - (if rev then -n else n)) := by
  have key := filter3_spec smem n rev b d (s0 + ((3 * x + 1 : Nat) : Int) * n)
    (fun k c => f c (Int.toNat (((3 * x + 1 : Nat) : Int) + k)))
    (by
      intro k c h1 h2 h3
      have e : s0 + ((3 * x + 1 : Nat) : Int) * n + k * n + (c : Int)
          = s0 + ((Int.toNat (((3 * x + 1 : Nat) : Int) + k) : Nat) : Int) * n + c := by
        rw [Int.toNat_of_nonneg (by omega)]
        ring
      rw [e]
      exact hf _ c (by omega) (by omega) h3)
  rw [key]
  cases rev
  · simp only [win5, centre, Bool.false_eq_true, if_false]
    congr! 11 <;> omega
  · simp only [win5, centre, if_true]
    congr! 11 <;> omega

/-! ## Loops of `buffer_subpix_x` -/

theorem subpix_x_cols_spec (smem : SrcMem) (src ss n dn : Int) (h w : Nat)
    (S : Nat → Nat → Nat → Nat) (hS : HoldsPlane smem src ss n h (3 * w) S) (rev : Bool)
    (y : Nat) (hy : y < h) (drow : Int) :
    ∀ (k x : Nat) (b : DstBuf), 1 ≤ x → x + k + 1 ≤ w →
    ∃ new, subpix_x_cols smem dn n n (if rev then -n else n) k b (drow + (x : Int) * dn)
          (pix src ss n y (3 * x + 1) 0)
        = some (⟨b.init, new ++ b.writes⟩, drow + ((x + k : Nat) : Int) * dn,
            pix src ss n y (3 * (x + k) + 1) 0)
      ∧ ∀ a v, (a, v) ∈ new ↔ ∃ x' c : Nat, x ≤ x' ∧ x' < x + k ∧ c < 3 ∧
          a = drow + (x' : Int) * dn + (c : Int) ∧
          v = win5 (fun p => S y p c) (centre rev x' c) := by
  intro k
  induction k with
  | zero =>
    intro x b _ _
    refine ⟨[], by simp [subpix_x_cols], ?_⟩
    intro a v
    simp only [List.not_mem_nil, false_iff, not_exists, not_and]
    intro x' c h1 h2
    omega
  | succ k ih =>
    intro x b hx hxk
    have f3 := filter3_line smem n rev b (drow + (x : Int) * dn) (pix src ss n y 0 0)
      (fun c p => S y p c) x hx (by
        intro p c h1 h2 h3
        have := hS y p c hy (by omega) h3
        rw [← this]
        congr 1
        simp [pix])
    have es : pix src ss n y (3 * x + 1) 0 = pix src ss n y 0 0 + ((3 * x + 1 : Nat) : Int) * n := by
      simp [pix]
    have es2 : pix src ss n y 0 0 + ((3 * x + 1 : Nat) : Int) * n + 2 - (if rev then -n else n)
        + ((if rev then -n else n) - 2 + n * 3) = pix src ss n y (3 * (x + 1) + 1) 0 := by
      simp only [pix]
      push_cast
      ring
    have ed : drow + (x : Int) * dn + dn = drow + ((x + 1 : Nat) : Int) * dn := by
      push_cast
      ring
    obtain ⟨new, hrun, hmem⟩ := ih (x + 1)
      ⟨b.init, (drow + (x : Int) * dn + 2, win5 (fun p => S y p 2) (centre rev x 2)) ::
        (drow + (x : Int) * dn + 1, win5 (fun p => S y p 1) (centre rev x 1)) ::
        (drow + (x : Int) * dn, win5 (fun p => S y p 0) (centre rev x 0)) :: b.writes⟩
      (by omega) (by omega)
    refine ⟨new ++ [(drow + (x : Int) * dn + 2, win5 (fun p => S y p 2) (centre rev x 2)),
        (drow + (x : Int) * dn + 1, win5 (fun p => S y p 1) (centre rev x 1)),
        (drow + (x : Int) * dn, win5 (fun p => S y p 0) (centre rev x 0))], ?_, ?_⟩
    · simp only [subpix_x_cols]
      rw [es, f3]
      simp only [Option.bind_eq_bind, Option.some_bind]
      rw [es2, ed, hrun]
      simp only [List.append_assoc, List.cons_append, List.nil_append]
      have e3 : x + 1 + k = x + (k + 1) := by omega
      rw [e3]
    · intro a v
      rw [List.mem_append, hmem]
      constructor
      · rintro (⟨x', c, h1, h2, h3, h4, h5⟩ | hm)
        · exact ⟨x', c, by omega, by omega, h3, h4, h5⟩
        · simp only [List.mem_cons, Prod.mk.injEq, List.mem_singleton, List.not_mem_nil,
            or_false] at hm
          rcases hm with ⟨ha, hv⟩ | ⟨ha, hv⟩ | ⟨ha, hv⟩
          · exact ⟨x, 2, le_refl _, by omega, by omega, by rw [ha]; norm_num, hv⟩
          · exact ⟨x, 1, le_refl _, by omega, by omega, by rw [ha]; norm_num, hv⟩
          · exact ⟨x, 0, le_refl _, by omega, by omega, by rw [ha]; norm_num, hv⟩
      · rintro ⟨x', c, h1, h2, h3, h4, h5⟩
        by_cases hxx : x' = x
        · right
          subst hxx
          simp only [List.mem_cons, Prod.mk.injEq, List.mem_singleton, List.not_mem_nil,
            or_false]
          interval_cases c
          · right; right
            exact ⟨by rw [h4]; norm_num, h5⟩
          · right; left
            exact ⟨by rw [h4]; norm_num, h5⟩
          · left
            exact ⟨by rw [h4]; norm_num, h5⟩
        · left
          exact ⟨x', c, by omega, by omega, h3, h4, h5⟩

theorem subpix_x_row_spec (smem : SrcMem) (src ss n dn : Int) (h w : Nat)
    (S : Nat → Nat → Nat → Nat) (hS : HoldsPlane smem src ss n h (3 * w) S) (rev : Bool)
    (hw : 2 ≤ w) (hwI : (w : Int) ≤ INT_MAX) (y : Nat) (hy : y < h) (drow : Int) (b : DstBuf) :
    ∃ new, subpix_x_row smem dn n n (if rev then -n else n) (w : Int) b drow
          (pix src ss n y 1 0)
        = some ⟨b.init, new ++ b.writes⟩
      ∧ ∀ a v, (a, v) ∈ new ↔ ∃ x c : Nat, x < w ∧ c < 3 ∧
          a = drow + (x : Int) * dn + (c : Int) ∧
          v = outLine rev w (fun c p => S y p c) x c := by
  have c1 := copy3_spec smem b drow (pix src ss n y 1 0) (S y 1 0) (S y 1 1) (S y 1 2)
    (hS y 1 0 hy (by omega) (by omega))
    (by rw [← hS y 1 1 hy (by omega) (by omega)]; simp only [pix]; congr 1; push_cast; ring)
    (by rw [← hS y 1 2 hy (by omega) (by omega)]; simp only [pix]; congr 1; push_cast; ring)
  obtain ⟨new, hrun, hmem⟩ := subpix_x_cols_spec smem src ss n dn h w S hS rev y hy drow
    (w - 2) 1 ⟨b.init, (drow + 2, S y 1 2) :: (drow + 1, S y 1 1) :: (drow, S y 1 0) :: b.writes⟩
    (le_refl _) (by omega)
  have c2 := copy3_spec smem ⟨b.init, new ++ ((drow + 2, S y 1 2) :: (drow + 1, S y 1 1) ::
      (drow, S y 1 0) :: b.writes)⟩ (drow + ((1 + (w - 2) : Nat) : Int) * dn)
    (pix src ss n y (3 * (1 + (w - 2)) + 1) 0)
    (S y (3 * w - 2) 0) (S y (3 * w - 2) 1) (S y (3 * w - 2) 2)
    (by rw [← hS y (3 * w - 2) 0 hy (by omega) (by omega)]
        simp only [pix]
        rw [show 3 * (1 + (w - 2)) + 1 = 3 * w - 2 by omega])
    (by rw [← hS y (3 * w - 2) 1 hy (by omega) (by omega)]
        simp only [pix]
        rw [show 3 * (1 + (w - 2)) + 1 = 3 * w - 2 by omega]
        congr 1; push_cast; ring)
    (by rw [← hS y (3 * w - 2) 2 hy (by omega) (by omega)]
        simp only [pix]
        rw [show 3 * (1 + (w - 2)) + 1 = 3 * w - 2 by omega]
        congr 1; push_cast; ring)
  have es : pix src ss n y 1 0 + n * 3 = pix src ss n y (3 * 1 + 1) 0 := by
    simp only [pix]; push_cast; ring
  have ed : drow + dn = drow + ((1 : Nat) : Int) * dn := by push_cast; ring
  refine ⟨(drow + ((1 + (w - 2) : Nat) : Int) * dn + 2, S y (3 * w - 2) 2) ::
      (drow + ((1 + (w - 2) : Nat) : Int) * dn + 1, S y (3 * w - 2) 1) ::
      (drow + ((1 + (w - 2) : Nat) : Int) * dn, S y (3 * w - 2) 0) ::
      (new ++ [(drow + 2, S y 1 2), (drow + 1, S y 1 1), (drow, S y 1 0)]), ?_, ?_⟩
  · simp only [subpix_x_row]
    rw [c1]
    simp only [Option.bind_eq_bind, Option.some_bind]
    rw [toU32_pred w (by omega) hwI, es, ed, hrun]
    simp only [Option.some_bind]
    rw [c2]
    simp
  · intro a v
    have ew : ((1 + (w - 2) : Nat) : Int) = ((w - 1 : Nat) : Int) := by
      congr 1; omega
    rw [ew]
    simp only [List.mem_cons, List.mem_append, hmem, Prod.mk.injEq, List.not_mem_nil, or_false]
    constructor
    · rintro (⟨ha, hv⟩ | ⟨ha, hv⟩ | ⟨ha, hv⟩ | ⟨x', c, h1, h2, h3, h4, h5⟩ | ⟨ha, hv⟩ |
        ⟨ha, hv⟩ | ⟨ha, hv⟩)
      · exact ⟨w - 1, 2, by omega, by omega, by rw [ha]; norm_num,
          by rw [hv, outLine, if_neg (by omega), if_pos (by omega)]⟩
      · exact ⟨w - 1, 1, by omega, by omega, by rw [ha]; norm_num,
          by rw [hv, outLine, if_neg (by omega), if_pos (by omega)]⟩
      · exact ⟨w - 1, 0, by omega, by omega, by rw [ha]; norm_num,
          by rw [hv, outLine, if_neg (by omega), if_pos (by omega)]⟩
      · refine ⟨x', c, by omega, h3, h4, ?_⟩
        rw [h5, outLine, if_neg (by omega), if_neg (by omega)]
      · exact ⟨0, 2, by omega, by omega, by rw [ha]; norm_num, by rw [hv]; simp [outLine]⟩
      · exact ⟨0, 1, by omega, by omega, by rw [ha]; norm_num, by rw [hv]; simp [outLine]⟩
      · exact ⟨0, 0, by omega, by omega, by rw [ha]; norm_num, by rw [hv]; simp [outLine]⟩
    · rintro ⟨x, c, h1, h2, h3, h4⟩
      by_cases hx0 : x = 0
      · subst hx0
        have hv : v = S y 1 c := by rw [h4]; simp [outLine]
        right; right; right; right
        interval_cases c
        · right; right; exact ⟨by rw [h3]; norm_num, hv⟩
        · right; left; exact ⟨by rw [h3]; norm_num, hv⟩
        · left; exact ⟨by rw [h3]; norm_num, hv⟩
      · by_cases hxw : x + 1 = w
        · have hv : v = S y (3 * w - 2) c := by
            rw [h4, outLine, if_neg hx0, if_pos hxw]
          have hx : x = w - 1 := by omega
          subst hx
          interval_cases c
          · right; right; left; exact ⟨by rw [h3]; norm_num, hv⟩
          · right; left; exact ⟨by rw [h3]; norm_num, hv⟩
          · left; exact ⟨by rw [h3]; norm_num, hv⟩
        · right; right; right; left
          refine ⟨x, c, by omega, by omega, h2, h3, ?_⟩
          rw [h4, outLine, if_neg hx0, if_neg hxw]

theorem subpix_x_rows_spec (smem : SrcMem) (dst src ss n dn ds : Int) (h w : Nat)
    (S : Nat → Nat → Nat → Nat) (hS : HoldsPlane smem src ss n h (3 * w) S) (rev : Bool)
    (hw : 2 ≤ w) (hwI : (w : Int) ≤ INT_MAX) :
    ∀ (k y0 : Nat) (b : DstBuf), y0 + k ≤ h →
    ∃ new, subpix_x_rows smem dn ds n ss n (if rev then -n else n) (w : Int) k b
          (dst + (y0 : Int) * ds) (pix src ss n y0 1 0)
        = some ⟨b.init, new ++ b.writes⟩
      ∧ ∀ a v, (a, v) ∈ new ↔ ∃ y x c : Nat, y0 ≤ y ∧ y < y0 + k ∧ x < w ∧ c < 3 ∧
          a = pix dst ds dn y x c ∧ v = outLine rev w (fun c p => S y p c) x c := by
  intro k
  induction k with
  | zero =>
    intro y0 b _
    refine ⟨[], by simp [subpix_x_rows], ?_⟩
    intro a v
    simp only [List.not_mem_nil, false_iff, not_exists, not_and]
    intro y x c h1 h2
    omega
  | succ k ih =>
    intro y0 b hk
    obtain ⟨new1, hrun1, hmem1⟩ := subpix_x_row_spec smem src ss n dn h w S hS rev hw hwI y0
      (by omega) (dst + (y0 : Int) * ds) b
    obtain ⟨new2, hrun2, hmem2⟩ := ih (y0 + 1) ⟨b.init, new1 ++ b.writes⟩ (by omega)
    have ed : dst + (y0 : Int) * ds + ds = dst + ((y0 + 1 : Nat) : Int) * ds := by
      push_cast; ring
    have es : pix src ss n y0 1 0 + ss = pix src ss n (y0 + 1) 1 0 := by
      simp only [pix]; push_cast; ring
    refine ⟨new2 ++ new1, ?_, ?_⟩
    · simp only [subpix_x_rows]
      rw [hrun1]
      simp only [Option.bind_eq_bind, Option.some_bind]
      rw [ed, es, hrun2]
      simp
    · intro a v
      rw [List.mem_append, hmem1, hmem2]
      constructor
      · rintro (⟨y, x, c, h1, h2, h3, h4, h5, h6⟩ | ⟨x, c, h3, h4, h5, h6⟩)
        · exact ⟨y, x, c, by omega, by omega, h3, h4, h5, h6⟩
        · exact ⟨y0, x, c, le_refl _, by omega, h3, h4, by rw [h5]; rfl, h6⟩
      · rintro ⟨y, x, c, h1, h2, h3, h4, h5, h6⟩
        by_cases hy : y = y0
        · subst hy
          right
          exact ⟨x, c, h3, h4, by rw [h5]; rfl, h6⟩
        · left
          exact ⟨y, x, c, by omega, by omega, h3, h4, h5, h6⟩

/-- Stores of `buffer_subpix_x` on an oversampled plane of `h` rows of `3w`
pixels, `w ≥ 2`: it succeeds, and the stores it adds are exactly the bytes
`outX` at the three channel offsets of the `h × w` output pixels. -/
theorem buffer_subpix_x_spec (smem : SrcMem) (dst src ss n dn ds : Int) (h w : Nat)
    (S : Nat → Nat → Nat → Nat) (hS : HoldsPlane smem src ss n h (3 * w) S)
    (subpix_order : Int) (hw : 2 ≤ w) (hwI : (w : Int) ≤ INT_MAX) (hhI : (h : Int) ≤ INT_MAX)
    (b : DstBuf) :
    ∃ new, buffer_subpix_x smem b dst dn ds src n ss w h subpix_order
        = some ⟨b.init, new ++ b.writes⟩
      ∧ ∀ a v, (a, v) ∈ new ↔ ∃ y x c : Nat, y < h ∧ x < w ∧ c < 3 ∧
          a = pix dst ds dn y x c ∧ v = outX subpix_order w S y x c := by
  obtain ⟨new, hrun, hmem⟩ := subpix_x_rows_spec smem dst src ss n dn ds h w S hS
    (revX subpix_order) hw hwI h 0 b (by omega)
  refine ⟨new, ?_, ?_⟩
  · simp only [buffer_subpix_x]
    rw [toU32_natCast h hhI]
    have e1 : src + n = pix src ss n 0 1 0 := by simp [pix]
    have e2 : dst + ((0 : Nat) : Int) * ds = dst := by simp
    have e3 : (if subpix_order = SUBPIXEL_HBGR then -n else n)
        = (if revX subpix_order then -n else n) := by simp [revX]
    rw [e1, e3]
    rw [e2] at hrun
    exact hrun
  · intro a v
    rw [hmem]
    constructor
    · rintro ⟨y, x, c, -, h2, h3, h4, h5, h6⟩
      exact ⟨y, x, c, by omega, h3, h4, h5, h6⟩
    · rintro ⟨y, x, c, h2, h3, h4, h5, h6⟩
      exact ⟨y, x, c, by omega, by omega, h3, h4, h5, h6⟩

/-! ## Loops of `buffer_blit_row` and `buffer_blit` -/

theorem buffer_blit_row_loop_spec (smem : SrcMem) (src ss n dn : Int) (rows w : Nat)
    (S : Nat → Nat → Nat → Nat) (hS : HoldsPlane smem src ss n rows w S)
    (y : Nat) (hy : y < rows) (drow : Int) :
    ∀ (k x0 : Nat) (b : DstBuf), x0 + k ≤ w →
    ∃ new, buffer_blit_row_loop smem dn n k b (drow + (x0 : Int) * dn) (pix src ss n y x0 0)
        = some ⟨b.init, new ++ b.writes⟩
      ∧ ∀ a v, (a, v) ∈ new ↔ ∃ x c : Nat, x0 ≤ x ∧ x < x0 + k ∧ c < 3 ∧
          a = drow + (x : Int) * dn + (c : Int) ∧ v = S y x c := by
  intro k
  induction k with
  | zero =>
    intro x0 b _
    refine ⟨[], by simp [buffer_blit_row_loop], ?_⟩
    intro a v
    simp only [List.not_mem_nil, false_iff, not_exists, not_and]
    intro x c h1 h2
    omega
  | succ k ih =>
    intro x0 b hk
    have c1 := copy3_spec smem b (drow + (x0 : Int) * dn) (pix src ss n y x0 0)
      (S y x0 0) (S y x0 1) (S y x0 2)
      (hS y x0 0 hy (by omega) (by omega))
      (by rw [← hS y x0 1 hy (by omega) (by omega)]; simp only [pix]; congr 1; push_cast; ring)
      (by rw [← hS y x0 2 hy (by omega) (by omega)]; simp only [pix]; congr 1; push_cast; ring)
    obtain ⟨new, hrun, hmem⟩ := ih (x0 + 1) ⟨b.init, (drow + (x0 : Int) * dn + 2, S y x0 2) ::
      (drow + (x0 : Int) * dn + 1, S y x0 1) :: (drow + (x0 : Int) * dn, S y x0 0) :: b.writes⟩
      (by omega)
    have ed : drow + (x0 : Int) * dn + dn = drow + ((x0 + 1 : Nat) : Int) * dn := by
      push_cast; ring
    have es : pix src ss n y x0 0 + n = pix src ss n y (x0 + 1) 0 := by
      simp only [pix]; push_cast; ring
    refine ⟨new ++ [(drow + (x0 : Int) * dn + 2, S y x0 2),
      (drow + (x0 : Int) * dn + 1, S y x0 1), (drow + (x0 : Int) * dn, S y x0 0)], ?_, ?_⟩
    · simp only [buffer_blit_row_loop]
      rw [c1]
      simp only [Option.bind_eq_bind, Option.some_bind]
      rw [ed, es, hrun]
      simp
    · intro a v
      rw [List.mem_append, hmem]
      constructor
      · rintro (⟨x, c, h1, h2, h3, h4, h5⟩ | hm)
        · exact ⟨x, c, by omega, by omega, h3, h4, h5⟩
        · simp only [List.mem_cons, Prod.mk.injEq, List.mem_singleton, List.not_mem_nil,
            or_false] at hm
          rcases hm with ⟨ha, hv⟩ | ⟨ha, hv⟩ | ⟨ha, hv⟩
          · exact ⟨x0, 2, le_refl _, by omega, by omega, by rw [ha]; norm_num, hv⟩
          · exact ⟨x0, 1, le_refl _, by omega, by omega, by rw [ha]; norm_num, hv⟩
          · exact ⟨x0, 0, le_refl _, by omega, by omega, by rw [ha]; norm_num, hv⟩
      · rintro ⟨x, c, h1, h2, h3, h4, h5⟩
        by_cases hxx : x = x0
        · right
          subst hxx
          simp only [List.mem_cons, Prod.mk.injEq, List.mem_singleton, List.not_mem_nil,
            or_false]
          interval_cases c
          · right; right
            exact ⟨by rw [h4]; norm_num, h5⟩
          · right; left
            exact ⟨by rw [h4]; norm_num, h5⟩
          · left
            exact ⟨by rw [h4]; norm_num, h5⟩
        · left
          exact ⟨x, c, by omega, by omega, h3, h4, h5⟩

/-- Stores of `buffer_blit_row` on row `y` of a plane `w` pixels wide. -/
theorem buffer_blit_row_spec (smem : SrcMem) (src ss n dn : Int) (rows w : Nat)
    (S : Nat → Nat → Nat → Nat) (hS : HoldsPlane smem src ss n rows w S)
    (hwI : (w : Int) ≤ INT_MAX) (y : Nat) (hy : y < rows) (drow : Int) (b : DstBuf) :
    ∃ new, buffer_blit_row smem b drow dn (pix src ss n y 0 0) n (w : Int)
        = some ⟨b.init, new ++ b.writes⟩
      ∧ ∀ a v, (a, v) ∈ new ↔ ∃ x c : Nat, x < w ∧ c < 3 ∧
          a = drow + (x : Int) * dn + (c : Int) ∧ v = S y x c := by
  obtain ⟨new, hrun, hmem⟩ := buffer_blit_row_loop_spec smem src ss n dn rows w S hS y hy drow
    w 0 b (by omega)
  refine ⟨new, ?_, ?_⟩
  · simp only [buffer_blit_row]
    rw [toU32_natCast w hwI]
    have e2 : drow + ((0 : Nat) : Int) * dn = drow := by simp
    rw [e2] at hrun
    exact hrun
  · intro a v
    rw [hmem]
    constructor
    · rintro ⟨x, c, -, h2, h3, h4, h5⟩
      exact ⟨x, c, by omega, h3, h4, h5⟩
    · rintro ⟨x, c, h2, h3, h4, h5⟩
      exact ⟨x, c, by omega, by omega, h3, h4, h5⟩

theorem buffer_blit_loop_spec (smem : SrcMem) (dst src ss n dn ds : Int) (h w : Nat)
    (S : Nat → Nat → Nat → Nat) (hS : HoldsPlane smem src ss n h w S)
    (hwI : (w : Int) ≤ INT_MAX) :
    ∀ (k y0 : Nat) (b : DstBuf), y0 + k ≤ h →
    ∃ new, buffer_blit_loop smem dn ds n ss (w : Int) k b (dst + (y0 : Int) * ds)
          (pix src ss n y0 0 0)
        = some ⟨b.init, new ++ b.writes⟩
      ∧ ∀ a v, (a, v) ∈ new ↔ ∃ y x c : Nat, y0 ≤ y ∧ y < y0 + k ∧ x < w ∧ c < 3 ∧
          a = pix dst ds dn y x c ∧ v = S y x c := by
  intro k
  induction k with
  | zero =>
    intro y0 b _
    refine ⟨[], by simp [buffer_blit_loop], ?_⟩
    intro a v
    simp only [List.not_mem_nil, false_iff, not_exists, not_and]
    intro y x c h1 h2
    omega
  | succ k ih =>
    intro y0 b hk
    obtain ⟨new1, hrun1, hmem1⟩ := buffer_blit_row_spec smem src ss n dn h w S hS hwI y0
      (by omega) (dst + (y0 : Int) * ds) b
    obtain ⟨new2, hrun2, hmem2⟩ := ih (y0 + 1) ⟨b.init, new1 ++ b.writes⟩ (by omega)
    have ed : dst + (y0 : Int) * ds + ds = dst + ((y0 + 1 : Nat) : Int) * ds := by
      push_cast; ring
    have es : pix src ss n y0 0 0 + ss = pix src ss n (y0 + 1) 0 0 := by
      simp only [pix]; push_cast; ring
    refine ⟨new2 ++ new1, ?_, ?_⟩
    · simp only [buffer_blit_loop]
      rw [hrun1]
      simp only [Option.bind_eq_bind, Option.some_bind]
      rw [ed, es, hrun2]
      simp
    · intro a v
      rw [List.mem_append, hmem1, hmem2]
      constructor
      · rintro (⟨y, x, c, h1, h2, h3, h4, h5, h6⟩ | ⟨x, c, h3, h4, h5, h6⟩)
        · exact ⟨y, x, c, by omega, by omega, h3, h4, h5, h6⟩
        · exact ⟨y0, x, c, le_refl _, by omega, h3, h4, by rw [h5]; rfl, h6⟩
      · rintro ⟨y, x, c, h1, h2, h3, h4, h5, h6⟩
        by_cases hy : y = y0
        · subst hy
          right
          exact ⟨x, c, h3, h4, by rw [h5]; rfl, h6⟩
        · left
          exact ⟨y, x, c, by omega, by omega, h3, h4, h5, h6⟩

/-- Stores of `buffer_blit` on a plane of `h` rows of `w` pixels. -/
theorem buffer_blit_spec (smem : SrcMem) (dst src ss n dn ds : Int) (h w : Nat)
    (S : Nat → Nat → Nat → Nat) (hS : HoldsPlane smem src ss n h w S)
    (hwI : (w : Int) ≤ INT_MAX) (hhI : (h : Int) ≤ INT_MAX) (b : DstBuf) :
    ∃ new, buffer_blit smem b dst dn ds src n ss (w : Int) (h : Int)
        = some ⟨b.init, new ++ b.writes⟩
      ∧ ∀ a v, (a, v) ∈ new ↔ ∃ y x c : Nat, y < h ∧ x < w ∧ c < 3 ∧
          a = pix dst ds dn y x c ∧ v = S y x c := by
  obtain ⟨new, hrun, hmem⟩ := buffer_blit_loop_spec smem dst src ss n dn ds h w S hS hwI
    h 0 b (by omega)
  refine ⟨new, ?_, ?_⟩
  · simp only [buffer_blit]
    rw [toU32_natCast h hhI]
    have e1 : src = pix src ss n 0 0 0 := by simp [pix]
    have e2 : dst + ((0 : Nat) : Int) * ds = dst := by simp
    rw [e2, ← e1] at hrun
    exact hrun
  · intro a v
    rw [hmem]
    constructor
    · rintro ⟨y, x, c, -, h2, h3, h4, h5, h6⟩
      exact ⟨y, x, c, by omega, h3, h4, h5, h6⟩
    · rintro ⟨y, x, c, h2, h3, h4, h5, h6⟩
      exact ⟨y, x, c, by omega, by omega, h3, h4, h5, h6⟩

/-! ## Loops of `buffer_subpix_y` -/

theorem subpix_y_cols_spec (smem : SrcMem) (src ss n dn : Int) (h w : Nat)
    (S : Nat → Nat → Nat → Nat) (hS : HoldsPlane smem src ss n (3 * h) w S) (rev : Bool)
    (y : Nat) (hy1 : 1 ≤ y) (hy : y + 1 < h) (drow : Int) :
    ∀ (k x0 : Nat) (b : DstBuf), x0 + k ≤ w →
    ∃ new, subpix_y_cols smem dn n ss (if rev then -ss else ss) k b (drow + (x0 : Int) * dn)
          (pix src ss n (3 * y + 1) x0 0)
        = some ⟨b.init, new ++ b.writes⟩
      ∧ ∀ a v, (a, v) ∈ new ↔ ∃ x c : Nat, x0 ≤ x ∧ x < x0 + k ∧ c < 3 ∧
          a = drow + (x : Int) * dn + (c : Int) ∧
          v = win5 (fun r => S r x c) (centre rev y c) := by
  intro k
  induction k with
  | zero =>
    intro x0 b _
    refine ⟨[], by simp [subpix_y_cols], ?_⟩
    intro a v
    simp only [List.not_mem_nil, false_iff, not_exists, not_and]
    intro x c h1 h2
    omega
  | succ k ih =>
    intro x0 b hk
    have f3 := filter3_line smem ss rev b (drow + (x0 : Int) * dn) (pix src ss n 0 x0 0)
      (fun c r => S r x0 c) y hy1 (by
        intro r c h1 h2 h3
        have := hS r x0 c (by omega) (by omega) h3
        rw [← this]
        congr 1
        simp only [pix]
        push_cast
        ring)
    have es : pix src ss n (3 * y + 1) x0 0
        = pix src ss n 0 x0 0 + ((3 * y + 1 : Nat) : Int) * ss := by
      simp only [pix]
      push_cast
      ring
    have es2 : pix src ss n 0 x0 0 + ((3 * y + 1 : Nat) : Int) * ss + 2
        - (if rev then -ss else ss) + ((if rev then -ss else ss) - 2 + n)
        = pix src ss n (3 * y + 1) (x0 + 1) 0 := by
      simp only [pix]
      push_cast
      ring
    have ed : drow + (x0 : Int) * dn + dn = drow + ((x0 + 1 : Nat) : Int) * dn := by
      push_cast
      ring
    obtain ⟨new, hrun, hmem⟩ := ih (x0 + 1)
      ⟨b.init, (drow + (x0 : Int) * dn + 2, win5 (fun r => S r x0 2) (centre rev y 2)) ::
        (drow + (x0 : Int) * dn + 1, win5 (fun r => S r x0 1) (centre rev y 1)) ::
        (drow + (x0 : Int) * dn, win5 (fun r => S r x0 0) (centre rev y 0)) :: b.writes⟩
      (by omega)
    refine ⟨new ++ [(drow + (x0 : Int) * dn + 2, win5 (fun r => S r x0 2) (centre rev y 2)),
        (drow + (x0 : Int) * dn + 1, win5 (fun r => S r x0 1) (centre rev y 1)),
        (drow + (x0 : Int) * dn, win5 (fun r => S r x0 0) (centre rev y 0))], ?_, ?_⟩
    · simp only [subpix_y_cols]
      rw [es, f3]
      simp only [Option.bind_eq_bind, Option.some_bind]
      rw [es2, ed, hrun]
      simp
    · intro a v
      rw [List.mem_append, hmem]
      constructor
      · rintro (⟨x, c, h1, h2, h3, h4, h5⟩ | hm)
        · exact ⟨x, c, by omega, by omega, h3, h4, h5⟩
        · simp only [List.mem_cons, Prod.mk.injEq, List.mem_singleton, List.not_mem_nil,
            or_false] at hm
          rcases hm with ⟨ha, hv⟩ | ⟨ha, hv⟩ | ⟨ha, hv⟩
          · exact ⟨x0, 2, le_refl _, by omega, by omega, by rw [ha]; norm_num, hv⟩
          · exact ⟨x0, 1, le_refl _, by omega, by omega, by rw [ha]; norm_num, hv⟩
          · exact ⟨x0, 0, le_refl _, by omega, by omega, by rw [ha]; norm_num, hv⟩
      · rintro ⟨x, c, h1, h2, h3, h4, h5⟩
        by_cases hxx : x = x0
        · right
          subst hxx
          simp only [List.mem_cons, Prod.mk.injEq, List.mem_singleton, List.not_mem_nil,
            or_false]
          interval_cases c
          · right; right
            exact ⟨by rw [h4]; norm_num, h5⟩
          · right; left
            exact ⟨by rw [h4]; norm_num, h5⟩
          · left
            exact ⟨by rw [h4]; norm_num, h5⟩
        · left
          exact ⟨x, c, by omega, by omega, h3, h4, h5⟩

theorem subpix_y_rows_spec (smem : SrcMem) (dst src ss n dn ds : Int) (h w : Nat)
    (S : Nat → Nat → Nat → Nat) (hS : HoldsPlane smem src ss n (3 * h) w S) (rev : Bool)
    (hwI : (w : Int) ≤ INT_MAX) :
    ∀ (k y0 : Nat) (b : DstBuf), 1 ≤ y0 → y0 + k + 1 ≤ h →
    ∃ new, subpix_y_rows smem dn ds n ss ss (if rev then -ss else ss) (w : Int) k b
          (dst + (y0 : Int) * ds) (pix src ss n (3 * y0 + 1) 0 0)
        = some (⟨b.init, new ++ b.writes⟩, dst + ((y0 + k : Nat) : Int) * ds,
            pix src ss n (3 * (y0 + k) + 1) 0 0)
      ∧ ∀ a v, (a, v) ∈ new ↔ ∃ y x c : Nat, y0 ≤ y ∧ y < y0 + k ∧ x < w ∧ c < 3 ∧
          a = pix dst ds dn y x c ∧ v = win5 (fun r => S r x c) (centre rev y c) := by
  intro k
  induction k with
  | zero =>
    intro y0 b _ _
    refine ⟨[], by simp [subpix_y_rows], ?_⟩
    intro a v
    simp only [List.not_mem_nil, false_iff, not_exists, not_and]
    intro y x c h1 h2
    omega
  | succ k ih =>
    intro y0 b hy1 hk
    obtain ⟨new1, hrun1, hmem1⟩ := subpix_y_cols_spec smem src ss n dn h w S hS rev y0 hy1
      (by omega) (dst + (y0 : Int) * ds) w 0 b (by omega)
    obtain ⟨new2, hrun2, hmem2⟩ := ih (y0 + 1) ⟨b.init, new1 ++ b.writes⟩ (by omega) (by omega)
    have ed : dst + (y0 : Int) * ds + ds = dst + ((y0 + 1 : Nat) : Int) * ds := by
      push_cast; ring
    have es : pix src ss n (3 * y0 + 1) 0 0 + ss * 3 = pix src ss n (3 * (y0 + 1) + 1) 0 0 := by
      simp only [pix]; push_cast; ring
    have e0 : dst + (y0 : Int) * ds + ((0 : Nat) : Int) * dn = dst + (y0 : Int) * ds := by simp
    rw [e0] at hrun1
    refine ⟨new2 ++ new1, ?_, ?_⟩
    · simp only [subpix_y_rows]
      rw [toU32_natCast w hwI, hrun1]
      simp only [Option.bind_eq_bind, Option.some_bind]
      rw [ed, es, hrun2]
      have e3 : y0 + 1 + k = y0 + (k + 1) := by omega
      rw [e3]
      simp
    · intro a v
      rw [List.mem_append, hmem1, hmem2]
      constructor
      · rintro (⟨y, x, c, h1, h2, h3, h4, h5, h6⟩ | ⟨x, c, -, h3, h4, h5, h6⟩)
        · exact ⟨y, x, c, by omega, by omega, h3, h4, h5, h6⟩
        · exact ⟨y0, x, c, le_refl _, by omega, by omega, h4, by rw [h5]; rfl, h6⟩
      · rintro ⟨y, x, c, h1, h2, h3, h4, h5, h6⟩
        by_cases hy : y = y0
        · subst hy
          right
          exact ⟨x, c, by omega, by omega, h4, by rw [h5]; rfl, h6⟩
        · left
          exact ⟨y, x, c, by omega, by omega, h3, h4, h5, h6⟩

/-- Stores of `buffer_subpix_y` on an oversampled plane of `3h` rows of `w`
pixels, `h ≥ 2`: it succeeds, and the stores it adds are exactly the bytes
`outY` at the three channel offsets of the `h × w` output pixels. -/
theorem buffer_subpix_y_spec (smem : SrcMem) (dst src ss n dn ds : Int) (h w : Nat)
    (S : Nat → Nat → Nat → Nat) (hS : HoldsPlane smem src ss n (3 * h) w S)
    (subpix_order : Int) (hh : 2 ≤ h) (hwI : (w : Int) ≤ INT_MAX) (hhI : (h : Int) ≤ INT_MAX)
    (b : DstBuf) :
    ∃ new, buffer_subpix_y smem b dst dn ds src n ss w h subpix_order
        = some ⟨b.init, new ++ b.writes⟩
      ∧ ∀ a v, (a, v) ∈ new ↔ ∃ y x c : Nat, y < h ∧ x < w ∧ c < 3 ∧
          a = pix dst ds dn y x c ∧ v = outY subpix_order h S y x c := by
  obtain ⟨new1, hrun1, hmem1⟩ := buffer_blit_row_spec smem src ss n dn (3 * h) w S hS hwI 1
    (by omega) dst b
  obtain ⟨new2, hrun2, hmem2⟩ := subpix_y_rows_spec smem dst src ss n dn ds h w S hS
    (revY subpix_order) hwI (h - 2) 1 ⟨b.init, new1 ++ b.writes⟩ (le_refl _) (by omega)
  obtain ⟨new3, hrun3, hmem3⟩ := buffer_blit_row_spec smem src ss n dn (3 * h) w S hS hwI
    (3 * h - 2) (by omega) (dst + ((1 + (h - 2) : Nat) : Int) * ds)
    ⟨b.init, new2 ++ (new1 ++ b.writes)⟩
  refine ⟨new3 ++ (new2 ++ new1), ?_, ?_⟩
  · simp only [buffer_subpix_y]
    have e1 : src + ss = pix src ss n 1 0 0 := by simp [pix]
    have e2 : dst + ds = dst + ((1 : Nat) : Int) * ds := by simp
    have e3 : pix src ss n 1 0 0 + ss * 3 = pix src ss n (3 * 1 + 1) 0 0 := by
      simp only [pix]; push_cast; ring
    have e4 : (if subpix_order = SUBPIXEL_VBGR then -ss else ss)
        = (if revY subpix_order then -ss else ss) := by simp [revY]
    have e5 : 3 * (1 + (h - 2)) + 1 = 3 * h - 2 := by omega
    rw [e1, hrun1]
    simp only [Option.bind_eq_bind, Option.some_bind]
    rw [toU32_pred h (by omega) hhI, e2, e3, e4, hrun2]
    simp only [Option.some_bind]
    rw [e5, hrun3]
    simp
  · intro a v
    have ew : ((1 + (h - 2) : Nat) : Int) = ((h - 1 : Nat) : Int) := by
      congr 1; omega
    rw [ew] at hmem3
    simp only [List.mem_append, hmem1, hmem2, hmem3]
    constructor
    · rintro (⟨x, c, h3, h4, h5, h6⟩ | ⟨y, x, c, h1, h2, h3, h4, h5, h6⟩ | ⟨x, c, h3, h4, h5, h6⟩)
      · refine ⟨h - 1, x, c, by omega, h3, h4, by rw [h5]; rfl, ?_⟩
        rw [h6, outY, outLine, if_neg (by omega), if_pos (by omega)]
      · refine ⟨y, x, c, by omega, h3, h4, h5, ?_⟩
        rw [h6, outY, outLine, if_neg (by omega), if_neg (by omega)]
      · refine ⟨0, x, c, by omega, h3, h4, by rw [h5]; simp [pix], ?_⟩
        rw [h6, outY, outLine, if_pos rfl]
    · rintro ⟨y, x, c, h2, h3, h4, h5, h6⟩
      by_cases hy0 : y = 0
      · subst hy0
        right; right
        refine ⟨x, c, h3, h4, by rw [h5]; simp [pix], ?_⟩
        rw [h6, outY, outLine, if_pos rfl]
      · by_cases hyh : y + 1 = h
        · left
          have hy : y = h - 1 := by omega
          subst hy
          refine ⟨x, c, h3, h4, by rw [h5]; rfl, ?_⟩
          rw [h6, outY, outLine, if_neg hy0, if_pos hyh]
        · right; left
          refine ⟨y, x, c, by omega, by omega, h3, h4, h5, ?_⟩
          rw [h6, outY, outLine, if_neg hy0, if_neg hyh]

/-! ## Destination layout -/

/-- In a destination plane with at least 3 bytes per pixel and a row stride of
at least `w` pixels, distinct (row, column, byte) triples with column below
`w` and byte below `dn` have distinct offsets. -/
theorem pix_inj (dst ds dn : Int) (w : Nat) (hdn : 3 ≤ dn) (hds : (w : Int) * dn ≤ ds)
    (y x c y' x' c' : Nat) (hx : x < w) (hx' : x' < w) (hc : (c : Int) < dn)
    (hc' : (c' : Int) < dn) (e : pix dst ds dn y x c = pix dst ds dn y' x' c') :
    y = y' ∧ x = x' ∧ c = c' := by
  simp only [pix] at e
  have hxw : ((x : Int) + 1) * dn ≤ (w : Int) * dn :=
    mul_le_mul_of_nonneg_right (by omega) (by omega)
  have hxw' : ((x' : Int) + 1) * dn ≤ (w : Int) * dn :=
    mul_le_mul_of_nonneg_right (by omega) (by omega)
  have hx0 : 0 ≤ (x : Int) * dn := mul_nonneg (by omega) (by omega)
  have hx0' : 0 ≤ (x' : Int) * dn := mul_nonneg (by omega) (by omega)
  have hds0 : 0 ≤ ds := le_trans (mul_nonneg (by omega) (by omega)) hds
  have hy : y = y' := by
    rcases Nat.lt_trichotomy y y' with hlt | heq | hgt
    · exfalso
      have : ((y : Int) + 1) * ds ≤ (y' : Int) * ds :=
        mul_le_mul_of_nonneg_right (by omega) hds0
      nlinarith
    · exact heq
    · exfalso
      have : ((y' : Int) + 1) * ds ≤ (y : Int) * ds :=
        mul_le_mul_of_nonneg_right (by omega) hds0
      nlinarith
  subst hy
  have hxx : x = x' := by
    rcases Nat.lt_trichotomy x x' with hlt | heq | hgt
    · exfalso
      have : ((x : Int) + 1) * dn ≤ (x' : Int) * dn :=
        mul_le_mul_of_nonneg_right (by omega) (by omega)
      nlinarith
    · exact heq
    · exfalso
      have : ((x' : Int) + 1) * dn ≤ (x : Int) * dn :=
        mul_le_mul_of_nonneg_right (by omega) (by omega)
      nlinarith
  subst hxx
  refine ⟨rfl, rfl, ?_⟩
  omega

/-- Final contents of a destination whose stores are the bytes `val y x c` of
an `h × w` plane: inside the plane the byte stored, elsewhere the initial byte. -/
theorem get_of_plane_writes (b : DstBuf) (dst ds dn : Int) (h w : Nat)
    (val : Nat → Nat → Nat → Nat)
    (hmem : ∀ a v, (a, v) ∈ b.writes ↔ ∃ y x c : Nat, y < h ∧ x < w ∧ c < 3 ∧
      a = pix dst ds dn y x c ∧ v = val y x c) :
    (3 ≤ dn → (w : Int) * dn ≤ ds → ∀ y x c : Nat, y < h → x < w → c < 3 →
      b.get (pix dst ds dn y x c) = val y x c) ∧
    (∀ a, (¬ ∃ y x c : Nat, y < h ∧ x < w ∧ c < 3 ∧ a = pix dst ds dn y x c) →
      b.get a = b.init a) := by
  constructor
  · intro hdn hds y x c hy hx hc
    apply DstBuf.get_of_written
    · exact (hmem _ _).2 ⟨y, x, c, hy, hx, hc, rfl, rfl⟩
    · intro u hu
      obtain ⟨y', x', c', _, hx', hc', e, hv⟩ := (hmem _ _).1 hu
      obtain ⟨rfl, rfl, rfl⟩ := pix_inj dst ds dn w hdn hds y x c y' x' c' hx hx'
        (by omega) (by omega) e
      exact hv
  · intro a ha
    apply DstBuf.get_of_not_written
    intro v hv
    obtain ⟨y, x, c, hy, hx, hc, e, _⟩ := (hmem _ _).1 hv
    exact ha ⟨y, x, c, hy, hx, hc, e⟩

/-- Byte 3 of a pixel is none of the three channel bytes of any pixel. -/
theorem pix_byte3_ne (dst ds dn : Int) (w : Nat) (hdn : 4 ≤ dn) (hds : (w : Int) * dn ≤ ds)
    (y x y' x' c' : Nat) (hx : x < w) (hx' : x' < w) (hc' : c' < 3) :
    pix dst ds dn y x 3 ≠ pix dst ds dn y' x' c' := by
  intro e
  have := pix_inj dst ds dn w (by omega) hds y x 3 y' x' c' hx hx' (by norm_num; omega)
    (by omega) e
  omega

/-! ## Values stored -/

theorem win5_cast (f : Nat → Nat) (p : Nat)
    (hf : ∀ q, p - 2 ≤ q → q ≤ p + 2 → f q < 256) :
    ((win5 f p : Nat) : Int)
      = filter (f (p - 2)) (f (p - 1)) (f p) (f (p + 1)) (f (p + 2)) :=
  toU8_filter _ _ _ _ _ (hf _ (by omega) (by omega)) (hf _ (by omega) (by omega))
    (hf _ (by omega) (by omega)) (hf _ (by omega) (by omega)) (hf _ (by omega) (by omega))

theorem outLine_first (rev : Bool) (w : Nat) (f : Nat → Nat → Nat) (c : Nat) :
    outLine rev w f 0 c = f c 1 := by
  simp [outLine]

theorem outLine_last (rev : Bool) (w : Nat) (f : Nat → Nat → Nat) (c : Nat) (hw : 2 ≤ w) :
    outLine rev w f (w - 1) c = f c (3 * w - 2) := by
  rw [outLine, if_neg (by omega), if_pos (by omega)]

theorem outLine_interior (rev : Bool) (w : Nat) (f : Nat → Nat → Nat) (x c : Nat)
    (h1 : 1 ≤ x) (h2 : x + 2 ≤ w) :
    outLine rev w f x c = win5 (f c) (centre rev x c) := by
  rw [outLine, if_neg (by omega), if_neg (by omega)]

theorem revX_HRGB : revX SUBPIXEL_HRGB = false := by decide

theorem revX_HBGR : revX SUBPIXEL_HBGR = true := by decide

theorem revY_VRGB : revY SUBPIXEL_VRGB = false := by decide

theorem revY_VBGR : revY SUBPIXEL_VBGR = true := by decide

/-! ## Facts about the concrete inputs -/

theorem rampMem_holds (ss n : Int) (rows cols : Nat) :
    HoldsPlane rampMem 0 ss n rows cols (rampPlane ss n) :=
  fun _ _ _ _ _ _ => rfl

theorem rampPlane_lt (ss n : Int) (y p c : Nat) : rampPlane ss n y p c < 256 :=
  Nat.mod_lt _ (by decide)

theorem planeOnly_isSome (bytes : Int → Nat) (src stride n : Int) (rows cols : Nat)
    (y p c : Nat) (hy : y < rows) (hp : p < cols) (hc : c < 3) :
    (planeOnly bytes src stride n rows cols (pix src stride n y p c)).isSome = true := by
  have : (List.range rows).any (fun y' => (List.range cols).any (fun p' =>
      (List.range 3).any (fun c' =>
        decide (pix src stride n y p c = pix src stride n y' p' c')))) = true := by
    simp only [List.any_eq_true, List.mem_range, decide_eq_true_eq]
    exact ⟨y, hy, p, hp, c, hc, rfl⟩
  simp [planeOnly, this]

/-- A source all of whose plane bytes are readable holds the plane of the
bytes read. -/
theorem holdsPlane_of_isSome (smem : SrcMem) (src stride n : Int) (rows cols : Nat)
    (hs : ∀ y p c : Nat, y < rows → p < cols → c < 3 →
      (smem (pix src stride n y p c)).isSome = true) :
    HoldsPlane smem src stride n rows cols
      (fun y p c => (smem (pix src stride n y p c)).getD 0) := by
  intro y p c hy hp hc
  have := hs y p c hy hp hc
  cases hv : smem (pix src stride n y p c) with
  | none => rw [hv] at this; simp at this
  | some v => simp [hv]

theorem win5_const (v : Nat) (hv : v < 256) (p : Nat) : win5 (fun _ => v) p = v := by
  simp only [win5]
  rw [filter_const (v : Int) (by omega)]
  unfold toU8
  omega

theorem outLine_const (rev : Bool) (w : Nat) (col : Nat → Nat) (x c : Nat)
    (hc : col c < 256) : outLine rev w (fun c _ => col c) x c = col c := by
  unfold outLine
  split
  · rfl
  · split
    · rfl
    · exact win5_const (col c) hc _

/-- Final contents of a destination whose stores are the bytes `val x c` of
one row of `w` pixels starting at `drow`. -/
theorem get_of_row_writes (b : DstBuf) (drow dn : Int) (w : Nat) (val : Nat → Nat → Nat)
    (hmem : ∀ a v, (a, v) ∈ b.writes ↔ ∃ x c : Nat, x < w ∧ c < 3 ∧
      a = drow + (x : Int) * dn + (c : Int) ∧ v = val x c) :
    (3 ≤ dn → ∀ x c : Nat, x < w → c < 3 → b.get (drow + (x : Int) * dn + (c : Int)) = val x c) ∧
    (∀ a, (¬ ∃ x c : Nat, x < w ∧ c < 3 ∧ a = drow + (x : Int) * dn + (c : Int)) →
      b.get a = b.init a) := by
  have e : ∀ x c : Nat, drow + (x : Int) * dn + (c : Int)
      = pix drow ((w : Int) * dn) dn 0 x c := by
    intro x c
    simp [pix]
  have hmem2 : ∀ a v, (a, v) ∈ b.writes ↔ ∃ y x c : Nat, y < 1 ∧ x < w ∧ c < 3 ∧
      a = pix drow ((w : Int) * dn) dn y x c ∧ v = (fun _ x c => val x c) y x c := by
    intro a v
    rw [hmem]
    constructor
    · rintro ⟨x, c, h1, h2, h3, h4⟩
      exact ⟨0, x, c, by omega, h1, h2, by rw [h3, e], h4⟩
    · rintro ⟨y, x, c, h0, h1, h2, h3, h4⟩
      have : y = 0 := by omega
      subst this
      exact ⟨x, c, h1, h2, by rw [h3, e], h4⟩
  have hget := get_of_plane_writes b drow ((w : Int) * dn) dn 1 w (fun _ x c => val x c) hmem2
  constructor
  · intro hdn x c hx hc
    rw [e]
    exact hget.1 hdn (le_refl _) 0 x c (by omega) hx hc
  · intro a ha
    apply hget.2
    rintro ⟨y, x, c, h0, h1, h2, h3⟩
    have : y = 0 := by omega
    subst this
    exact ha ⟨x, c, h1, h2, by rw [h3, e]⟩

theorem flatMem_holds (b g r : Nat) (k : Nat) (rows cols : Nat) :
    HoldsPlane (flatMem b g r) 0 (3 * (k : Int)) 3 rows cols (fun _ _ c => bgr b g r c) := by
  intro y p c _ _ hc
  simp only [flatMem, pix]
  congr 2
  have : (0 + (y : Int) * (3 * (k : Int)) + (p : Int) * 3 + (c : Int))
      = 3 * ((y : Int) * (k : Int) + (p : Int)) + (c : Int) := by ring
  rw [this]
  omega

/-! ## Machine arithmetic of the orchestrator -/

theorem toI32_natCast (k : Nat) (hk : (k : Int) ≤ INT_MAX) : toI32 k = (k : Int) := by
  unfold INT_MAX at hk
  unfold toI32
  have h1 : k % 4294967296 = k := Nat.mod_eq_of_lt (by omega)
  rw [h1, if_pos (by omega)]

theorem mulU32_of_lt (a b : Nat) (h : a * b < 4294967296) : mulU32 a b = a * b :=
  Nat.mod_eq_of_lt h

theorem wrapI32_of_range (i : Int) (h1 : -2147483648 ≤ i) (h2 : i ≤ 2147483647) :
    wrapI32 i = i := by
  unfold wrapI32 toI32 toU32
  split <;> omega

theorem subpix_factors_horizontal (subpix_order : Int)
    (h : subpix_order = SUBPIXEL_HRGB ∨ subpix_order = SUBPIXEL_HBGR) :
    subpix_factors subpix_order = (3, 1) := by
  simp [subpix_factors, h]

theorem subpix_factors_vertical (subpix_order : Int)
    (h : subpix_order = SUBPIXEL_VRGB ∨ subpix_order = SUBPIXEL_VBGR) :
    subpix_factors subpix_order = (1, 3) := by
  have h2 : ¬ (subpix_order = SUBPIXEL_HRGB ∨ subpix_order = SUBPIXEL_HBGR) := by
    rcases h with h | h <;> rw [h] <;> decide
  simp [subpix_factors, h, h2]

/-- The record left by `pdf_page_render_to_buffer` when no handle is null and
`fz_run_page` returns. -/
theorem pdf_page_render_to_buffer_ok (subpix_order : Int) (fz : Rasterizer) (image : Int)
    (buf : DstBuf) (rowstride components : Int) (page_width page_height : Nat)
    (scalex scaley : ℚ) (hrun : fz.run_page_ok = true) :
    pdf_page_render_to_buffer subpix_order fz (some ⟨true⟩) (some ⟨true⟩) (some image) buf
        rowstride components page_width page_height scalex scaley
      = ⟨.ZATHURA_ERROR_OK, [],
          some (scalex * (((subpix_factors subpix_order).1 : Int) : ℚ),
            scaley * (((subpix_factors subpix_order).2 : Int) : ℚ)),
          some (toI32 (mulU32 page_width (toU32 (subpix_factors subpix_order).1)),
            toI32 (mulU32 page_height (toU32 (subpix_factors subpix_order).2))),
          some (if (subpix_factors subpix_order).1 = 3 then Routine.subpix_x
            else if (subpix_factors subpix_order).2 = 3 then Routine.subpix_y
            else Routine.blit),
          (if (subpix_factors subpix_order).1 = 3 then
            buffer_subpix_x (fz.samples
                (toI32 (mulU32 page_width (toU32 (subpix_factors subpix_order).1)))
                (toI32 (mulU32 page_height (toU32 (subpix_factors subpix_order).2))))
              buf image components rowstride 0 (toI32 fz.components)
              (toI32 (mulU32 (mulU32 fz.components page_width) 3)) (toI32 page_width)
              (toI32 page_height) subpix_order
          else if (subpix_factors subpix_order).2 = 3 then
            buffer_subpix_y (fz.samples
                (toI32 (mulU32 page_width (toU32 (subpix_factors subpix_order).1)))
                (toI32 (mulU32 page_height (toU32 (subpix_factors subpix_order).2))))
              buf image components rowstride 0 (toI32 fz.components)
              (toI32 (mulU32 fz.components page_width)) (toI32 page_width)
              (toI32 page_height) subpix_order
          else
            buffer_blit (fz.samples
                (toI32 (mulU32 page_width (toU32 (subpix_factors subpix_order).1)))
                (toI32 (mulU32 page_height (toU32 (subpix_factors subpix_order).2))))
              buf image components rowstride 0 (toI32 fz.components)
              (toI32 (mulU32 fz.components page_width)) (toI32 page_width)
              (toI32 page_height))⟩ := by
  have hl : ((([Handle.display_list, Handle.list_device].erase Handle.list_device
      ++ [Handle.pixmap] ++ [Handle.draw_device]).erase Handle.draw_device).erase
        Handle.pixmap).erase Handle.display_list = [] := by decide
  simp only [pdf_page_render_to_buffer, hrun, Bool.true_eq_false, or_self, if_false, hl]
  split_ifs <;> rfl

/-- The record left by `pdf_page_render_to_buffer` when no handle is null and
`fz_run_page` throws. -/
theorem pdf_page_render_to_buffer_throw (subpix_order : Int) (fz : Rasterizer) (image : Int)
    (buf : DstBuf) (rowstride components : Int) (page_width page_height : Nat)
    (scalex scaley : ℚ) (hrun : fz.run_page_ok = false) :
    pdf_page_render_to_buffer subpix_order fz (some ⟨true⟩) (some ⟨true⟩) (some image) buf
        rowstride components page_width page_height scalex scaley
      = ⟨.ZATHURA_ERROR_UNKNOWN, [Handle.display_list, Handle.list_device],
          some (scalex * (((subpix_factors subpix_order).1 : Int) : ℚ),
            scaley * (((subpix_factors subpix_order).2 : Int) : ℚ)),
          none, none, some buf⟩ := by
  simp [pdf_page_render_to_buffer, hrun]

/-! ## Rounding to the nearest double -/

theorem ulpExp_eq (q : ℚ) (k : ℤ) (hq : 0 < q) (hlo : (2 : ℚ) ^ k ≤ q)
    (hhi : q < (2 : ℚ) ^ (k + 1)) (hk : -1022 ≤ k) : ulpExp q = k - 52 := by
  have h1 : k ≤ Int.log 2 q :=
    (Int.zpow_le_iff_le_log (by norm_num) hq).1 (by simpa using hlo)
  have h2 : Int.log 2 q < k + 1 :=
    (Int.lt_zpow_iff_log_lt (by norm_num) hq).1 (by simpa using hhi)
  unfold ulpExp
  omega

/-- A value whose mantissa is an integer is left alone. -/
theorem roundDouble_of_int_mantissa (q : ℚ) (n : ℤ) (hq : q ≠ 0)
    (hn : q / (2 : ℚ) ^ ulpExp |q| = (n : ℚ)) : roundDouble q = q := by
  unfold roundDouble
  rw [if_neg hq]
  simp only [hn, Int.floor_intCast, sub_self]
  rw [if_pos (by norm_num), ← hn]
  have hp : (2 : ℚ) ^ ulpExp |q| ≠ 0 := (zpow_pos (by norm_num) _).ne'
  field_simp

theorem roundDouble_four : roundDouble ((2 : ℚ) * 2) = 4 := by
  have e : ulpExp |(2 : ℚ) * 2| = 2 - 52 := by
    rw [abs_of_pos (by norm_num)]
    exact ulpExp_eq _ 2 (by norm_num) (by norm_num) (by norm_num) (by norm_num)
  rw [roundDouble_of_int_mantissa ((2 : ℚ) * 2) (4 * 2 ^ 50) (by norm_num)
    (by rw [e]; norm_num)]
  norm_num

/-- The owned-buffer path under a horizontal order, for an output of `w` by
`h` pixels, `w ≥ 2`: the buffer of the allocator is returned, `*error` is left
alone, the pixmap is created `3w` wide and `h` high, and the buffer holds the
bytes `outX` of the oversampled plane `S` that the rasterizer delivered. -/
theorem pdf_page_render_horizontal (subpix_order : Int)
    (horder : subpix_order = SUBPIXEL_HRGB ∨ subpix_order = SUBPIXEL_HBGR)
    (fz : Rasterizer) (hrun : fz.run_page_ok = true)
    (alloc : Nat → Nat → Option (zathura_image_buffer_t × (Int → Nat)))
    (s pw ph : ℚ) (w h : Nat) (hw : truncU32 (roundDouble (s * pw)) = w)
    (hh : truncU32 (roundDouble (s * ph)) = h)
    (ib : zathura_image_buffer_t) (init : Int → Nat) (halloc : alloc w h = some (ib, init))
    (error : Option zathura_error_t) (S : Nat → Nat → Nat → Nat)
    (hw2 : 2 ≤ w) (hn : 1 ≤ fz.components)
    (hfit : ((fz.components * w * 3 : Nat) : Int) ≤ INT_MAX) (hhI : (h : Int) ≤ INT_MAX)
    (hS : HoldsPlane (fz.samples (3 * (w : Int)) (h : Int)) 0
      ((fz.components * w * 3 : Nat) : Int) (fz.components : Int) h (3 * w) S) :
    ∃ b' : DstBuf,
      pdf_page_render subpix_order fz alloc (some (pageOf s pw ph)) (some ⟨true⟩) error
        = ⟨some ib, error, [(w, h)], false, some b',
            some ⟨.ZATHURA_ERROR_OK, [], some (s * 3, s * 1), some (3 * (w : Int), (h : Int)),
              some Routine.subpix_x, some b'⟩⟩ ∧
      b'.init = init ∧
      (∀ a v, (a, v) ∈ b'.writes ↔ ∃ y x c : Nat, y < h ∧ x < w ∧ c < 3 ∧
        a = pix ib.data ib.rowstride 3 y x c ∧ v = outX subpix_order w S y x c) := by
  have hfac := subpix_factors_horizontal subpix_order horder
  unfold INT_MAX at hfit hhI
  have hnw : fz.components * w * 3 ≤ 2147483647 := by exact_mod_cast hfit
  have hwle : w ≤ fz.components * w := Nat.le_mul_of_pos_left w hn
  have h3w : 3 * w ≤ 2147483647 := by omega
  have hnle : fz.components ≤ fz.components * w := Nat.le_mul_of_pos_right _ (by omega)
  have e1 : toI32 (mulU32 w (toU32 3)) = 3 * (w : Int) := by
    rw [show toU32 3 = 3 by decide, mulU32_of_lt _ _ (by omega),
      toI32_natCast _ (by unfold INT_MAX; push_cast; omega)]
    push_cast
    ring
  have e2 : toI32 (mulU32 h (toU32 1)) = (h : Int) := by
    rw [show toU32 1 = 1 by decide, mulU32_of_lt _ _ (by omega),
      toI32_natCast _ (by unfold INT_MAX; push_cast; omega)]
    push_cast
    ring
  have e3 : toI32 (mulU32 (mulU32 fz.components w) 3) = ((fz.components * w * 3 : Nat) : Int) := by
    rw [mulU32_of_lt fz.components w (by omega), mulU32_of_lt _ 3 (by omega),
      toI32_natCast _ (by unfold INT_MAX; omega)]
  have e4 : toI32 w = (w : Int) := toI32_natCast _ (by unfold INT_MAX; omega)
  have e5 : toI32 h = (h : Int) := toI32_natCast _ (by unfold INT_MAX; omega)
  have e6 : toI32 fz.components = (fz.components : Int) :=
    toI32_natCast _ (by unfold INT_MAX; omega)
  obtain ⟨new, hrunx, hmem⟩ := buffer_subpix_x_spec (fz.samples (3 * (w : Int)) (h : Int))
    ib.data 0 ((fz.components * w * 3 : Nat) : Int) (fz.components : Int) 3 ib.rowstride h w S hS
    subpix_order hw2 (by unfold INT_MAX; omega) (by unfold INT_MAX; omega) ⟨init, []⟩
  simp only [List.append_nil] at hrunx
  refine ⟨⟨init, new⟩, ?_, rfl, hmem⟩
  simp only [pdf_page_render, pageOf, hw, hh, halloc]
  rw [pdf_page_render_to_buffer_ok subpix_order fz ib.data ⟨init, []⟩ ib.rowstride 3 w h s s hrun]
  simp only [hfac, e1, e2, e3, e4, e5, e6, if_true, hrunx]
  simp

theorem truncU32_scenario : truncU32 (roundDouble ((2 : ℚ) * 2)) = 4 := by
  rw [roundDouble_four]
  unfold truncU32
  norm_num
  decide

/-- The destination left by `pdf_page_render_to_buffer` under a horizontal
order: the stores of `buffer_subpix_x` on the pixmap created `3w` wide and
`h` high. -/
theorem pdf_page_render_to_buffer_horizontal (subpix_order : Int)
    (horder : subpix_order = SUBPIXEL_HRGB ∨ subpix_order = SUBPIXEL_HBGR)
    (fz : Rasterizer) (hrun : fz.run_page_ok = true) (image : Int) (buf : DstBuf)
    (rowstride components : Int) (w h : Nat) (sx sy : ℚ) (S : Nat → Nat → Nat → Nat)
    (hw2 : 2 ≤ w) (hn : 1 ≤ fz.components)
    (hfit : ((fz.components * w * 3 : Nat) : Int) ≤ INT_MAX) (hhI : (h : Int) ≤ INT_MAX)
    (hS : HoldsPlane (fz.samples (3 * (w : Int)) (h : Int)) 0
      ((fz.components * w * 3 : Nat) : Int) (fz.components : Int) h (3 * w) S) :
    ∃ new, (pdf_page_render_to_buffer subpix_order fz (some ⟨true⟩) (some ⟨true⟩) (some image)
        buf rowstride components w h sx sy).image = some ⟨buf.init, new ++ buf.writes⟩ ∧
      ∀ a v, (a, v) ∈ new ↔ ∃ y x c : Nat, y < h ∧ x < w ∧ c < 3 ∧
        a = pix image rowstride components y x c ∧ v = outX subpix_order w S y x c := by
  have hfac := subpix_factors_horizontal subpix_order horder
  unfold INT_MAX at hfit hhI
  have hnw : fz.components * w * 3 ≤ 2147483647 := by exact_mod_cast hfit
  have hwle : w ≤ fz.components * w := Nat.le_mul_of_pos_left w hn
  have hnle : fz.components ≤ fz.components * w := Nat.le_mul_of_pos_right _ (by omega)
  have e1 : toI32 (mulU32 w (toU32 3)) = 3 * (w : Int) := by
    rw [show toU32 3 = 3 by decide, mulU32_of_lt _ _ (by omega),
      toI32_natCast _ (by unfold INT_MAX; push_cast; omega)]
    push_cast
    ring
  have e2 : toI32 (mulU32 h (toU32 1)) = (h : Int) := by
    rw [show toU32 1 = 1 by decide, mulU32_of_lt _ _ (by omega),
      toI32_natCast _ (by unfold INT_MAX; push_cast; omega)]
    push_cast
    ring
  have e3 : toI32 (mulU32 (mulU32 fz.components w) 3) = ((fz.components * w * 3 : Nat) : Int) := by
    rw [mulU32_of_lt fz.components w (by omega), mulU32_of_lt _ 3 (by omega),
      toI32_natCast _ (by unfold INT_MAX; omega)]
  have e4 : toI32 w = (w : Int) := toI32_natCast _ (by unfold INT_MAX; omega)
  have e5 : toI32 h = (h : Int) := toI32_natCast _ (by unfold INT_MAX; omega)
  have e6 : toI32 fz.components = (fz.components : Int) :=
    toI32_natCast _ (by unfold INT_MAX; omega)
  obtain ⟨new, hrunx, hmem⟩ := buffer_subpix_x_spec (fz.samples (3 * (w : Int)) (h : Int))
    image 0 ((fz.components * w * 3 : Nat) : Int) (fz.components : Int) components rowstride
    h w S hS subpix_order hw2 (by unfold INT_MAX; omega) (by unfold INT_MAX; omega) buf
  refine ⟨new, ?_, hmem⟩
  rw [pdf_page_render_to_buffer_ok subpix_order fz image buf rowstride components w h sx sy hrun]
  simp only [hfac, e1, e2, e3, e4, e5, e6, if_true, hrunx]

/-- The destination left by `pdf_page_render_to_buffer` under a vertical
order: the stores of `buffer_subpix_y` on the pixmap created `w` wide and
`3h` high. -/
theorem pdf_page_render_to_buffer_vertical (subpix_order : Int)
    (horder : subpix_order = SUBPIXEL_VRGB ∨ subpix_order = SUBPIXEL_VBGR)
    (fz : Rasterizer) (hrun : fz.run_page_ok = true) (image : Int) (buf : DstBuf)
    (rowstride components : Int) (w h : Nat) (sx sy : ℚ) (S : Nat → Nat → Nat → Nat)
    (hh2 : 2 ≤ h) (hnI : (fz.components : Int) ≤ INT_MAX) (hwI : (w : Int) ≤ INT_MAX)
    (hfit : ((fz.components * w : Nat) : Int) ≤ INT_MAX) (hhI : ((3 * h : Nat) : Int) ≤ INT_MAX)
    (hS : HoldsPlane (fz.samples (w : Int) (3 * (h : Int))) 0
      ((fz.components * w : Nat) : Int) (fz.components : Int) (3 * h) w S) :
    ∃ new, (pdf_page_render_to_buffer subpix_order fz (some ⟨true⟩) (some ⟨true⟩) (some image)
        buf rowstride components w h sx sy).image = some ⟨buf.init, new ++ buf.writes⟩ ∧
      ∀ a v, (a, v) ∈ new ↔ ∃ y x c : Nat, y < h ∧ x < w ∧ c < 3 ∧
        a = pix image rowstride components y x c ∧ v = outY subpix_order h S y x c := by
  have hfac := subpix_factors_vertical subpix_order horder
  unfold INT_MAX at hfit hhI hnI hwI
  have hnw : fz.components * w ≤ 2147483647 := by exact_mod_cast hfit
  have h3h : 3 * h ≤ 2147483647 := by exact_mod_cast hhI
  have hwle : w ≤ 2147483647 := by exact_mod_cast hwI
  have e1 : toI32 (mulU32 w (toU32 1)) = (w : Int) := by
    rw [show toU32 1 = 1 by decide, mulU32_of_lt _ _ (by omega),
      toI32_natCast _ (by unfold INT_MAX; push_cast; omega)]
    push_cast
    ring
  have e2 : toI32 (mulU32 h (toU32 3)) = 3 * (h : Int) := by
    rw [show toU32 3 = 3 by decide, mulU32_of_lt _ _ (by omega),
      toI32_natCast _ (by unfold INT_MAX; push_cast; omega)]
    push_cast
    ring
  have e3 : toI32 (mulU32 fz.components w) = ((fz.components * w : Nat) : Int) := by
    rw [mulU32_of_lt fz.components w (by omega), toI32_natCast _ (by unfold INT_MAX; omega)]
  have e4 : toI32 w = (w : Int) := toI32_natCast _ (by unfold INT_MAX; omega)
  have e5 : toI32 h = (h : Int) := toI32_natCast _ (by unfold INT_MAX; omega)
  have e6 : toI32 fz.components = (fz.components : Int) :=
    toI32_natCast _ (by unfold INT_MAX; omega)
  obtain ⟨new, hruny, hmem⟩ := buffer_subpix_y_spec (fz.samples (w : Int) (3 * (h : Int)))
    image 0 ((fz.components * w : Nat) : Int) (fz.components : Int) components rowstride
    h w S hS subpix_order hh2 (by unfold INT_MAX; omega) (by unfold INT_MAX; omega) buf
  refine ⟨new, ?_, hmem⟩
  rw [pdf_page_render_to_buffer_ok subpix_order fz image buf rowstride components w h sx sy hrun]
  have hne : ¬ ((1 : Int) = 3) := by decide
  simp only [hfac, e1, e2, e3, e4, e5, e6, if_true, hne, if_false, hruny]

/-! ## Mirror symmetry -/

theorem filter_symm (x0 x1 x2 x3 x4 : Int) :
    filter x0 x1 x2 x3 x4 = filter x4 x3 x2 x1 x0 := by
  rw [filter_eq_ediv, filter_eq_ediv]
  congr 1
  ring

/-- The reversed scan of a line read backwards gives, at position `x`, what
the forward scan of the line gives at position `w-1-x`. -/
theorem outLine_mirror (w : Nat) (f : Nat → Nat → Nat) (x c : Nat) (hw : 2 ≤ w) (hx : x < w)
    (hc : c < 3) :
    outLine true w (fun c p => f c (3 * w - 1 - p)) x c = outLine false w f (w - 1 - x) c := by
  by_cases h0 : x = 0
  · subst h0
    rw [outLine_first, show w - 1 - 0 = w - 1 by omega, outLine_last _ _ _ _ hw]
    rfl
  · by_cases h1 : x + 1 = w
    · have hx' : x = w - 1 := by omega
      subst hx'
      rw [outLine_last _ _ _ _ hw, show w - 1 - (w - 1) = 0 by omega, outLine_first]
      congr 1
      omega
    · rw [outLine_interior _ _ _ x c (by omega) (by omega),
        outLine_interior _ _ _ (w - 1 - x) c (by omega) (by omega)]
      simp only [win5, centre, if_true, Bool.false_eq_true, if_false]
      rw [filter_symm]
      congr! 4 <;> omega

theorem planeMem_holds_27_3 (S : Nat → Nat → Nat → Nat) (rows : Nat) :
    HoldsPlane (planeMem S 27 3) 0 27 3 rows 9 S := by
  intro y p c _ hp hc
  simp only [planeMem, pix]
  have e : (0 + (y : Int) * 27 + (p : Int) * 3 + (c : Int)).toNat = y * 27 + p * 3 + c := by
    omega
  rw [e]
  have e1 : (y * 27 + p * 3 + c) / 27 = y := by omega
  have e2 : (y * 27 + p * 3 + c) % 27 / 3 = p := by omega
  have e3 : (y * 27 + p * 3 + c) % 27 % 3 = c := by omega
  rw [e1, e2, e3]

/-! ## Degenerate width and height -/

/-- One row of `buffer_subpix_x` for `width = 1`: the two edge copies follow
each other, the second one a pixel further in the destination and three
pixels further in the source. -/
theorem subpix_x_row_w1 (smem : SrcMem) (src ss n dn : Int) (h : Nat)
    (S : Nat → Nat → Nat → Nat) (hS : HoldsPlane smem src ss n h 5 S) (bo : Int)
    (y : Nat) (hy : y < h) (drow : Int) (b : DstBuf) :
    subpix_x_row smem dn n n bo 1 b drow (pix src ss n y 1 0)
      = some ⟨b.init, (drow + dn + 2, S y 4 2) :: (drow + dn + 1, S y 4 1) ::
          (drow + dn, S y 4 0) :: (drow + 2, S y 1 2) :: (drow + 1, S y 1 1) ::
          (drow, S y 1 0) :: b.writes⟩ := by
  have c1 := copy3_spec smem b drow (pix src ss n y 1 0) (S y 1 0) (S y 1 1) (S y 1 2)
    (hS y 1 0 hy (by omega) (by omega))
    (by rw [← hS y 1 1 hy (by omega) (by omega)]; simp only [pix]; congr 1; push_cast; ring)
    (by rw [← hS y 1 2 hy (by omega) (by omega)]; simp only [pix]; congr 1; push_cast; ring)
  have c2 := copy3_spec smem ⟨b.init, (drow + 2, S y 1 2) :: (drow + 1, S y 1 1) ::
      (drow, S y 1 0) :: b.writes⟩ (drow + dn) (pix src ss n y 1 0 + n * 3)
    (S y 4 0) (S y 4 1) (S y 4 2)
    (by rw [← hS y 4 0 hy (by omega) (by omega)]; simp only [pix]; congr 1; push_cast; ring)
    (by rw [← hS y 4 1 hy (by omega) (by omega)]; simp only [pix]; congr 1; push_cast; ring)
    (by rw [← hS y 4 2 hy (by omega) (by omega)]; simp only [pix]; congr 1; push_cast; ring)
  have hk : toU32 ((1 : Int) - 1) - 1 = 0 := by decide
  simp only [subpix_x_row]
  rw [c1]
  simp only [Option.bind_eq_bind, Option.some_bind, hk, subpix_x_cols]
  rw [c2]

theorem subpix_x_rows_w1 (smem : SrcMem) (dst src ss n dn ds : Int) (h : Nat)
    (S : Nat → Nat → Nat → Nat) (hS : HoldsPlane smem src ss n h 5 S) (bo : Int) :
    ∀ (k y0 : Nat) (b : DstBuf), y0 + k ≤ h →
    ∃ new, subpix_x_rows smem dn ds n ss n bo 1 k b (dst + (y0 : Int) * ds)
          (pix src ss n y0 1 0)
        = some ⟨b.init, new ++ b.writes⟩
      ∧ ∀ a v, (a, v) ∈ new ↔ ∃ y c : Nat, y0 ≤ y ∧ y < y0 + k ∧ c < 3 ∧
          ((a = pix dst ds dn y 0 c ∧ v = S y 1 c) ∨
            (a = pix dst ds dn y 1 c ∧ v = S y 4 c)) := by
  intro k
  induction k with
  | zero =>
    intro y0 b _
    refine ⟨[], by simp [subpix_x_rows], ?_⟩
    intro a v
    simp only [List.not_mem_nil, false_iff, not_exists, not_and]
    intro y c h1 h2
    omega
  | succ k ih =>
    intro y0 b hk
    have hrow := subpix_x_row_w1 smem src ss n dn h S hS bo y0 (by omega)
      (dst + (y0 : Int) * ds) b
    obtain ⟨new2, hrun2, hmem2⟩ := ih (y0 + 1) _ (by omega)
    have ed : dst + (y0 : Int) * ds + ds = dst + ((y0 + 1 : Nat) : Int) * ds := by
      push_cast; ring
    have es : pix src ss n y0 1 0 + ss = pix src ss n (y0 + 1) 1 0 := by
      simp only [pix]; push_cast; ring
    refine ⟨new2 ++ [(dst + (y0 : Int) * ds + dn + 2, S y0 4 2),
      (dst + (y0 : Int) * ds + dn + 1, S y0 4 1), (dst + (y0 : Int) * ds + dn, S y0 4 0),
      (dst + (y0 : Int) * ds + 2, S y0 1 2), (dst + (y0 : Int) * ds + 1, S y0 1 1),
      (dst + (y0 : Int) * ds, S y0 1 0)], ?_, ?_⟩
    · simp only [subpix_x_rows]
      rw [hrow]
      simp only [Option.bind_eq_bind, Option.some_bind]
      rw [ed, es, hrun2]
      simp
    · intro a v
      rw [List.mem_append, hmem2]
      have p0 : ∀ c : Nat, pix dst ds dn y0 0 c = dst + (y0 : Int) * ds + (c : Int) := by
        intro c; simp [pix]
      have p1 : ∀ c : Nat, pix dst ds dn y0 1 c = dst + (y0 : Int) * ds + dn + (c : Int) := by
        intro c; simp [pix]
      constructor
      · rintro (⟨y, c, h1, h2, h3, h4⟩ | hm)
        · exact ⟨y, c, by omega, by omega, h3, h4⟩
        · simp only [List.mem_cons, Prod.mk.injEq, List.mem_singleton, List.not_mem_nil,
            or_false] at hm
          rcases hm with ⟨ha, hv⟩ | ⟨ha, hv⟩ | ⟨ha, hv⟩ | ⟨ha, hv⟩ | ⟨ha, hv⟩ | ⟨ha, hv⟩
          · exact ⟨y0, 2, le_refl _, by omega, by omega, Or.inr ⟨by rw [ha, p1]; norm_num, hv⟩⟩
          · exact ⟨y0, 1, le_refl _, by omega, by omega, Or.inr ⟨by rw [ha, p1]; norm_num, hv⟩⟩
          · exact ⟨y0, 0, le_refl _, by omega, by omega, Or.inr ⟨by rw [ha, p1]; norm_num, hv⟩⟩
          · exact ⟨y0, 2, le_refl _, by omega, by omega, Or.inl ⟨by rw [ha, p0]; norm_num, hv⟩⟩
          · exact ⟨y0, 1, le_refl _, by omega, by omega, Or.inl ⟨by rw [ha, p0]; norm_num, hv⟩⟩
          · exact ⟨y0, 0, le_refl _, by omega, by omega, Or.inl ⟨by rw [ha, p0]; norm_num, hv⟩⟩
      · rintro ⟨y, c, h1, h2, h3, h4⟩
        by_cases hy : y = y0
        · subst hy
          right
          simp only [List.mem_cons, Prod.mk.injEq, List.mem_singleton, List.not_mem_nil,
            or_false]
          rcases h4 with ⟨ha, hv⟩ | ⟨ha, hv⟩
          · rw [p0] at ha
            interval_cases c
            · right; right; right; right; right
              exact ⟨by rw [ha]; norm_num, hv⟩
            · right; right; right; right; left
              exact ⟨by rw [ha]; norm_num, hv⟩
            · right; right; right; left
              exact ⟨by rw [ha]; norm_num, hv⟩
          · rw [p1] at ha
            interval_cases c
            · right; right; left
              exact ⟨by rw [ha]; norm_num, hv⟩
            · right; left
              exact ⟨by rw [ha]; norm_num, hv⟩
            · left
              exact ⟨by rw [ha]; norm_num, hv⟩
        · left
          exact ⟨y, c, by omega, by omega, h3, h4⟩

/-- Stores of `buffer_subpix_x` for `width = 1` on a source in which the
pixels 0..4 of each of the `h` rows are readable: output pixel 0 of each row
is copied from oversampled pixel 1 and output pixel 1 from oversampled
pixel 4. -/
theorem buffer_subpix_x_w1_spec (smem : SrcMem) (dst src ss n dn ds : Int) (h : Nat)
    (S : Nat → Nat → Nat → Nat) (hS : HoldsPlane smem src ss n h 5 S) (subpix_order : Int)
    (hhI : (h : Int) ≤ INT_MAX) (b : DstBuf) :
    ∃ new, buffer_subpix_x smem b dst dn ds src n ss 1 h subpix_order
        = some ⟨b.init, new ++ b.writes⟩
      ∧ ∀ a v, (a, v) ∈ new ↔ ∃ y c : Nat, y < h ∧ c < 3 ∧
          ((a = pix dst ds dn y 0 c ∧ v = S y 1 c) ∨
            (a = pix dst ds dn y 1 c ∧ v = S y 4 c)) := by
  obtain ⟨new, hrun, hmem⟩ := subpix_x_rows_w1 smem dst src ss n dn ds h S hS
    (if subpix_order = SUBPIXEL_HBGR then -n else n) h 0 b (by omega)
  refine ⟨new, ?_, ?_⟩
  · simp only [buffer_subpix_x]
    rw [toU32_natCast h hhI]
    have e1 : src + n = pix src ss n 0 1 0 := by simp [pix]
    have e2 : dst + ((0 : Nat) : Int) * ds = dst := by simp
    rw [e1]
    rw [e2] at hrun
    exact hrun
  · intro a v
    rw [hmem]
    constructor
    · rintro ⟨y, c, -, h2, h3, h4⟩
      exact ⟨y, c, by omega, h3, h4⟩
    · rintro ⟨y, c, h2, h3, h4⟩
      exact ⟨y, c, by omega, by omega, h3, h4⟩

/-- Stores of `buffer_subpix_y` for `height = 1` on a source in which the rows
0..4 of `w` pixels are readable: output row 0 is copied from oversampled
row 1 and output row 1 from oversampled row 4. -/
theorem buffer_subpix_y_h1_spec (smem : SrcMem) (dst src ss n dn ds : Int) (w : Nat)
    (S : Nat → Nat → Nat → Nat) (hS : HoldsPlane smem src ss n 5 w S) (subpix_order : Int)
    (hwI : (w : Int) ≤ INT_MAX) (b : DstBuf) :
    ∃ new, buffer_subpix_y smem b dst dn ds src n ss w 1 subpix_order
        = some ⟨b.init, new ++ b.writes⟩
      ∧ ∀ a v, (a, v) ∈ new ↔ ∃ x c : Nat, x < w ∧ c < 3 ∧
          ((a = pix dst ds dn 0 x c ∧ v = S 1 x c) ∨
            (a = pix dst ds dn 1 x c ∧ v = S 4 x c)) := by
  obtain ⟨new1, hrun1, hmem1⟩ := buffer_blit_row_spec smem src ss n dn 5 w S hS hwI 1
    (by omega) dst b
  obtain ⟨new3, hrun3, hmem3⟩ := buffer_blit_row_spec smem src ss n dn 5 w S hS hwI 4
    (by omega) (dst + ds) ⟨b.init, new1 ++ b.writes⟩
  refine ⟨new3 ++ new1, ?_, ?_⟩
  · simp only [buffer_subpix_y]
    have e1 : src + ss = pix src ss n 1 0 0 := by simp [pix]
    have e3 : pix src ss n 1 0 0 + ss * 3 = pix src ss n 4 0 0 := by
      simp only [pix]; push_cast; ring
    have hk : toU32 ((1 : Int) - 1) - 1 = 0 := by decide
    rw [e1, hrun1]
    simp only [Option.bind_eq_bind, Option.some_bind, hk, subpix_y_rows]
    rw [e3, hrun3]
    simp
  · intro a v
    have p0 : ∀ x c : Nat, pix dst ds dn 0 x c = dst + (x : Int) * dn + (c : Int) := by
      intro x c; simp [pix]
    have p1 : ∀ x c : Nat, pix dst ds dn 1 x c = dst + ds + (x : Int) * dn + (c : Int) := by
      intro x c; simp [pix]
    simp only [List.mem_append, hmem1, hmem3]
    constructor
    · rintro (⟨x, c, h1, h2, h3, h4⟩ | ⟨x, c, h1, h2, h3, h4⟩)
      · exact ⟨x, c, h1, h2, Or.inr ⟨by rw [h3, p1], h4⟩⟩
      · exact ⟨x, c, h1, h2, Or.inl ⟨by rw [h3, p0], h4⟩⟩
    · rintro ⟨x, c, h1, h2, ⟨h3, h4⟩ | ⟨h3, h4⟩⟩
      · right
        exact ⟨x, c, h1, h2, by rw [h3, p0], h4⟩
      · left
        exact ⟨x, c, h1, h2, by rw [h3, p1], h4⟩

theorem planeOnly_eq_some (bytes : Int → Nat) (src stride n : Int) (rows cols : Nat)
    (y p c : Nat) (hy : y < rows) (hp : p < cols) (hc : c < 3) :
    planeOnly bytes src stride n rows cols (pix src stride n y p c)
      = some (bytes (pix src stride n y p c)) := by
  have : (List.range rows).any (fun y' => (List.range cols).any (fun p' =>
      (List.range 3).any (fun c' =>
        decide (pix src stride n y p c = pix src stride n y' p' c')))) = true := by
    simp only [List.any_eq_true, List.mem_range, decide_eq_true_eq]
    exact ⟨y, hy, p, hp, c, hc, rfl⟩
  simp [planeOnly, this]

theorem planeOnly_eq_none (bytes : Int → Nat) (src stride n : Int) (rows cols : Nat) (a : Int)
    (ha : ∀ y p c : Nat, y < rows → p < cols → c < 3 → a ≠ pix src stride n y p c) :
    planeOnly bytes src stride n rows cols a = none := by
  have : (List.range rows).any (fun y' => (List.range cols).any (fun p' =>
      (List.range 3).any (fun c' => decide (a = pix src stride n y' p' c')))) = false := by
    rw [Bool.eq_false_iff]
    intro h
    simp only [List.any_eq_true, List.mem_range, decide_eq_true_eq] at h
    obtain ⟨y, hy, p, hp, c, hc, e⟩ := h
    exact ha y p c hy hp hc e
  simp [planeOnly, this]

theorem planeOnly_holds (bytes : Int → Nat) (src stride n : Int) (rows cols : Nat) :
    HoldsPlane (planeOnly bytes src stride n rows cols) src stride n rows cols
      (fun y p c => bytes (pix src stride n y p c)) :=
  fun y p c hy hp hc => planeOnly_eq_some bytes src stride n rows cols y p c hy hp hc

/-- Pixel 4 of the last row of a plane 3 pixels wide lies outside the plane. -/
theorem pix4_last_row_outside (src ss n : Int) (h : Nat) (hh : 1 ≤ h) (hn : 3 ≤ n)
    (hss : 3 * n ≤ ss) (y p c : Nat) (hy : y < h) (hp : p < 3) (hc : c < 3) :
    pix src ss n (h - 1) 1 0 + n * 3 + 0 ≠ pix src ss n y p c := by
  intro e
  simp only [pix] at e
  have hcast : ((h - 1 : Nat) : Int) = (h : Int) - 1 := by omega
  rw [hcast] at e
  have hpn : (p : Int) * n ≤ 2 * n := mul_le_mul_of_nonneg_right (by omega) (by omega)
  rcases Nat.lt_or_ge y (h - 1) with hlt | hge
  · have : ((y : Int) + 1) * ss ≤ ((h : Int) - 1) * ss :=
      mul_le_mul_of_nonneg_right (by omega) (by omega)
    push_cast at e
    nlinarith
  · have hyv : (y : Int) = (h : Int) - 1 := by omega
    rw [hyv] at e
    push_cast at e
    have : (c : Int) < 3 := by omega
    nlinarith

/-- With only a plane of `h ≥ 1` rows of 3 pixels readable, the run of
`buffer_subpix_x` for `width = 1` makes a read that fails. -/
theorem subpix_x_rows_w1_fails (bytes : Int → Nat) (src ss n dn ds : Int) (h : Nat)
    (hn : 3 ≤ n) (hss : 3 * n ≤ ss) (bo : Int) :
    ∀ (k y0 : Nat) (b : DstBuf) (d : Int), 1 ≤ k → y0 + k = h →
    subpix_x_rows (planeOnly bytes src ss n h 3) dn ds n ss n bo 1 k b d
      (pix src ss n y0 1 0) = none := by
  intro k
  induction k with
  | zero => intro y0 b d hk; omega
  | succ k ih =>
    intro y0 b d _ hy
    simp only [subpix_x_rows]
    by_cases hk : k = 0
    · subst hk
      have hy0 : y0 = h - 1 := by omega
      subst hy0
      have hS := planeOnly_holds bytes src ss n h 3
      have c1 := copy3_spec (planeOnly bytes src ss n h 3) b d (pix src ss n (h - 1) 1 0) _ _ _
        (hS (h - 1) 1 0 (by omega) (by omega) (by omega))
        (by rw [← hS (h - 1) 1 1 (by omega) (by omega) (by omega)]
            simp only [pix]; congr 1; push_cast; ring)
        (by rw [← hS (h - 1) 1 2 (by omega) (by omega) (by omega)]
            simp only [pix]; congr 1; push_cast; ring)
      have hnone : planeOnly bytes src ss n h 3 (pix src ss n (h - 1) 1 0 + n * 3 + 0) = none :=
        planeOnly_eq_none bytes src ss n h 3 _
          (fun y p c hy hp hc => pix4_last_row_outside src ss n h (by omega) hn hss y p c hy hp hc)
      have hk0 : toU32 ((1 : Int) - 1) - 1 = 0 := by decide
      have hrow : subpix_x_row (planeOnly bytes src ss n h 3) dn n n bo 1 b d
          (pix src ss n (h - 1) 1 0) = none := by
        simp only [subpix_x_row]
        rw [c1]
        simp only [Option.bind_eq_bind, Option.some_bind, hk0, subpix_x_cols]
        rw [add_zero] at hnone
        simp [copy3, hnone]
      rw [hrow]
      rfl
    · have es : pix src ss n y0 1 0 + ss = pix src ss n (y0 + 1) 1 0 := by
        simp only [pix]; push_cast; ring
      cases hrow : subpix_x_row (planeOnly bytes src ss n h 3) dn n n bo 1 b d
          (pix src ss n y0 1 0) with
      | none => rfl
      | some b1 =>
        simp only [Option.bind_eq_bind, Option.some_bind]
        rw [es]
        exact ih (y0 + 1) b1 (d + ds) (by omega) (by omega)

/-- Row 4 of a plane of 3 rows lies outside the plane. -/
theorem row4_outside (src ss n : Int) (w : Nat) (hn : 3 ≤ n) (hss : (w : Int) * n ≤ ss)
    (y x c : Nat) (hy : y < 3) (hx : x < w) (hc : c < 3) :
    pix src ss n 1 0 0 + ss * 3 + 0 ≠ pix src ss n y x c := by
  intro e
  simp only [pix] at e
  have hxn : ((x : Int) + 1) * n ≤ (w : Int) * n :=
    mul_le_mul_of_nonneg_right (by omega) (by omega)
  have hx0 : 0 ≤ (x : Int) * n := mul_nonneg (by omega) (by omega)
  have hyv : (y : Int) ≤ 2 := by omega
  have hy0 : (0 : Int) ≤ y := by omega
  have hss0 : 0 < ss := by nlinarith
  push_cast at e
  nlinarith

/-- With only a plane of 3 rows of `w ≥ 1` pixels readable, the run of
`buffer_subpix_y` for `height = 1` makes a read that fails. -/
theorem buffer_subpix_y_h1_fails (bytes : Int → Nat) (b : DstBuf) (dst src ss n dn ds : Int)
    (w : Nat) (hw : 1 ≤ w) (hwI : (w : Int) ≤ INT_MAX) (hn : 3 ≤ n)
    (hss : (w : Int) * n ≤ ss) (subpix_order : Int) :
    buffer_subpix_y (planeOnly bytes src ss n 3 w) b dst dn ds src n ss w 1 subpix_order
      = none := by
  obtain ⟨new1, hrun1, -⟩ := buffer_blit_row_spec (planeOnly bytes src ss n 3 w) src ss n dn 3 w
    _ (planeOnly_holds bytes src ss n 3 w) hwI 1 (by omega) dst b
  have e1 : src + ss = pix src ss n 1 0 0 := by simp [pix]
  have hk : toU32 ((1 : Int) - 1) - 1 = 0 := by decide
  have hnone : planeOnly bytes src ss n 3 w (pix src ss n 1 0 0 + ss * 3 + 0) = none :=
    planeOnly_eq_none bytes src ss n 3 w _
      (fun y x c hy hx hc => row4_outside src ss n w hn hss y x c hy hx hc)
  simp only [buffer_subpix_y]
  rw [e1, hrun1]
  simp only [Option.bind_eq_bind, Option.some_bind, hk, subpix_y_rows]
  simp only [buffer_blit_row]
  rw [toU32_natCast w hwI]
  obtain ⟨k, rfl⟩ : ∃ k, w = k + 1 := ⟨w - 1, by omega⟩
  rw [add_zero] at hnone
  simp [buffer_blit_row_loop, copy3, hnone]

/-! ## `filter` in 32-bit arithmetic -/

/-- For samples up to 7456539 no operation of `filter` overflows an `int`:
the 32-bit function is the exact one. -/
theorem filter_i32_eq_filter (x0 x1 x2 x3 x4 : Int)
    (h0 : 0 ≤ x0 ∧ x0 ≤ 7456539) (h1 : 0 ≤ x1 ∧ x1 ≤ 7456539) (h2 : 0 ≤ x2 ∧ x2 ≤ 7456539)
    (h3 : 0 ≤ x3 ∧ x3 ≤ 7456539) (h4 : 0 ≤ x4 ∧ x4 ≤ 7456539) :
    filter_i32 x0 x1 x2 x3 x4 = filter x0 x1 x2 x3 x4 := by
  have w0 : wrapI32 (0x30 - 0x20) = 16 := by decide
  have w1 : wrapI32 (0x30 + 0x20) = 80 := by decide
  have w2 : wrapI32 (0x30 * 2) = 96 := by decide
  have hW : wrapI32 (wrapI32 (wrapI32 (wrapI32 (16 + 80) + 96) + 80) + 16) = 288 := by decide
  have hW2 : Int.tdiv 288 2 = 144 := by decide
  have p0 : wrapI32 (x0 * 16) = x0 * 16 := wrapI32_of_range _ (by omega) (by omega)
  have p1 : wrapI32 (x1 * 80) = x1 * 80 := wrapI32_of_range _ (by omega) (by omega)
  have p2 : wrapI32 (x2 * 96) = x2 * 96 := wrapI32_of_range _ (by omega) (by omega)
  have p3 : wrapI32 (x3 * 80) = x3 * 80 := wrapI32_of_range _ (by omega) (by omega)
  have p4 : wrapI32 (x4 * 16) = x4 * 16 := wrapI32_of_range _ (by omega) (by omega)
  have s1 : wrapI32 (x0 * 16 + x1 * 80) = x0 * 16 + x1 * 80 :=
    wrapI32_of_range _ (by omega) (by omega)
  have s2 : wrapI32 (x0 * 16 + x1 * 80 + x2 * 96) = x0 * 16 + x1 * 80 + x2 * 96 :=
    wrapI32_of_range _ (by omega) (by omega)
  have s3 : wrapI32 (x0 * 16 + x1 * 80 + x2 * 96 + x3 * 80)
      = x0 * 16 + x1 * 80 + x2 * 96 + x3 * 80 := wrapI32_of_range _ (by omega) (by omega)
  have s4 : wrapI32 (x0 * 16 + x1 * 80 + x2 * 96 + x3 * 80 + x4 * 16)
      = x0 * 16 + x1 * 80 + x2 * 96 + x3 * 80 + x4 * 16 :=
    wrapI32_of_range _ (by omega) (by omega)
  have s5 : wrapI32 (x0 * 16 + x1 * 80 + x2 * 96 + x3 * 80 + x4 * 16 + 144)
      = x0 * 16 + x1 * 80 + x2 * 96 + x3 * 80 + x4 * 16 + 144 :=
    wrapI32_of_range _ (by omega) (by omega)
  simp only [filter_i32, w0, w1, w2, hW, hW2, p0, p1, p2, p3, p4, s1, s2, s3, s4, s5]
  rw [filter_eq_ediv]
  congr 1
  ring

/-! ## Claims -/

/-- C1. Interior pixels of the horizontal downsampler.  On an oversampled
plane `S` of `h` rows of `3w` byte pixels, `w ≥ 3`, `buffer_subpix_x` returns,
and for every row `y < h` and interior column `1 ≤ x ≤ w-2` it stores at the
three channel bytes of output pixel `(y, x)` the values `vb`, `vg`, `vr` (which
are also the bytes finally held there when the destination is laid out as a
plane), where green is the filter of `S(y, 3x-1..3x+3, 1)`, and for HRGB blue
is the filter of `S(y, 3x..3x+4, 0)` and red of `S(y, 3x-2..3x+2, 2)`, while
for HBGR blue is the filter of `S(y, 3x-2..3x+2, 0)` and red of
`S(y, 3x..3x+4, 2)`.  The windows of column `x+1` are those of `x` moved by 3. -/
theorem C1_subpix_x_interior (smem : SrcMem) (init : Int → Nat) (dst src ss n dn ds : Int)
    (h w : Nat) (S : Nat → Nat → Nat → Nat) (hS : HoldsPlane smem src ss n h (3 * w) S)
    (hbyte : ∀ y p c, y < h → p < 3 * w → c < 3 → S y p c < 256)
    (hw : 3 ≤ w) (hwI : (w : Int) ≤ INT_MAX) (hhI : (h : Int) ≤ INT_MAX)
    (subpix_order : Int) (y x : Nat) (hy : y < h) (hx1 : 1 ≤ x) (hx2 : x ≤ w - 2) :
    ∃ b' : DstBuf, ∃ vb vg vr : Nat,
      buffer_subpix_x smem ⟨init, []⟩ dst dn ds src n ss w h subpix_order = some b' ∧
      (pix dst ds dn y x 0, vb) ∈ b'.writes ∧
      (pix dst ds dn y x 1, vg) ∈ b'.writes ∧
      (pix dst ds dn y x 2, vr) ∈ b'.writes ∧
      (3 ≤ dn → (w : Int) * dn ≤ ds →
        b'.get (pix dst ds dn y x 0) = vb ∧ b'.get (pix dst ds dn y x 1) = vg ∧
        b'.get (pix dst ds dn y x 2) = vr) ∧
      (vg : Int) = filter (S y (3 * x - 1) 1) (S y (3 * x) 1) (S y (3 * x + 1) 1)
        (S y (3 * x + 2) 1) (S y (3 * x + 3) 1) ∧
      (subpix_order = SUBPIXEL_HRGB →
        (vb : Int) = filter (S y (3 * x) 0) (S y (3 * x + 1) 0) (S y (3 * x + 2) 0)
          (S y (3 * x + 3) 0) (S y (3 * x + 4) 0) ∧
        (vr : Int) = filter (S y (3 * x - 2) 2) (S y (3 * x - 1) 2) (S y (3 * x) 2)
          (S y (3 * x + 1) 2) (S y (3 * x + 2) 2)) ∧
      (subpix_order = SUBPIXEL_HBGR →
        (vb : Int) = filter (S y (3 * x - 2) 0) (S y (3 * x - 1) 0) (S y (3 * x) 0)
          (S y (3 * x + 1) 0) (S y (3 * x + 2) 0) ∧
        (vr : Int) = filter (S y (3 * x) 2) (S y (3 * x + 1) 2) (S y (3 * x + 2) 2)
          (S y (3 * x + 3) 2) (S y (3 * x + 4) 2)) := by
  obtain ⟨new, hrun, hmem⟩ := buffer_subpix_x_spec smem dst src ss n dn ds h w S hS
    subpix_order (by omega) hwI hhI ⟨init, []⟩
  simp only [List.append_nil] at hrun
  have hx : x < w := by omega
  have hget := get_of_plane_writes ⟨init, new⟩ dst ds dn h w (outX subpix_order w S) hmem
  have hwin : ∀ c, c < 3 → ∀ p, 2 ≤ p → p + 2 < 3 * w →
      ((win5 (fun q => S y q c) p : Nat) : Int)
        = filter (S y (p - 2) c) (S y (p - 1) c) (S y p c) (S y (p + 1) c) (S y (p + 2) c) :=
    fun c hc p _ _ => win5_cast (fun q => S y q c) p (fun q _ _ => hbyte y q c hy (by omega) hc)
  have hout : ∀ c, outX subpix_order w S y x c
      = win5 (fun q => S y q c) (centre (revX subpix_order) x c) :=
    fun c => outLine_interior _ w _ x c hx1 (by omega)
  refine ⟨⟨init, new⟩, outX subpix_order w S y x 0, outX subpix_order w S y x 1,
    outX subpix_order w S y x 2, hrun,
    (hmem _ _).2 ⟨y, x, 0, hy, hx, by omega, rfl, rfl⟩,
    (hmem _ _).2 ⟨y, x, 1, hy, hx, by omega, rfl, rfl⟩,
    (hmem _ _).2 ⟨y, x, 2, hy, hx, by omega, rfl, rfl⟩,
    fun hdn hds => ⟨hget.1 hdn hds y x 0 hy hx (by omega), hget.1 hdn hds y x 1 hy hx (by omega),
      hget.1 hdn hds y x 2 hy hx (by omega)⟩, ?_, ?_, ?_⟩
  · rw [hout 1]
    have hc : centre (revX subpix_order) x 1 = 3 * x + 1 := by
      cases revX subpix_order <;> simp [centre]
    rw [hc, hwin 1 (by omega) (3 * x + 1) (by omega) (by omega)]
    rfl
  · intro ho
    subst ho
    rw [hout 0, hout 2, revX_HRGB]
    have hc0 : centre false x 0 = 3 * x + 2 := by simp [centre]
    have hc2 : centre false x 2 = 3 * x := by simp [centre]
    rw [hc0, hc2, hwin 0 (by omega) (3 * x + 2) (by omega) (by omega),
      hwin 2 (by omega) (3 * x) (by omega) (by omega)]
    exact ⟨rfl, rfl⟩
  · intro ho
    subst ho
    rw [hout 0, hout 2, revX_HBGR]
    have hc0 : centre true x 0 = 3 * x := by simp [centre]
    have hc2 : centre true x 2 = 3 * x + 2 := by simp [centre]
    rw [hc0, hc2, hwin 0 (by omega) (3 * x) (by omega) (by omega),
      hwin 2 (by omega) (3 * x + 2) (by omega) (by omega)]
    exact ⟨rfl, rfl⟩

/-- Concrete instance of C1: a 1 x 9 ramp plane, output width 3, interior pixel (0, 1). -/
theorem C1_subpix_x_interior_witness :
    ∃ b' : DstBuf, ∃ vb vg vr : Nat,
      buffer_subpix_x rampMem ⟨fun _ => 0, []⟩ 0 4 12 0 3 27 3 1 SUBPIXEL_HRGB = some b' ∧
      (pix 0 12 4 0 1 0, vb) ∈ b'.writes ∧
      (pix 0 12 4 0 1 1, vg) ∈ b'.writes ∧
      (pix 0 12 4 0 1 2, vr) ∈ b'.writes ∧
      vb = 15 ∧ vg = 13 ∧ vr = 11 := by
  obtain ⟨b', vb, vg, vr, h1, h2, h3, h4, -, h6, h7, -⟩ :=
    C1_subpix_x_interior rampMem (fun _ => 0) 0 0 27 3 4 12 1 3 (rampPlane 27 3)
      (rampMem_holds 27 3 1 9) (fun y p c _ _ _ => rampPlane_lt 27 3 y p c)
      (by decide) (by decide) (by decide) SUBPIXEL_HRGB 0 1 (by decide) (by decide) (by decide)
  have eb : filter (rampPlane 27 3 0 (3 * 1) 0) (rampPlane 27 3 0 (3 * 1 + 1) 0)
      (rampPlane 27 3 0 (3 * 1 + 2) 0) (rampPlane 27 3 0 (3 * 1 + 3) 0)
      (rampPlane 27 3 0 (3 * 1 + 4) 0) = 15 := by decide
  have eg : filter (rampPlane 27 3 0 (3 * 1 - 1) 1) (rampPlane 27 3 0 (3 * 1) 1)
      (rampPlane 27 3 0 (3 * 1 + 1) 1) (rampPlane 27 3 0 (3 * 1 + 2) 1)
      (rampPlane 27 3 0 (3 * 1 + 3) 1) = 13 := by decide
  have er : filter (rampPlane 27 3 0 (3 * 1 - 2) 2) (rampPlane 27 3 0 (3 * 1 - 1) 2)
      (rampPlane 27 3 0 (3 * 1) 2) (rampPlane 27 3 0 (3 * 1 + 1) 2)
      (rampPlane 27 3 0 (3 * 1 + 2) 2) = 11 := by decide
  have hb := (h7 rfl).1
  have hr := (h7 rfl).2
  rw [eb] at hb
  rw [eg] at h6
  rw [er] at hr
  exact ⟨b', vb, vg, vr, h1, h2, h3, h4, by exact_mod_cast hb, by exact_mod_cast h6,
    by exact_mod_cast hr⟩

/-- C2. For byte samples the filter is the weighted sum with weights
16, 80, 96, 80, 16 (that is `0x30-0x20`, `0x30+0x20`, `2*0x30`) plus half the
denominator, divided by the denominator 288 rounding down; the weights sum to
the denominator, so this is the weighted average rounded to the nearest
integer with halves rounded up.  No intermediate value leaves the range of
`int`, so the exact integers of the embedding are what the C code computes. -/
theorem C2_filter_weighted_round (x0 x1 x2 x3 x4 : Int)
    (h0 : 0 ≤ x0 ∧ x0 ≤ 255) (h1 : 0 ≤ x1 ∧ x1 ≤ 255) (h2 : 0 ≤ x2 ∧ x2 ≤ 255)
    (h3 : 0 ≤ x3 ∧ x3 ≤ 255) (h4 : 0 ≤ x4 ∧ x4 ≤ 255) :
    filter x0 x1 x2 x3 x4
        = (16 * x0 + 80 * x1 + 96 * x2 + 80 * x3 + 16 * x4 + 288 / 2) / 288 ∧
    filter x0 x1 x2 x3 x4
        = ⌊(((16 * x0 + 80 * x1 + 96 * x2 + 80 * x3 + 16 * x4 : Int) : ℚ)
            / (16 + 80 + 96 + 80 + 16)) + 1 / 2⌋ ∧
    ((0x30 - 0x20 : Int) = 16 ∧ (0x30 + 0x20 : Int) = 80 ∧ (0x30 * 2 : Int) = 96 ∧
      (16 + 80 + 96 + 80 + 16 : Int) = 288) ∧
    (0 ≤ 16 * x0 + 80 * x1 + 96 * x2 + 80 * x3 + 16 * x4 + 288 / 2 ∧
      16 * x0 + 80 * x1 + 96 * x2 + 80 * x3 + 16 * x4 + 288 / 2 ≤ INT_MAX) := by
  have e := filter_eq_div x0 x1 x2 x3 x4 h0.1 h1.1 h2.1 h3.1 h4.1
  refine ⟨?_, ?_, by norm_num, ?_⟩
  · rw [e]
    norm_num
  · rw [e]
    have := Rat.floor_intCast_div_natCast
      (16 * x0 + 80 * x1 + 96 * x2 + 80 * x3 + 16 * x4 + 144) 288
    rw [show ((288 : ℕ) : ℤ) = 288 by norm_num] at this
    rw [← this]
    congr 1
    push_cast
    ring
  · unfold INT_MAX
    omega

/-- Concrete instance of C2: the samples (9, 0, 0, 0, 0) have weighted average exactly
one half, which rounds up to 1. -/
theorem C2_filter_weighted_round_witness :
    filter 9 0 0 0 0 = (16 * 9 + 80 * 0 + 96 * 0 + 80 * 0 + 16 * 0 + 288 / 2) / 288 ∧
    filter 9 0 0 0 0 = 1 := by
  have h := (C2_filter_weighted_round 9 0 0 0 0 (by decide) (by decide) (by decide)
    (by decide) (by decide)).1
  exact ⟨h, by rw [h]; decide⟩

/-- C3. Edge preservation of the horizontal downsampler.  For `w ≥ 2` and every
row `y < h`, for either order, each of the three channel bytes of output
column 0 is stored as the same byte of oversampled column 1 (inside the first
triplet, columns 0..2) and each channel byte of output column `w-1` as the
same byte of oversampled column `3w-2` (inside the last triplet, columns
`3w-3..3w-1`); these are the bytes finally held there when the destination
is laid out as a plane. -/
theorem C3_subpix_x_edges (smem : SrcMem) (init : Int → Nat) (dst src ss n dn ds : Int)
    (h w : Nat) (S : Nat → Nat → Nat → Nat) (hS : HoldsPlane smem src ss n h (3 * w) S)
    (hw : 2 ≤ w) (hwI : (w : Int) ≤ INT_MAX) (hhI : (h : Int) ≤ INT_MAX)
    (subpix_order : Int) (y c : Nat) (hy : y < h) (hc : c < 3) :
    ∃ b' : DstBuf,
      buffer_subpix_x smem ⟨init, []⟩ dst dn ds src n ss w h subpix_order = some b' ∧
      (pix dst ds dn y 0 c, S y 1 c) ∈ b'.writes ∧
      (pix dst ds dn y (w - 1) c, S y (3 * w - 2) c) ∈ b'.writes ∧
      (3 ≤ dn → (w : Int) * dn ≤ ds →
        b'.get (pix dst ds dn y 0 c) = S y 1 c ∧
        b'.get (pix dst ds dn y (w - 1) c) = S y (3 * w - 2) c) ∧
      (0 ≤ 1 ∧ 1 ≤ 2 ∧ 3 * w - 3 ≤ 3 * w - 2 ∧ 3 * w - 2 ≤ 3 * w - 1) := by
  obtain ⟨new, hrun, hmem⟩ := buffer_subpix_x_spec smem dst src ss n dn ds h w S hS
    subpix_order hw hwI hhI ⟨init, []⟩
  simp only [List.append_nil] at hrun
  have hget := get_of_plane_writes ⟨init, new⟩ dst ds dn h w (outX subpix_order w S) hmem
  have e0 : outX subpix_order w S y 0 c = S y 1 c := outLine_first _ w _ c
  have e1 : outX subpix_order w S y (w - 1) c = S y (3 * w - 2) c := outLine_last _ w _ c hw
  refine ⟨⟨init, new⟩, hrun, ?_, ?_, ?_, by omega⟩
  · exact (hmem _ _).2 ⟨y, 0, c, hy, by omega, hc, rfl, e0.symm⟩
  · exact (hmem _ _).2 ⟨y, w - 1, c, hy, by omega, hc, rfl, e1.symm⟩
  · intro hdn hds
    exact ⟨by rw [hget.1 hdn hds y 0 c hy (by omega) hc, e0],
      by rw [hget.1 hdn hds y (w - 1) c hy (by omega) hc, e1]⟩

/-- Concrete instance of C3: a 1 x 6 ramp plane (3 bytes per pixel), output width 2,
green channel: output column 0 gets byte 1 of source pixel 1 (offset 4) and
output column 1 gets byte 1 of source pixel 4 (offset 13). -/
theorem C3_subpix_x_edges_witness :
    ∃ b' : DstBuf,
      buffer_subpix_x rampMem ⟨fun _ => 0, []⟩ 0 4 8 0 3 18 2 1 SUBPIXEL_HBGR = some b' ∧
      (pix 0 8 4 0 0 1, 4) ∈ b'.writes ∧ (pix 0 8 4 0 1 1, 13) ∈ b'.writes ∧
      b'.get (pix 0 8 4 0 0 1) = 4 ∧ b'.get (pix 0 8 4 0 1 1) = 13 := by
  obtain ⟨b', h1, h2, h3, h4, -⟩ :=
    C3_subpix_x_edges rampMem (fun _ => 0) 0 0 18 3 4 8 1 2 (rampPlane 18 3)
      (rampMem_holds 18 3 1 6) (by decide) (by decide) (by decide) SUBPIXEL_HBGR 0 1
      (by decide) (by decide)
  have e1 : rampPlane 18 3 0 1 1 = 4 := by decide
  have e2 : rampPlane 18 3 0 (3 * 2 - 2) 1 = 13 := by decide
  have h5 := h4 (by decide) (by decide)
  rw [e1] at h2 h5
  rw [e2] at h3 h5
  exact ⟨b', h1, h2, h3, h5.1, h5.2⟩

/-- C4. Length and frame of the horizontal downsampler.  The destination is an
object separate from the source.  For `w ≥ 2`, any `h`, `dst_ncmpt ≥ 3` and
`dst_stride ≥ w * dst_ncmpt`, on an oversampled plane of `h` rows of `3w`
pixels `buffer_subpix_x` returns, and the offsets it stores to are exactly
`y * dst_stride + x * dst_ncmpt + c` for `y < h`, `x < w`, `c < 3`, which are
pairwise distinct, so `w` pixels per row; every other destination byte keeps
its initial value, and with `dst_ncmpt = 4` so does byte 3 of every pixel. -/
theorem C4_subpix_x_frame (smem : SrcMem) (init : Int → Nat) (dst src ss n dn ds : Int)
    (h w : Nat) (S : Nat → Nat → Nat → Nat) (hS : HoldsPlane smem src ss n h (3 * w) S)
    (hw : 2 ≤ w) (hwI : (w : Int) ≤ INT_MAX) (hhI : (h : Int) ≤ INT_MAX)
    (hdn : 3 ≤ dn) (hds : (w : Int) * dn ≤ ds) (subpix_order : Int) :
    ∃ b' : DstBuf,
      buffer_subpix_x smem ⟨init, []⟩ dst dn ds src n ss w h subpix_order = some b' ∧
      (∀ a, (∃ v, (a, v) ∈ b'.writes) ↔
        ∃ y x c : Nat, y < h ∧ x < w ∧ c < 3 ∧ a = pix dst ds dn y x c) ∧
      (∀ y x c y' x' c' : Nat, x < w → x' < w → c < 3 → c' < 3 →
        pix dst ds dn y x c = pix dst ds dn y' x' c' → y = y' ∧ x = x' ∧ c = c') ∧
      (∀ a, (¬ ∃ y x c : Nat, y < h ∧ x < w ∧ c < 3 ∧ a = pix dst ds dn y x c) →
        b'.get a = init a) ∧
      (dn = 4 → ∀ y x : Nat, x < w →
        b'.get (pix dst ds dn y x 3) = init (pix dst ds dn y x 3)) := by
  obtain ⟨new, hrun, hmem⟩ := buffer_subpix_x_spec smem dst src ss n dn ds h w S hS
    subpix_order hw hwI hhI ⟨init, []⟩
  simp only [List.append_nil] at hrun
  have hget := get_of_plane_writes ⟨init, new⟩ dst ds dn h w (outX subpix_order w S) hmem
  refine ⟨⟨init, new⟩, hrun, ?_, ?_, hget.2, ?_⟩
  · intro a
    constructor
    · rintro ⟨v, hv⟩
      obtain ⟨y, x, c, h1, h2, h3, h4, -⟩ := (hmem a v).1 hv
      exact ⟨y, x, c, h1, h2, h3, h4⟩
    · rintro ⟨y, x, c, h1, h2, h3, h4⟩
      exact ⟨_, (hmem a _).2 ⟨y, x, c, h1, h2, h3, h4, rfl⟩⟩
  · intro y x c y' x' c' hx hx' hc hc' e
    exact pix_inj dst ds dn w hdn hds y x c y' x' c' hx hx' (by omega) (by omega) e
  · intro h4 y x hx
    apply hget.2
    rintro ⟨y', x', c', -, hx', hc', e⟩
    exact pix_byte3_ne dst ds dn w (by omega) hds y x y' x' c' hx hx' hc' e

/-- Concrete instance of C4: a 2 x 6 ramp plane downsampled to 2 x 2 pixels of 4 bytes;
byte 3 of pixel (1, 1), at offset 15, keeps its initial value 99. -/
theorem C4_subpix_x_frame_witness :
    ∃ b' : DstBuf,
      buffer_subpix_x rampMem ⟨fun _ => 99, []⟩ 0 4 8 0 3 18 2 2 SUBPIXEL_HRGB = some b' ∧
      (∀ a, (∃ v, (a, v) ∈ b'.writes) ↔
        ∃ y x c : Nat, y < 2 ∧ x < 2 ∧ c < 3 ∧ a = pix 0 8 4 y x c) ∧
      b'.get 15 = 99 := by
  obtain ⟨b', h1, h2, -, -, h5⟩ :=
    C4_subpix_x_frame rampMem (fun _ => 99) 0 0 18 3 4 8 2 2 (rampPlane 18 3)
      (rampMem_holds 18 3 2 6) (by decide) (by decide) (by decide) (by decide) (by decide)
      SUBPIXEL_HRGB
  exact ⟨b', h1, h2, h5 rfl 1 1 (by decide)⟩

/-- C5. In-bounds reads.  The source pointer is valid only where `smem` is
defined, and a run returns only if every read it made was valid.  Whenever
the channel bytes of a plane of `h` rows of `3w` pixels are readable, `w ≥ 2`,
`buffer_subpix_x` returns, for either order; whenever those of a plane of `3h`
rows of `w` pixels are readable, `h ≥ 2`, `buffer_subpix_y` returns.  This
holds in particular for the source `planeOnly` in which nothing but these
bytes is readable: no read falls outside rows `0..h-1` and columns `0..3w-1`
(respectively outside rows `0..3h-1` and columns `0..w-1`). -/
theorem C5_reads_in_bounds (b : DstBuf) (dst src ss n dn ds : Int) (h w : Nat)
    (subpix_order : Int) (hwI : (w : Int) ≤ INT_MAX) (hhI : (h : Int) ≤ INT_MAX) :
    (2 ≤ w → ∀ smem : SrcMem,
      (∀ y p c : Nat, y < h → p < 3 * w → c < 3 →
        (smem (pix src ss n y p c)).isSome = true) →
      (buffer_subpix_x smem b dst dn ds src n ss w h subpix_order).isSome = true) ∧
    (2 ≤ h → ∀ smem : SrcMem,
      (∀ r x c : Nat, r < 3 * h → x < w → c < 3 →
        (smem (pix src ss n r x c)).isSome = true) →
      (buffer_subpix_y smem b dst dn ds src n ss w h subpix_order).isSome = true) ∧
    (2 ≤ w → ∀ bytes : Int → Nat,
      (buffer_subpix_x (planeOnly bytes src ss n h (3 * w)) b dst dn ds src n ss w h
        subpix_order).isSome = true) ∧
    (2 ≤ h → ∀ bytes : Int → Nat,
      (buffer_subpix_y (planeOnly bytes src ss n (3 * h) w) b dst dn ds src n ss w h
        subpix_order).isSome = true) := by
  have hx : 2 ≤ w → ∀ smem : SrcMem,
      (∀ y p c : Nat, y < h → p < 3 * w → c < 3 →
        (smem (pix src ss n y p c)).isSome = true) →
      (buffer_subpix_x smem b dst dn ds src n ss w h subpix_order).isSome = true := by
    intro hw smem hs
    obtain ⟨new, hrun, -⟩ := buffer_subpix_x_spec smem dst src ss n dn ds h w _
      (holdsPlane_of_isSome smem src ss n h (3 * w) hs) subpix_order hw hwI hhI b
    rw [hrun]
    rfl
  have hy : 2 ≤ h → ∀ smem : SrcMem,
      (∀ r x c : Nat, r < 3 * h → x < w → c < 3 →
        (smem (pix src ss n r x c)).isSome = true) →
      (buffer_subpix_y smem b dst dn ds src n ss w h subpix_order).isSome = true := by
    intro hh smem hs
    obtain ⟨new, hrun, -⟩ := buffer_subpix_y_spec smem dst src ss n dn ds h w _
      (holdsPlane_of_isSome smem src ss n (3 * h) w hs) subpix_order hh hwI hhI b
    rw [hrun]
    rfl
  exact ⟨hx, hy,
    fun hw bytes => hx hw _ (fun y p c h1 h2 h3 => planeOnly_isSome bytes src ss n h (3 * w)
      y p c h1 h2 h3),
    fun hh bytes => hy hh _ (fun r x c h1 h2 h3 => planeOnly_isSome bytes src ss n (3 * h) w
      r x c h1 h2 h3)⟩

/-- Concrete instance of C5: with only the bytes of a 1 x 9 plane readable the
horizontal downsampler to width 3 returns, and with only the bytes of a 9 x 1
plane readable the vertical downsampler to height 3 returns. -/
theorem C5_reads_in_bounds_witness :
    (buffer_subpix_x (planeOnly (fun a => a.toNat % 256) 0 27 3 1 (3 * 3)) ⟨fun _ => 0, []⟩
      0 4 12 0 3 27 3 1 SUBPIXEL_HBGR).isSome = true ∧
    (buffer_subpix_y (planeOnly (fun a => a.toNat % 256) 0 3 3 (3 * 3) 1) ⟨fun _ => 0, []⟩
      0 4 4 0 3 3 1 3 SUBPIXEL_VBGR).isSome = true :=
  ⟨(C5_reads_in_bounds ⟨fun _ => 0, []⟩ 0 0 27 3 4 12 1 3 SUBPIXEL_HBGR (by decide)
      (by decide)).2.2.1 (by decide) _,
   (C5_reads_in_bounds ⟨fun _ => 0, []⟩ 0 0 3 3 4 4 3 1 SUBPIXEL_VBGR (by decide)
      (by decide)).2.2.2 (by decide) _⟩

/-- C6. The vertical downsampler is the horizontal one with the axes
exchanged.  Let `P` be a plane of `a` rows of `3b` byte pixels, `b ≥ 2`, held
by one source, and let another source hold its transpose, the plane of `3b`
rows of `a` pixels whose pixel (row `r`, column `y`) is pixel (row `y`,
column `r`) of `P`.  Then `buffer_subpix_x` on `P` (width `b`, height `a`)
and `buffer_subpix_y` on the transpose (width `a`, height `b`) both return,
under HRGB and VRGB or under HBGR and VBGR, and for every `y < a`, `x < b`,
`c < 3` the byte stored by the vertical one at (row `x`, column `y`) is the
byte stored by the horizontal one at (row `y`, column `x`).  In particular
output rows 0 and `b-1` of the vertical one are copies of rows 1 and `3b-2`
of the transpose, and each byte of an interior output row is the filter of
the same byte of one pixel column over 5 consecutive rows. -/
theorem C6_subpix_y_transposes_x (smemX smemY : SrcMem) (initX initY : Int → Nat)
    (dstX srcX ssX nX dnX dsX dstY srcY ssY nY dnY dsY : Int) (a b : Nat)
    (P : Nat → Nat → Nat → Nat)
    (hX : HoldsPlane smemX srcX ssX nX a (3 * b) P)
    (hY : HoldsPlane smemY srcY ssY nY (3 * b) a (fun r y c => P y r c))
    (hbyte : ∀ y p c, y < a → p < 3 * b → c < 3 → P y p c < 256)
    (hb : 2 ≤ b) (haI : (a : Int) ≤ INT_MAX) (hbI : (b : Int) ≤ INT_MAX)
    (oh ov : Int)
    (ho : (oh = SUBPIXEL_HRGB ∧ ov = SUBPIXEL_VRGB) ∨ (oh = SUBPIXEL_HBGR ∧ ov = SUBPIXEL_VBGR)) :
    ∃ bx bv : DstBuf,
      buffer_subpix_x smemX ⟨initX, []⟩ dstX dnX dsX srcX nX ssX b a oh = some bx ∧
      buffer_subpix_y smemY ⟨initY, []⟩ dstY dnY dsY srcY nY ssY a b ov = some bv ∧
      ∀ y x c : Nat, y < a → x < b → c < 3 →
        ∃ v : Nat,
          (pix dstX dsX dnX y x c, v) ∈ bx.writes ∧
          (pix dstY dsY dnY x y c, v) ∈ bv.writes ∧
          (3 ≤ dnX → (b : Int) * dnX ≤ dsX → 3 ≤ dnY → (a : Int) * dnY ≤ dsY →
            bx.get (pix dstX dsX dnX y x c) = v ∧ bv.get (pix dstY dsY dnY x y c) = v) ∧
          (x = 0 → v = (fun r y c => P y r c) 1 y c) ∧
          (x = b - 1 → v = (fun r y c => P y r c) (3 * b - 2) y c) ∧
          (1 ≤ x → x ≤ b - 2 → ∃ r : Nat, r + 4 < 3 * b ∧
            (v : Int) = filter ((fun r y c => P y r c) r y c)
              ((fun r y c => P y r c) (r + 1) y c) ((fun r y c => P y r c) (r + 2) y c)
              ((fun r y c => P y r c) (r + 3) y c) ((fun r y c => P y r c) (r + 4) y c)) := by
  obtain ⟨newx, hrunx, hmemx⟩ := buffer_subpix_x_spec smemX dstX srcX ssX nX dnX dsX a b P hX
    oh hb hbI haI ⟨initX, []⟩
  obtain ⟨newy, hruny, hmemy⟩ := buffer_subpix_y_spec smemY dstY srcY ssY nY dnY dsY b a
    (fun r y c => P y r c) hY ov hb haI hbI ⟨initY, []⟩
  simp only [List.append_nil] at hrunx hruny
  have hgx := get_of_plane_writes ⟨initX, newx⟩ dstX dsX dnX a b (outX oh b P) hmemx
  have hgy := get_of_plane_writes ⟨initY, newy⟩ dstY dsY dnY b a
    (outY ov b (fun r y c => P y r c)) hmemy
  have hrev : revY ov = revX oh := by
    rcases ho with ⟨h1, h2⟩ | ⟨h1, h2⟩
    · rw [h1, h2, revX_HRGB, revY_VRGB]
    · rw [h1, h2, revX_HBGR, revY_VBGR]
  have heq : ∀ y x c, outY ov b (fun r y c => P y r c) x y c = outX oh b P y x c := by
    intro y x c
    simp only [outY, outX, hrev]
  refine ⟨⟨initX, newx⟩, ⟨initY, newy⟩, hrunx, hruny, ?_⟩
  intro y x c hy hx hc
  refine ⟨outX oh b P y x c, (hmemx _ _).2 ⟨y, x, c, hy, hx, hc, rfl, rfl⟩,
    (hmemy _ _).2 ⟨x, y, c, hx, hy, hc, rfl, (heq y x c).symm⟩, ?_, ?_, ?_, ?_⟩
  · intro h1 h2 h3 h4
    exact ⟨hgx.1 h1 h2 y x c hy hx hc, by rw [hgy.1 h3 h4 x y c hx hy hc, heq]⟩
  · intro h0
    subst h0
    exact outLine_first _ b _ c
  · intro h0
    subst h0
    exact outLine_last _ b _ c hb
  · intro h1 h2
    refine ⟨centre (revX oh) x c - 2, ?_, ?_⟩
    · cases revX oh <;> simp only [centre] <;> simp <;> omega
    · have hcen : 2 ≤ centre (revX oh) x c ∧ centre (revX oh) x c + 2 < 3 * b := by
        cases revX oh <;> simp only [centre] <;> simp <;> omega
      have e := outLine_interior (revX oh) b (fun c p => P y p c) x c h1 (by omega)
      have e2 := win5_cast (fun p => P y p c) (centre (revX oh) x c)
        (fun q _ _ => hbyte y q c hy (by omega) hc)
      simp only [outX]
      rw [e, e2]
      have i1 : centre (revX oh) x c - 2 + 1 = centre (revX oh) x c - 1 := by omega
      have i2 : centre (revX oh) x c - 2 + 2 = centre (revX oh) x c := by omega
      have i3 : centre (revX oh) x c - 2 + 3 = centre (revX oh) x c + 1 := by omega
      have i4 : centre (revX oh) x c - 2 + 4 = centre (revX oh) x c + 2 := by omega
      simp only [i1, i2, i3, i4]

/-- Concrete instance of C6: the 1 x 9 ramp plane (3 bytes per pixel) read row-wise by
the horizontal downsampler and, as the same 27 bytes with row stride 3,
column-wise by the vertical one; both store 13 as the green byte of the
interior output pixel. -/
theorem C6_subpix_y_transposes_x_witness :
    ∃ bx bv : DstBuf,
      buffer_subpix_x rampMem ⟨fun _ => 0, []⟩ 0 4 12 0 3 27 3 1 SUBPIXEL_HRGB = some bx ∧
      buffer_subpix_y rampMem ⟨fun _ => 0, []⟩ 0 4 4 0 3 3 1 3 SUBPIXEL_VRGB = some bv ∧
      ∃ v : Nat, (pix 0 12 4 0 1 1, v) ∈ bx.writes ∧ (pix 0 4 4 1 0 1, v) ∈ bv.writes := by
  obtain ⟨bx, bv, h1, h2, h3⟩ :=
    C6_subpix_y_transposes_x rampMem rampMem (fun _ => 0) (fun _ => 0)
      0 0 27 3 4 12 0 0 3 3 4 4 1 3 (rampPlane 27 3) (rampMem_holds 27 3 1 9)
      (by
        intro r y c hr hy hc
        have hy0 : y = 0 := by omega
        subst hy0
        show rampMem (pix 0 3 3 r 0 c) = some (rampPlane 27 3 0 r c)
        simp only [rampMem, rampPlane, pix]
        congr 3)
      (fun y p c _ _ _ => rampPlane_lt 27 3 y p c) (by decide) (by decide) (by decide)
      SUBPIXEL_HRGB SUBPIXEL_VRGB (Or.inl ⟨rfl, rfl⟩)
  obtain ⟨v, h4, h5, -⟩ := h3 0 1 1 (by decide) (by decide) (by decide)
  exact ⟨bx, bv, h1, h2, v, h4, h5⟩

/-- C7. Blit postcondition and non-destructiveness.  The destination is an
object separate from the source.  For a source plane `S` of `h` rows of `w`
pixels, `dst_ncmpt ≥ 3` and `dst_stride ≥ w * dst_ncmpt`, `buffer_blit`
returns, afterwards destination byte `y * dst_stride + x * dst_ncmpt + c`
holds source byte `S y x c` for `y < h`, `x < w`, `c < 3`, every other
destination byte holds its initial value, and with `dst_ncmpt = 4` so does
byte 3 of every pixel.  `buffer_blit_row` called on row `y` does the same for
that row alone. -/
theorem C7_blit_frame (smem : SrcMem) (init : Int → Nat) (dst src ss n dn ds : Int)
    (h w : Nat) (S : Nat → Nat → Nat → Nat) (hS : HoldsPlane smem src ss n h w S)
    (hwI : (w : Int) ≤ INT_MAX) (hhI : (h : Int) ≤ INT_MAX)
    (hdn : 3 ≤ dn) (hds : (w : Int) * dn ≤ ds) :
    (∃ b' : DstBuf,
      buffer_blit smem ⟨init, []⟩ dst dn ds src n ss w h = some b' ∧
      (∀ y x c : Nat, y < h → x < w → c < 3 → b'.get (pix dst ds dn y x c) = S y x c) ∧
      (∀ a, (¬ ∃ y x c : Nat, y < h ∧ x < w ∧ c < 3 ∧ a = pix dst ds dn y x c) →
        b'.get a = init a) ∧
      (dn = 4 → ∀ y x : Nat, x < w →
        b'.get (pix dst ds dn y x 3) = init (pix dst ds dn y x 3))) ∧
    (∀ y : Nat, y < h → ∃ br : DstBuf,
      buffer_blit_row smem ⟨init, []⟩ (pix dst ds dn y 0 0) dn (pix src ss n y 0 0) n w
        = some br ∧
      (∀ x c : Nat, x < w → c < 3 → br.get (pix dst ds dn y x c) = S y x c) ∧
      (∀ a, (¬ ∃ x c : Nat, x < w ∧ c < 3 ∧ a = pix dst ds dn y x c) → br.get a = init a) ∧
      (dn = 4 → ∀ x : Nat, x < w →
        br.get (pix dst ds dn y x 3) = init (pix dst ds dn y x 3))) := by
  constructor
  · obtain ⟨new, hrun, hmem⟩ := buffer_blit_spec smem dst src ss n dn ds h w S hS hwI hhI
      ⟨init, []⟩
    simp only [List.append_nil] at hrun
    have hget := get_of_plane_writes ⟨init, new⟩ dst ds dn h w S hmem
    refine ⟨⟨init, new⟩, hrun, hget.1 hdn hds, hget.2, ?_⟩
    intro h4 y x hx
    apply hget.2
    rintro ⟨y', x', c', -, hx', hc', e⟩
    exact pix_byte3_ne dst ds dn w (by omega) hds y x y' x' c' hx hx' hc' e
  · intro y hy
    obtain ⟨new, hrun, hmem⟩ := buffer_blit_row_spec smem src ss n dn h w S hS hwI y hy
      (pix dst ds dn y 0 0) ⟨init, []⟩
    simp only [List.append_nil] at hrun
    have hget := get_of_row_writes ⟨init, new⟩ (pix dst ds dn y 0 0) dn w (fun x c => S y x c)
      hmem
    have e : ∀ x c : Nat, pix dst ds dn y x c
        = pix dst ds dn y 0 0 + (x : Int) * dn + (c : Int) := by
      intro x c
      simp [pix]
    refine ⟨⟨init, new⟩, hrun, ?_, ?_, ?_⟩
    · intro x c hx hc
      rw [e]
      exact hget.1 hdn x c hx hc
    · intro a ha
      apply hget.2
      rintro ⟨x, c, h1, h2, h3⟩
      exact ha ⟨x, c, h1, h2, h3.trans (e x c).symm⟩
    · intro h4 x hx
      apply hget.2
      rintro ⟨x', c', hx', hc', e'⟩
      exact pix_byte3_ne dst ds dn w (by omega) hds y x y x' c' hx hx' hc'
        (e'.trans (e x' c').symm)

/-- Concrete instance of C7: a 2 x 2 ramp plane of 3-byte pixels copied into 4-byte
pixels pre-filled with the sentinel 170: byte 1 of pixel (1, 1) becomes
source byte 10, byte 3 of that pixel is still 170. -/
theorem C7_blit_frame_witness :
    ∃ b' : DstBuf,
      buffer_blit rampMem ⟨fun _ => 170, []⟩ 0 4 8 0 3 6 2 2 = some b' ∧
      b'.get (pix 0 8 4 1 1 1) = 10 ∧ b'.get (pix 0 8 4 1 1 3) = 170 := by
  obtain ⟨⟨b', h1, h2, -, h4⟩, -⟩ :=
    C7_blit_frame rampMem (fun _ => 170) 0 0 6 3 4 8 2 2 (rampPlane 6 3)
      (rampMem_holds 6 3 2 2) (by decide) (by decide) (by decide) (by decide)
  have e : rampPlane 6 3 1 1 1 = 10 := by decide
  have h5 := h2 1 1 1 (by decide) (by decide) (by decide)
  rw [e] at h5
  exact ⟨b', h1, h5, h4 rfl 1 1 (by decide)⟩

/-- C8. Filter bounds: on samples in `[0, 255]` the filter returns a value in
`[0, 255]`, so its conversion to `unsigned char` on being stored is the value
itself. -/
theorem C8_filter_bounds (x0 x1 x2 x3 x4 : Int)
    (h0 : 0 ≤ x0 ∧ x0 ≤ 255) (h1 : 0 ≤ x1 ∧ x1 ≤ 255) (h2 : 0 ≤ x2 ∧ x2 ≤ 255)
    (h3 : 0 ≤ x3 ∧ x3 ≤ 255) (h4 : 0 ≤ x4 ∧ x4 ≤ 255) :
    0 ≤ filter x0 x1 x2 x3 x4 ∧ filter x0 x1 x2 x3 x4 ≤ 255 ∧
    ((toU8 (filter x0 x1 x2 x3 x4) : Nat) : Int) = filter x0 x1 x2 x3 x4 := by
  have h := filter_range x0 x1 x2 x3 x4 h0 h1 h2 h3 h4
  refine ⟨h.1, h.2, ?_⟩
  unfold toU8
  omega

/-- Concrete instance of C8: the largest samples give the largest byte. -/
theorem C8_filter_bounds_witness :
    0 ≤ filter 255 255 255 255 255 ∧ filter 255 255 255 255 255 ≤ 255 ∧
    ((toU8 (filter 255 255 255 255 255) : Nat) : Int) = filter 255 255 255 255 255 :=
  C8_filter_bounds 255 255 255 255 255 (by decide) (by decide) (by decide) (by decide)
    (by decide)

/-- C9. A constant input passes through the filter unchanged: for every byte
intensity `x`, `filter(x, x, x, x, x) = x`. -/
theorem C9_filter_constant (x : Int) (h : 0 ≤ x ∧ x ≤ 255) : filter x x x x x = x :=
  filter_const x h.1

/-- Concrete instance of C9: intensity 200. -/
theorem C9_filter_constant_witness : filter 200 200 200 200 200 = 200 :=
  C9_filter_constant 200 (by decide)

/-- C10. Uniform-plane idempotence.  If every pixel of the oversampled plane
has the channel bytes `col 0, col 1, col 2` then, for `w ≥ 2`, `h ≥ 2` and any
subpixel orders `oh`, `ov`, `buffer_subpix_x` (on `h` rows of `3w` pixels) and
`buffer_subpix_y` (on `3h` rows of `w` pixels) return, store at channel `c` of
each of the `h × w` output pixels the byte `col c`, and store nothing else:
every byte stored equals the colour byte of its channel, so differs from it
by at most 1, and when the destination is laid out as a plane the output
plane holds that colour at every pixel. -/
theorem C10_uniform_plane (smemX smemY : SrcMem) (init : Int → Nat)
    (dst dn ds srcX ssX nX srcY ssY nY : Int) (h w : Nat) (col : Nat → Nat)
    (hcol : ∀ c, c < 3 → col c < 256)
    (hX : HoldsPlane smemX srcX ssX nX h (3 * w) (fun _ _ c => col c))
    (hY : HoldsPlane smemY srcY ssY nY (3 * h) w (fun _ _ c => col c))
    (hw : 2 ≤ w) (hh : 2 ≤ h) (hwI : (w : Int) ≤ INT_MAX) (hhI : (h : Int) ≤ INT_MAX)
    (oh ov : Int) :
    (∃ b' : DstBuf,
      buffer_subpix_x smemX ⟨init, []⟩ dst dn ds srcX nX ssX w h oh = some b' ∧
      (∀ y x c : Nat, y < h → x < w → c < 3 → (pix dst ds dn y x c, col c) ∈ b'.writes) ∧
      (∀ a v, (a, v) ∈ b'.writes → ∃ y x c : Nat, y < h ∧ x < w ∧ c < 3 ∧
        a = pix dst ds dn y x c ∧ v = col c ∧ Int.natAbs ((v : Int) - (col c : Int)) ≤ 1) ∧
      (3 ≤ dn → (w : Int) * dn ≤ ds → ∀ y x c : Nat, y < h → x < w → c < 3 →
        b'.get (pix dst ds dn y x c) = col c)) ∧
    (∃ b' : DstBuf,
      buffer_subpix_y smemY ⟨init, []⟩ dst dn ds srcY nY ssY w h ov = some b' ∧
      (∀ y x c : Nat, y < h → x < w → c < 3 → (pix dst ds dn y x c, col c) ∈ b'.writes) ∧
      (∀ a v, (a, v) ∈ b'.writes → ∃ y x c : Nat, y < h ∧ x < w ∧ c < 3 ∧
        a = pix dst ds dn y x c ∧ v = col c ∧ Int.natAbs ((v : Int) - (col c : Int)) ≤ 1) ∧
      (3 ≤ dn → (w : Int) * dn ≤ ds → ∀ y x c : Nat, y < h → x < w → c < 3 →
        b'.get (pix dst ds dn y x c) = col c)) := by
  constructor
  · obtain ⟨new, hrun, hmem⟩ := buffer_subpix_x_spec smemX dst srcX ssX nX dn ds h w _ hX
      oh hw hwI hhI ⟨init, []⟩
    simp only [List.append_nil] at hrun
    have hget := get_of_plane_writes ⟨init, new⟩ dst ds dn h w _ hmem
    have hout : ∀ y x c, c < 3 → outX oh w (fun _ _ c => col c) y x c = col c :=
      fun y x c hc => outLine_const _ w col x c (hcol c hc)
    refine ⟨⟨init, new⟩, hrun, ?_, ?_, ?_⟩
    · intro y x c hy hx hc
      exact (hmem _ _).2 ⟨y, x, c, hy, hx, hc, rfl, (hout y x c hc).symm⟩
    · intro a v hv
      obtain ⟨y, x, c, hy, hx, hc, ha, hv2⟩ := (hmem a v).1 hv
      rw [hout y x c hc] at hv2
      exact ⟨y, x, c, hy, hx, hc, ha, hv2, by rw [hv2]; simp⟩
    · intro hdn hds y x c hy hx hc
      rw [hget.1 hdn hds y x c hy hx hc, hout y x c hc]
  · obtain ⟨new, hrun, hmem⟩ := buffer_subpix_y_spec smemY dst srcY ssY nY dn ds h w _ hY
      ov hh hwI hhI ⟨init, []⟩
    simp only [List.append_nil] at hrun
    have hget := get_of_plane_writes ⟨init, new⟩ dst ds dn h w _ hmem
    have hout : ∀ y x c, c < 3 → outY ov h (fun _ _ c => col c) y x c = col c :=
      fun y x c hc => outLine_const _ h col y c (hcol c hc)
    refine ⟨⟨init, new⟩, hrun, ?_, ?_, ?_⟩
    · intro y x c hy hx hc
      exact (hmem _ _).2 ⟨y, x, c, hy, hx, hc, rfl, (hout y x c hc).symm⟩
    · intro a v hv
      obtain ⟨y, x, c, hy, hx, hc, ha, hv2⟩ := (hmem a v).1 hv
      rw [hout y x c hc] at hv2
      exact ⟨y, x, c, hy, hx, hc, ha, hv2, by rw [hv2]; simp⟩
    · intro hdn hds y x c hy hx hc
      rw [hget.1 hdn hds y x c hy hx hc, hout y x c hc]

/-- Concrete instance of C10: planes of the colour (10, 20, 30), output 2 x 2 pixels of
4 bytes: both downsamplers leave 30 in the red byte of output pixel (1, 1). -/
theorem C10_uniform_plane_witness :
    (∃ b' : DstBuf,
      buffer_subpix_x (flatMem 10 20 30) ⟨fun _ => 0, []⟩ 0 4 8 0 3 18 2 2 SUBPIXEL_HBGR
        = some b' ∧
      (pix 0 8 4 1 1 2, 30) ∈ b'.writes ∧ b'.get (pix 0 8 4 1 1 2) = 30) ∧
    (∃ b' : DstBuf,
      buffer_subpix_y (flatMem 10 20 30) ⟨fun _ => 0, []⟩ 0 4 8 0 3 6 2 2 SUBPIXEL_VBGR
        = some b' ∧
      (pix 0 8 4 1 1 2, 30) ∈ b'.writes ∧ b'.get (pix 0 8 4 1 1 2) = 30) := by
  obtain ⟨⟨bx, x1, x2, -, x4⟩, ⟨bv, y1, y2, -, y4⟩⟩ :=
    C10_uniform_plane (flatMem 10 20 30) (flatMem 10 20 30) (fun _ => 0) 0 4 8 0 18 3 0 6 3
      2 2 (bgr 10 20 30) (by intro c hc; interval_cases c <;> decide)
      (flatMem_holds 10 20 30 6 2 6) (flatMem_holds 10 20 30 2 6 2)
      (by decide) (by decide) (by decide) (by decide) SUBPIXEL_HBGR SUBPIXEL_VBGR
  exact ⟨⟨bx, x1, x2 1 1 2 (by decide) (by decide) (by decide),
      x4 (by decide) (by decide) 1 1 2 (by decide) (by decide) (by decide)⟩,
    ⟨bv, y1, y2 1 1 2 (by decide) (by decide) (by decide),
      y4 (by decide) (by decide) 1 1 2 (by decide) (by decide) (by decide)⟩⟩

/-- C11 (as amended).  Scenario: a page of 2 x 2 units at zoom 2 under a
horizontal subpixel order.  The output buffer is requested 4 x 4, the pixmap
is created 12 wide and 4 high, and in every output row `y` the bytes of
columns 0 and 3 are those of columns 1 and 10 of row `y` of the oversampled
plane `S` that the rasterizer delivered (not of its columns 0 and 11). -/
theorem C11_scenario_edges (subpix_order : Int)
    (horder : subpix_order = SUBPIXEL_HRGB ∨ subpix_order = SUBPIXEL_HBGR)
    (fz : Rasterizer) (hrun : fz.run_page_ok = true)
    (alloc : Nat → Nat → Option (zathura_image_buffer_t × (Int → Nat)))
    (ib : zathura_image_buffer_t) (init : Int → Nat) (halloc : alloc 4 4 = some (ib, init))
    (hstride : 12 ≤ ib.rowstride)
    (error : Option zathura_error_t) (S : Nat → Nat → Nat → Nat)
    (hn : 1 ≤ fz.components) (hfit : ((fz.components * 4 * 3 : Nat) : Int) ≤ INT_MAX)
    (hS : HoldsPlane (fz.samples 12 4) 0 ((fz.components * 4 * 3 : Nat) : Int)
      (fz.components : Int) 4 12 S) :
    ∃ (b' : DstBuf) (r : ToBufferResult),
      pdf_page_render subpix_order fz alloc (some (pageOf 2 2 2)) (some ⟨true⟩) error
        = ⟨some ib, error, [(4, 4)], false, some b', some r⟩ ∧
      r.bbox = some (12, 4) ∧ r.error = .ZATHURA_ERROR_OK ∧
      ∀ y c : Nat, y < 4 → c < 3 →
        b'.get (pix ib.data ib.rowstride 3 y 0 c) = S y 1 c ∧
        b'.get (pix ib.data ib.rowstride 3 y 3 c) = S y 10 c := by
  have hw : truncU32 (roundDouble ((2 : ℚ) * 2)) = 4 := truncU32_scenario
  obtain ⟨b', hr, -, hmem⟩ := pdf_page_render_horizontal subpix_order horder fz hrun alloc
    2 2 2 4 4 hw hw ib init halloc error S (by decide) hn hfit (by decide)
    (by simpa using hS)
  have hget := (get_of_plane_writes b' ib.data ib.rowstride 3 4 4 (outX subpix_order 4 S)
    hmem).1 (le_refl _) (by omega)
  refine ⟨b', _, hr, by norm_num, rfl, ?_⟩
  intro y c hy hc
  constructor
  · rw [hget y 0 c hy (by decide) hc]
    exact outLine_first _ 4 _ c
  · rw [hget y 3 c hy (by decide) hc]
    exact outLine_last _ 4 _ c (by decide)

/-- Concrete instance of C11: the ramp rasterizer (4 bytes per pixel, so byte
`c` of oversampled pixel `p` in row `y` is `48y + 4p + c`) and the packed
allocator: the green byte of output pixel (2, 0) is 101, that of oversampled
pixel (2, 1), and the green byte of output pixel (2, 3) is 137, that of
oversampled pixel (2, 10). -/
theorem C11_scenario_edges_witness :
    ∃ (b' : DstBuf) (r : ToBufferResult),
      pdf_page_render SUBPIXEL_HRGB rampRasterizer packedAlloc (some (pageOf 2 2 2))
          (some ⟨true⟩) (some .ZATHURA_ERROR_OK)
        = ⟨some ⟨0, 12⟩, some .ZATHURA_ERROR_OK, [(4, 4)], false, some b', some r⟩ ∧
      r.bbox = some (12, 4) ∧
      b'.get (pix 0 12 3 2 0 1) = 101 ∧ b'.get (pix 0 12 3 2 3 1) = 137 := by
  obtain ⟨b', r, h1, h2, -, h4⟩ :=
    C11_scenario_edges SUBPIXEL_HRGB (Or.inl rfl) rampRasterizer rfl packedAlloc ⟨0, 12⟩
      (fun _ => 0) rfl (by decide) (some .ZATHURA_ERROR_OK) (rampPlane 48 4) (by decide)
      (by decide) (rampMem_holds 48 4 4 12)
  have e1 : rampPlane 48 4 2 1 1 = 101 := by decide
  have e2 : rampPlane 48 4 2 10 1 = 137 := by decide
  have h5 := h4 2 1 (by decide) (by decide)
  rw [e1, e2] at h5
  exact ⟨b', r, h1, h2, h5.1, h5.2⟩

/-- Counterexample to C11 as stated: in the scenario, with the ramp rasterizer
delivering the oversampled plane `rampPlane 48 4` (12 x 4 pixels of 4 bytes),
byte 0 of output pixel (0, 0) is 4 while byte 0 of oversampled column 0 of
that row is 0, and byte 0 of output pixel (0, 3) is 40 while byte 0 of
oversampled column 11 is 44. -/
theorem C11_scenario_edges_counterexample :
    HoldsPlane (rampRasterizer.samples 12 4) 0 48 4 4 12 (rampPlane 48 4) ∧
    ∃ b' : DstBuf,
      (pdf_page_render configured_subpix_order rampRasterizer packedAlloc
        (some (pageOf 2 2 2)) (some ⟨true⟩) none).image = some b' ∧
      b'.get (pix 0 12 3 0 0 0) = 4 ∧ rampPlane 48 4 0 0 0 = 0 ∧
      b'.get (pix 0 12 3 0 3 0) = 40 ∧ rampPlane 48 4 0 11 0 = 44 := by
  refine ⟨rampMem_holds 48 4 4 12, ?_⟩
  have hw : truncU32 (roundDouble ((2 : ℚ) * 2)) = 4 := truncU32_scenario
  obtain ⟨b', hr, -, hmem⟩ := pdf_page_render_horizontal configured_subpix_order (Or.inl rfl)
    rampRasterizer rfl packedAlloc 2 2 2 4 4 hw hw ⟨0, 12⟩ (fun _ => 0) rfl none
    (rampPlane 48 4) (by decide) (by decide) (by decide) (by decide) (rampMem_holds 48 4 4 12)
  have hget := (get_of_plane_writes b' 0 12 3 4 4 (outX configured_subpix_order 4
    (rampPlane 48 4)) hmem).1 (le_refl _) (by decide)
  refine ⟨b', by rw [hr], ?_, by decide, ?_, by decide⟩
  · rw [hget 0 0 0 (by decide) (by decide) (by decide)]
    decide
  · rw [hget 0 3 0 (by decide) (by decide) (by decide)]
    decide

/-- C12. Supersampling factors, the subpixel order being a parameter.  The
pair `(subpixx, subpixy)` is `(3, 1)` for HRGB and HBGR and `(1, 3)` for VRGB
and VBGR.  When no handle is null and the rasterizer returns, the call
succeeds; the pixmap is created with the box `(page_width * subpixx,
page_height * subpixy)` (the machine product, which is the exact product
whenever that fits an `int`, so that the dimension with factor 1 is the
output dimension), and this is the pixmap whose samples the routine reads.
The destination after the call is what `buffer_subpix_x` makes of it exactly
when `subpixx = 3`, what `buffer_subpix_y` makes of it when `subpixy = 3`,
and what `buffer_blit` makes of it otherwise.  In effect: under a horizontal
order, on a pixmap of `h` rows of `3w` pixels, the destination receives the
bytes `outX` of the horizontal downsampler; under a vertical order, on a
pixmap of `3h` rows of `w` pixels, the bytes `outY` of the vertical one. -/
theorem C12_supersampling_factors (subpix_order : Int) (fz : Rasterizer)
    (hrun : fz.run_page_ok = true) (image : Int) (buf : DstBuf) (rowstride components : Int)
    (w h : Nat) (sx sy : ℚ) :
    (subpix_order = SUBPIXEL_HRGB ∨ subpix_order = SUBPIXEL_HBGR →
      subpix_factors subpix_order = (3, 1)) ∧
    (subpix_order = SUBPIXEL_VRGB ∨ subpix_order = SUBPIXEL_VBGR →
      subpix_factors subpix_order = (1, 3)) ∧
    ∃ r : ToBufferResult,
      pdf_page_render_to_buffer subpix_order fz (some ⟨true⟩) (some ⟨true⟩) (some image) buf
        rowstride components w h sx sy = r ∧
      r.error = .ZATHURA_ERROR_OK ∧
      r.bbox = some (toI32 (mulU32 w (toU32 (subpix_factors subpix_order).1)),
        toI32 (mulU32 h (toU32 (subpix_factors subpix_order).2))) ∧
      ((w : Int) * (subpix_factors subpix_order).1 ≤ INT_MAX →
        (h : Int) * (subpix_factors subpix_order).2 ≤ INT_MAX →
        r.bbox = some ((w : Int) * (subpix_factors subpix_order).1,
          (h : Int) * (subpix_factors subpix_order).2)) ∧
      (r.routine = some Routine.subpix_x ↔ (subpix_factors subpix_order).1 = 3) ∧
      (r.routine = some Routine.subpix_y ↔ (subpix_factors subpix_order).2 = 3) ∧
      ((subpix_factors subpix_order).1 = 3 →
        r.image = buffer_subpix_x
          (fz.samples (toI32 (mulU32 w (toU32 (subpix_factors subpix_order).1)))
            (toI32 (mulU32 h (toU32 (subpix_factors subpix_order).2))))
          buf image components rowstride 0 (toI32 fz.components)
          (toI32 (mulU32 (mulU32 fz.components w) 3)) (toI32 w) (toI32 h) subpix_order) ∧
      ((subpix_factors subpix_order).1 ≠ 3 → (subpix_factors subpix_order).2 = 3 →
        r.image = buffer_subpix_y
          (fz.samples (toI32 (mulU32 w (toU32 (subpix_factors subpix_order).1)))
            (toI32 (mulU32 h (toU32 (subpix_factors subpix_order).2))))
          buf image components rowstride 0 (toI32 fz.components)
          (toI32 (mulU32 fz.components w)) (toI32 w) (toI32 h) subpix_order) ∧
      ((subpix_factors subpix_order).1 ≠ 3 → (subpix_factors subpix_order).2 ≠ 3 →
        r.image = buffer_blit
          (fz.samples (toI32 (mulU32 w (toU32 (subpix_factors subpix_order).1)))
            (toI32 (mulU32 h (toU32 (subpix_factors subpix_order).2))))
          buf image components rowstride 0 (toI32 fz.components)
          (toI32 (mulU32 fz.components w)) (toI32 w) (toI32 h)) ∧
      (subpix_order = SUBPIXEL_HRGB ∨ subpix_order = SUBPIXEL_HBGR →
        2 ≤ w → 1 ≤ fz.components →
        ((fz.components * w * 3 : Nat) : Int) ≤ INT_MAX → (h : Int) ≤ INT_MAX →
        ∀ S : Nat → Nat → Nat → Nat,
        HoldsPlane (fz.samples (3 * (w : Int)) (h : Int)) 0
          ((fz.components * w * 3 : Nat) : Int) (fz.components : Int) h (3 * w) S →
        ∃ new, r.image = some ⟨buf.init, new ++ buf.writes⟩ ∧
          ∀ a v, (a, v) ∈ new ↔ ∃ y x c : Nat, y < h ∧ x < w ∧ c < 3 ∧
            a = pix image rowstride components y x c ∧ v = outX subpix_order w S y x c) ∧
      (subpix_order = SUBPIXEL_VRGB ∨ subpix_order = SUBPIXEL_VBGR →
        2 ≤ h → (fz.components : Int) ≤ INT_MAX → (w : Int) ≤ INT_MAX →
        ((fz.components * w : Nat) : Int) ≤ INT_MAX → ((3 * h : Nat) : Int) ≤ INT_MAX →
        ∀ S : Nat → Nat → Nat → Nat,
        HoldsPlane (fz.samples (w : Int) (3 * (h : Int))) 0
          ((fz.components * w : Nat) : Int) (fz.components : Int) (3 * h) w S →
        ∃ new, r.image = some ⟨buf.init, new ++ buf.writes⟩ ∧
          ∀ a v, (a, v) ∈ new ↔ ∃ y x c : Nat, y < h ∧ x < w ∧ c < 3 ∧
            a = pix image rowstride components y x c ∧ v = outY subpix_order h S y x c) := by
  refine ⟨subpix_factors_horizontal subpix_order, subpix_factors_vertical subpix_order,
    _, rfl, ?_⟩
  have hok := pdf_page_render_to_buffer_ok subpix_order fz image buf rowstride components w h
    sx sy hrun
  have hcases : subpix_factors subpix_order = (3, 1) ∨ subpix_factors subpix_order = (1, 3) ∨
      subpix_factors subpix_order = (1, 1) := by
    unfold subpix_factors
    split_ifs <;> simp
  have key : ∀ (k : Nat) (f : Int), f = 3 ∨ f = 1 → (k : Int) * f ≤ INT_MAX →
      toI32 (mulU32 k (toU32 f)) = (k : Int) * f := by
    intro k f hf hk
    unfold INT_MAX at hk
    rcases hf with rfl | rfl
    · rw [show toU32 3 = 3 by decide, mulU32_of_lt _ _ (by omega),
        toI32_natCast _ (by unfold INT_MAX; push_cast; omega)]
      push_cast
      ring
    · rw [show toU32 1 = 1 by decide, mulU32_of_lt _ _ (by omega),
        toI32_natCast _ (by unfold INT_MAX; push_cast; omega)]
      push_cast
      ring
  refine ⟨by rw [hok], by rw [hok], ?_, ?_, ?_, ?_, ?_, ?_, ?_, ?_⟩
  · intro h1 h2
    rw [hok]
    show some (_, _) = some (_, _)
    rcases hcases with hc | hc | hc <;> rw [hc] at h1 h2 ⊢ <;>
      simp only [] at h1 h2 ⊢ <;>
      rw [key w _ (by simp) h1, key h _ (by simp) h2]
  · rw [hok]
    rcases hcases with hc | hc | hc <;> rw [hc] <;> simp
  · rw [hok]
    rcases hcases with hc | hc | hc <;> rw [hc] <;> simp
  · intro h1
    rw [hok]
    simp only [h1, if_true]
  · intro h1 h2
    rw [hok]
    simp only [h1, h2, if_true, if_false]
  · intro h1 h2
    rw [hok]
    simp only [h1, h2, if_false]
  · intro horder hw2 hn hfit hhI S hS
    exact pdf_page_render_to_buffer_horizontal subpix_order horder fz hrun image buf rowstride
      components w h sx sy S hw2 hn hfit hhI hS
  · intro horder hh2 hnI hwI hfit hhI S hS
    exact pdf_page_render_to_buffer_vertical subpix_order horder fz hrun image buf rowstride
      components w h sx sy S hh2 hnI hwI hfit hhI hS

/-- Concrete instance of C12: the ramp rasterizer (4 bytes per pixel) and an
output of 2 x 2 pixels of 3 bytes.  Under HBGR byte 0 of output pixel (0, 0)
is stored from oversampled column 1 of row 0 (offset 4 of the 6 x 2 pixmap),
under VBGR from oversampled row 1 of column 0 (offset 8 of the 2 x 6
pixmap). -/
theorem C12_supersampling_factors_witness :
    (∃ b' : DstBuf,
      (pdf_page_render_to_buffer SUBPIXEL_HBGR rampRasterizer (some ⟨true⟩) (some ⟨true⟩)
        (some 0) ⟨fun _ => 0, []⟩ 6 3 2 2 1 1).image = some b' ∧
      (pix 0 6 3 0 0 0, 4) ∈ b'.writes) ∧
    (∃ b' : DstBuf,
      (pdf_page_render_to_buffer SUBPIXEL_VBGR rampRasterizer (some ⟨true⟩) (some ⟨true⟩)
        (some 0) ⟨fun _ => 0, []⟩ 6 3 2 2 1 1).image = some b' ∧
      (pix 0 6 3 0 0 0, 8) ∈ b'.writes) := by
  obtain ⟨-, -, rx, ex, -, -, -, -, -, -, -, -, hx, -⟩ :=
    C12_supersampling_factors SUBPIXEL_HBGR rampRasterizer rfl 0 ⟨fun _ => 0, []⟩ 6 3 2 2 1 1
  obtain ⟨-, -, ry, ey, -, -, -, -, -, -, -, -, -, hy⟩ :=
    C12_supersampling_factors SUBPIXEL_VBGR rampRasterizer rfl 0 ⟨fun _ => 0, []⟩ 6 3 2 2 1 1
  subst ex
  subst ey
  obtain ⟨nx, hx1, hx2⟩ := hx (Or.inr rfl) (by decide) (by decide) (by decide) (by decide)
    (rampPlane 24 4) (rampMem_holds 24 4 2 6)
  obtain ⟨ny, hy1, hy2⟩ := hy (Or.inr rfl) (by decide) (by decide) (by decide) (by decide)
    (by decide) (rampPlane 8 4) (rampMem_holds 8 4 6 2)
  refine ⟨⟨_, hx1, ?_⟩, ⟨_, hy1, ?_⟩⟩
  · simp only [List.append_nil]
    exact (hx2 _ _).2 ⟨0, 0, 0, by decide, by decide, by decide, rfl, by decide⟩
  · simp only [List.append_nil]
    exact (hy2 _ _).2 ⟨0, 0, 0, by decide, by decide, by decide, rfl, by decide⟩

/-- C13. The two destination formats are numerically consistent.  On the same
source plane, for `w ≥ 2`, `h ≥ 2` and any order, `buffer_subpix_x` called
with `dst_ncmpt = 3` and called with `dst_ncmpt = 4`, with row strides of at
least `3w` and `4w`, both return, and for every output pixel `(y, x)` and
channel `c` the same byte is stored by both and is finally held by both; the
same holds for `buffer_subpix_y`. -/
theorem C13_dst_format_consistent (smemX smemY : SrcMem) (init3 init4 : Int → Nat)
    (dst3 ds3 dst4 ds4 srcX ssX nX srcY ssY nY : Int) (h w : Nat)
    (SX SY : Nat → Nat → Nat → Nat)
    (hX : HoldsPlane smemX srcX ssX nX h (3 * w) SX)
    (hY : HoldsPlane smemY srcY ssY nY (3 * h) w SY)
    (hw : 2 ≤ w) (hh : 2 ≤ h) (hwI : (w : Int) ≤ INT_MAX) (hhI : (h : Int) ≤ INT_MAX)
    (hds3 : (w : Int) * 3 ≤ ds3) (hds4 : (w : Int) * 4 ≤ ds4) (oh ov : Int) :
    (∃ b3 b4 : DstBuf,
      buffer_subpix_x smemX ⟨init3, []⟩ dst3 3 ds3 srcX nX ssX w h oh = some b3 ∧
      buffer_subpix_x smemX ⟨init4, []⟩ dst4 4 ds4 srcX nX ssX w h oh = some b4 ∧
      ∀ y x c : Nat, y < h → x < w → c < 3 →
        b3.get (pix dst3 ds3 3 y x c) = b4.get (pix dst4 ds4 4 y x c) ∧
        ∃ v : Nat, (pix dst3 ds3 3 y x c, v) ∈ b3.writes ∧
          (pix dst4 ds4 4 y x c, v) ∈ b4.writes) ∧
    (∃ b3 b4 : DstBuf,
      buffer_subpix_y smemY ⟨init3, []⟩ dst3 3 ds3 srcY nY ssY w h ov = some b3 ∧
      buffer_subpix_y smemY ⟨init4, []⟩ dst4 4 ds4 srcY nY ssY w h ov = some b4 ∧
      ∀ y x c : Nat, y < h → x < w → c < 3 →
        b3.get (pix dst3 ds3 3 y x c) = b4.get (pix dst4 ds4 4 y x c) ∧
        ∃ v : Nat, (pix dst3 ds3 3 y x c, v) ∈ b3.writes ∧
          (pix dst4 ds4 4 y x c, v) ∈ b4.writes) := by
  constructor
  · obtain ⟨n3, hr3, hm3⟩ := buffer_subpix_x_spec smemX dst3 srcX ssX nX 3 ds3 h w SX hX oh hw
      hwI hhI ⟨init3, []⟩
    obtain ⟨n4, hr4, hm4⟩ := buffer_subpix_x_spec smemX dst4 srcX ssX nX 4 ds4 h w SX hX oh hw
      hwI hhI ⟨init4, []⟩
    simp only [List.append_nil] at hr3 hr4
    have g3 := (get_of_plane_writes ⟨init3, n3⟩ dst3 ds3 3 h w _ hm3).1 (le_refl _) hds3
    have g4 := (get_of_plane_writes ⟨init4, n4⟩ dst4 ds4 4 h w _ hm4).1 (by decide) hds4
    refine ⟨_, _, hr3, hr4, ?_⟩
    intro y x c hy hx hc
    exact ⟨by rw [g3 y x c hy hx hc, g4 y x c hy hx hc],
      _, (hm3 _ _).2 ⟨y, x, c, hy, hx, hc, rfl, rfl⟩,
      (hm4 _ _).2 ⟨y, x, c, hy, hx, hc, rfl, rfl⟩⟩
  · obtain ⟨n3, hr3, hm3⟩ := buffer_subpix_y_spec smemY dst3 srcY ssY nY 3 ds3 h w SY hY ov hh
      hwI hhI ⟨init3, []⟩
    obtain ⟨n4, hr4, hm4⟩ := buffer_subpix_y_spec smemY dst4 srcY ssY nY 4 ds4 h w SY hY ov hh
      hwI hhI ⟨init4, []⟩
    simp only [List.append_nil] at hr3 hr4
    have g3 := (get_of_plane_writes ⟨init3, n3⟩ dst3 ds3 3 h w _ hm3).1 (le_refl _) hds3
    have g4 := (get_of_plane_writes ⟨init4, n4⟩ dst4 ds4 4 h w _ hm4).1 (by decide) hds4
    refine ⟨_, _, hr3, hr4, ?_⟩
    intro y x c hy hx hc
    exact ⟨by rw [g3 y x c hy hx hc, g4 y x c hy hx hc],
      _, (hm3 _ _).2 ⟨y, x, c, hy, hx, hc, rfl, rfl⟩,
      (hm4 _ _).2 ⟨y, x, c, hy, hx, hc, rfl, rfl⟩⟩

/-- Concrete instance of C13: the 2 x 6 ramp plane downsampled to 2 x 2 pixels
of 3 bytes (row stride 6) and of 4 bytes (row stride 8). -/
theorem C13_dst_format_consistent_witness :
    ∃ b3 b4 : DstBuf,
      buffer_subpix_x rampMem ⟨fun _ => 0, []⟩ 0 3 6 0 3 18 2 2 SUBPIXEL_HRGB = some b3 ∧
      buffer_subpix_x rampMem ⟨fun _ => 7, []⟩ 0 4 8 0 3 18 2 2 SUBPIXEL_HRGB = some b4 ∧
      b3.get (pix 0 6 3 1 1 2) = b4.get (pix 0 8 4 1 1 2) := by
  obtain ⟨⟨b3, b4, h1, h2, h3⟩, -⟩ :=
    C13_dst_format_consistent rampMem rampMem (fun _ => 0) (fun _ => 7) 0 6 0 8 0 18 3 0 3 3
      2 2 (rampPlane 18 3) (rampPlane 3 3) (rampMem_holds 18 3 2 6) (rampMem_holds 3 3 6 2)
      (by decide) (by decide) (by decide) (by decide) (by decide) (by decide)
      SUBPIXEL_HRGB SUBPIXEL_VRGB
  exact ⟨b3, b4, h1, h2, (h3 1 1 2 (by decide) (by decide) (by decide)).1⟩

/-- C15. Called with a null page handle, or with a null mupdf page,
`pdf_page_render` returns no buffer, stores `InvalidArguments` into `*error`
when `error` is non-null, and does not call the allocator. -/
theorem C15_null_page_invalid_arguments (subpix_order : Int) (fz : Rasterizer)
    (alloc : Nat → Nat → Option (zathura_image_buffer_t × (Int → Nat)))
    (page : Option zathura_page_t) (mupdf_page : Option mupdf_page_t) (e0 : zathura_error_t) :
    (pdf_page_render subpix_order fz alloc none mupdf_page (some e0)
      = ⟨none, some .ZATHURA_ERROR_INVALID_ARGUMENTS, [], false, none, none⟩) ∧
    (pdf_page_render subpix_order fz alloc none mupdf_page none
      = ⟨none, none, [], false, none, none⟩) ∧
    (pdf_page_render subpix_order fz alloc page none (some e0)
      = ⟨none, some .ZATHURA_ERROR_INVALID_ARGUMENTS, [], false, none, none⟩) ∧
    (pdf_page_render subpix_order fz alloc page none none
      = ⟨none, none, [], false, none, none⟩) := by
  refine ⟨rfl, rfl, ?_, ?_⟩ <;> cases page <;> rfl

/-- C16 (the code at the failing input, and the paths on which the claim
holds).  With page and mupdf page non-null but a null document
(`zathura_page_get_document` returns `NULL`), `pdf_page_render` returns no
buffer and leaves `*error` as it was, `e0`, whatever that is; nothing is
allocated.  On every other path, with a non-null `error`, either a buffer is
returned or none is and `*error` holds `InvalidArguments`, `OutOfMemory` or
`Unknown`, and after a failure of the internal routine exactly the error
that it returned. -/
theorem C16_null_document_leaves_error_unset (subpix_order : Int) (fz : Rasterizer)
    (alloc : Nat → Nat → Option (zathura_image_buffer_t × (Int → Nat)))
    (pw ph : ℚ) (mupdf_page : mupdf_page_t) (e0 : zathura_error_t) :
    (pdf_page_render subpix_order fz alloc (some ⟨none, pw, ph⟩) (some mupdf_page) (some e0)
      = ⟨none, some e0, [], false, none, none⟩) ∧
    (∀ (page : Option zathura_page_t) (mp : Option mupdf_page_t),
      (∀ p, page = some p → p.document ≠ none) →
      ∃ r : RenderResult, pdf_page_render subpix_order fz alloc page mp (some e0) = r ∧
        (r.image_buffer ≠ none ∨
          (r.image_buffer = none ∧
            (r.error = some .ZATHURA_ERROR_INVALID_ARGUMENTS ∨
              r.error = some .ZATHURA_ERROR_OUT_OF_MEMORY ∨
              r.error = some .ZATHURA_ERROR_UNKNOWN) ∧
            (∀ ri, r.inner = some ri → r.error = some ri.error)))) := by
  refine ⟨rfl, ?_⟩
  intro page mp hdoc
  refine ⟨_, rfl, ?_⟩
  cases page with
  | none => right; exact ⟨rfl, Or.inl rfl, fun ri h => by simp [pdf_page_render] at h⟩
  | some p =>
    cases mp with
    | none => right; exact ⟨rfl, Or.inl rfl, fun ri h => by simp [pdf_page_render] at h⟩
    | some m =>
      obtain ⟨doc, w, h⟩ := p
      cases doc with
      | none => exact absurd rfl (hdoc _ rfl)
      | some d =>
        simp only [pdf_page_render]
        split
        · right
          exact ⟨rfl, Or.inr (Or.inl rfl), fun ri h => by simp at h⟩
        · split
          · rename_i hne
            right
            refine ⟨rfl, ?_, ?_⟩
            · simp only [Option.map_some', Option.some.injEq]
              generalize pdf_page_render_to_buffer _ _ _ _ _ _ _ _ _ _ _ _ = ri at hne ⊢
              cases he : ri.error <;> simp_all
            · intro ri h
              simp only [Option.some.injEq] at h
              subst h
              rfl
          · left
            simp

/-- C17 (the code at the failing input, and the paths on which the claim
holds).  When no handle is null and `fz_run_page` throws,
`pdf_page_render_to_buffer` returns `Unknown` from the `fz_catch` block with
the display list and the list device that it created still live: neither is
dropped on that path.  When `fz_run_page` returns, the call returns `Ok` with
none of its handles live, and a return from the null checks happens before
any handle is created. -/
theorem C17_handles_live_after_catch (subpix_order : Int) (fz : Rasterizer) (image : Int)
    (buf : DstBuf) (rowstride components : Int) (w h : Nat) (sx sy : ℚ) :
    (∃ r : ToBufferResult,
      pdf_page_render_to_buffer subpix_order { fz with run_page_ok := false } (some ⟨true⟩)
        (some ⟨true⟩) (some image) buf rowstride components w h sx sy = r ∧
      r.error = .ZATHURA_ERROR_UNKNOWN ∧
      r.live = [Handle.display_list, Handle.list_device] ∧ r.live ≠ []) ∧
    (∃ r : ToBufferResult,
      pdf_page_render_to_buffer subpix_order { fz with run_page_ok := true } (some ⟨true⟩)
        (some ⟨true⟩) (some image) buf rowstride components w h sx sy = r ∧
      r.error = .ZATHURA_ERROR_OK ∧ r.live = []) ∧
    (∀ (d : Option mupdf_document_t) (p : Option mupdf_page_t) (i : Option Int),
      (d = none ∨ d = some ⟨false⟩ ∨ p = none ∨ p = some ⟨false⟩ ∨ i = none) →
      ∃ r : ToBufferResult,
        pdf_page_render_to_buffer subpix_order fz d p i buf rowstride components w h sx sy = r ∧
        r.error = .ZATHURA_ERROR_UNKNOWN ∧ r.live = []) := by
  refine ⟨⟨_, rfl, ?_⟩, ⟨_, rfl, ?_⟩, ?_⟩
  · rw [pdf_page_render_to_buffer_throw subpix_order { fz with run_page_ok := false } image buf
      rowstride components w h sx sy rfl]
    exact ⟨rfl, rfl, by simp⟩
  · rw [pdf_page_render_to_buffer_ok subpix_order { fz with run_page_ok := true } image buf
      rowstride components w h sx sy rfl]
    exact ⟨rfl, rfl⟩
  · intro d p i hnull
    refine ⟨_, rfl, ?_⟩
    rcases d with _ | ⟨dc⟩ <;> rcases p with _ | ⟨pc⟩ <;> rcases i with _ | i <;>
      simp [pdf_page_render_to_buffer] at hnull ⊢
    rcases hnull with h1 | h1 <;> simp [h1]

/-- C18. Mirror symmetry between the two horizontal orders.  Let `P` be an
oversampled plane of `h` rows of `3w` pixels, `w ≥ 2`, and `mirror3 w P` the
plane with the pixel columns reversed.  `buffer_subpix_x` on `mirror3 w P`
under HBGR and on `P` under HRGB both return, and for every `y < h`, `x < w`,
`c < 3` the byte stored by the former at output pixel `(y, x)` is the byte
stored by the latter at output pixel `(y, w-1-x)`; these are the bytes
finally held there when the destinations are laid out as planes. -/
theorem C18_mirror_symmetry (smemP smemM : SrcMem) (initP initM : Int → Nat)
    (dstP dsP dnP srcP ssP nP dstM dsM dnM srcM ssM nM : Int) (h w : Nat)
    (P : Nat → Nat → Nat → Nat)
    (hP : HoldsPlane smemP srcP ssP nP h (3 * w) P)
    (hM : HoldsPlane smemM srcM ssM nM h (3 * w) (mirror3 w P))
    (hw : 2 ≤ w) (hwI : (w : Int) ≤ INT_MAX) (hhI : (h : Int) ≤ INT_MAX) :
    ∃ bP bM : DstBuf,
      buffer_subpix_x smemP ⟨initP, []⟩ dstP dnP dsP srcP nP ssP w h SUBPIXEL_HRGB = some bP ∧
      buffer_subpix_x smemM ⟨initM, []⟩ dstM dnM dsM srcM nM ssM w h SUBPIXEL_HBGR = some bM ∧
      ∀ y x c : Nat, y < h → x < w → c < 3 →
        ∃ v : Nat,
          (pix dstM dsM dnM y x c, v) ∈ bM.writes ∧
          (pix dstP dsP dnP y (w - 1 - x) c, v) ∈ bP.writes ∧
          (3 ≤ dnP → (w : Int) * dnP ≤ dsP → 3 ≤ dnM → (w : Int) * dnM ≤ dsM →
            bM.get (pix dstM dsM dnM y x c) = v ∧
            bP.get (pix dstP dsP dnP y (w - 1 - x) c) = v) := by
  obtain ⟨nP', hrP, hmP⟩ := buffer_subpix_x_spec smemP dstP srcP ssP nP dnP dsP h w P hP
    SUBPIXEL_HRGB hw hwI hhI ⟨initP, []⟩
  obtain ⟨nM', hrM, hmM⟩ := buffer_subpix_x_spec smemM dstM srcM ssM nM dnM dsM h w _ hM
    SUBPIXEL_HBGR hw hwI hhI ⟨initM, []⟩
  simp only [List.append_nil] at hrP hrM
  have gP := (get_of_plane_writes ⟨initP, nP'⟩ dstP dsP dnP h w _ hmP).1
  have gM := (get_of_plane_writes ⟨initM, nM'⟩ dstM dsM dnM h w _ hmM).1
  have key : ∀ y x c, x < w → c < 3 →
      outX SUBPIXEL_HBGR w (mirror3 w P) y x c = outX SUBPIXEL_HRGB w P y (w - 1 - x) c := by
    intro y x c hx hc
    simp only [outX, revX_HBGR, revX_HRGB, mirror3]
    exact outLine_mirror w (fun c p => P y p c) x c hw hx hc
  refine ⟨_, _, hrP, hrM, ?_⟩
  intro y x c hy hx hc
  refine ⟨outX SUBPIXEL_HBGR w (mirror3 w P) y x c,
    (hmM _ _).2 ⟨y, x, c, hy, hx, hc, rfl, rfl⟩,
    (hmP _ _).2 ⟨y, w - 1 - x, c, hy, by omega, hc, rfl, key y x c hx hc⟩, ?_⟩
  intro h1 h2 h3 h4
  exact ⟨gM h3 h4 y x c hy hx hc,
    by rw [gP h1 h2 y (w - 1 - x) c hy (by omega) hc, key y x c hx hc]⟩

/-- Concrete instance of C18: the 1 x 9 ramp plane and its mirror image,
downsampled to width 3: the byte stored for output pixel (0, 0), channel 1,
of the mirrored run under HBGR is the one stored for output pixel (0, 2),
channel 1, of the plain run under HRGB. -/
theorem C18_mirror_symmetry_witness :
    ∃ (bP bM : DstBuf) (v : Nat),
      buffer_subpix_x rampMem ⟨fun _ => 0, []⟩ 0 4 12 0 3 27 3 1 SUBPIXEL_HRGB = some bP ∧
      buffer_subpix_x (planeMem (mirror3 3 (rampPlane 27 3)) 27 3) ⟨fun _ => 0, []⟩ 0 4 12 0 3
        27 3 1 SUBPIXEL_HBGR = some bM ∧
      (pix 0 12 4 0 0 1, v) ∈ bM.writes ∧ (pix 0 12 4 0 2 1, v) ∈ bP.writes := by
  obtain ⟨bP, bM, h1, h2, h3⟩ :=
    C18_mirror_symmetry rampMem (planeMem (mirror3 3 (rampPlane 27 3)) 27 3) (fun _ => 0)
      (fun _ => 0) 0 12 4 0 27 3 0 12 4 0 27 3 1 3 (rampPlane 27 3) (rampMem_holds 27 3 1 9)
      (planeMem_holds_27_3 _ 1) (by decide) (by decide) (by decide)
  obtain ⟨v, h4, h5, -⟩ := h3 0 0 1 (by decide) (by decide) (by decide)
  exact ⟨bP, bM, v, h1, h2, h4, h5⟩

/-- C19. Degenerate width and height.  For `width = 1` and `h ≥ 1` rows,
`buffer_subpix_x` runs no interior iteration; on a source in which pixels
0..4 of every row are readable it returns, and its stores are exactly, for
every row `y < h` and channel `c < 3`, byte `c` of oversampled pixel 1 into
output pixel 0 and byte `c` of oversampled pixel 4 into output pixel 1 (row
bytes `dst_ncmpt .. dst_ncmpt + 2`), a second output pixel.  Oversampled
pixel 4 is outside the 3 pixels of the row: on a source in which only the
plane of `h` rows of 3 pixels is readable the run fails.  Likewise
`buffer_subpix_y` with `height = 1` stores oversampled row 1 into output
row 0 and oversampled row 4 into output row 1, and fails when only the 3
oversampled rows are readable. -/
theorem C19_degenerate_size (smemX smemY : SrcMem) (init : Int → Nat)
    (dst dn ds srcX ssX nX srcY ssY nY : Int) (h w : Nat) (SX SY : Nat → Nat → Nat → Nat)
    (hX : HoldsPlane smemX srcX ssX nX h 5 SX) (hY : HoldsPlane smemY srcY ssY nY 5 w SY)
    (hh : 1 ≤ h) (hw : 1 ≤ w) (hhI : (h : Int) ≤ INT_MAX) (hwI : (w : Int) ≤ INT_MAX)
    (oh ov : Int) :
    (∃ b' : DstBuf,
      buffer_subpix_x smemX ⟨init, []⟩ dst dn ds srcX nX ssX 1 h oh = some b' ∧
      (∀ a v, (a, v) ∈ b'.writes ↔ ∃ y c : Nat, y < h ∧ c < 3 ∧
        ((a = pix dst ds dn y 0 c ∧ v = SX y 1 c) ∨
          (a = pix dst ds dn y 1 c ∧ v = SX y 4 c))) ∧
      (∀ y c : Nat, y < h → c < 3 →
        (pix dst ds dn y 0 0 + dn + (c : Int), SX y 4 c) ∈ b'.writes)) ∧
    (3 ≤ nX → 3 * nX ≤ ssX → ∀ bytes : Int → Nat,
      buffer_subpix_x (planeOnly bytes srcX ssX nX h 3) ⟨init, []⟩ dst dn ds srcX nX ssX 1 h oh
        = none) ∧
    (∃ b' : DstBuf,
      buffer_subpix_y smemY ⟨init, []⟩ dst dn ds srcY nY ssY w 1 ov = some b' ∧
      (∀ a v, (a, v) ∈ b'.writes ↔ ∃ x c : Nat, x < w ∧ c < 3 ∧
        ((a = pix dst ds dn 0 x c ∧ v = SY 1 x c) ∨
          (a = pix dst ds dn 1 x c ∧ v = SY 4 x c)))) ∧
    (3 ≤ nY → (w : Int) * nY ≤ ssY → ∀ bytes : Int → Nat,
      buffer_subpix_y (planeOnly bytes srcY ssY nY 3 w) ⟨init, []⟩ dst dn ds srcY nY ssY w 1 ov
        = none) := by
  refine ⟨?_, ?_, ?_, ?_⟩
  · obtain ⟨new, hrun, hmem⟩ := buffer_subpix_x_w1_spec smemX dst srcX ssX nX dn ds h SX hX oh
      hhI ⟨init, []⟩
    simp only [List.append_nil] at hrun
    refine ⟨⟨init, new⟩, hrun, hmem, ?_⟩
    intro y c hy hc
    refine (hmem _ _).2 ⟨y, c, hy, hc, Or.inr ⟨?_, rfl⟩⟩
    simp [pix]
  · intro hn hss bytes
    simp only [buffer_subpix_x]
    rw [toU32_natCast h hhI]
    have e1 : srcX + nX = pix srcX ssX nX 0 1 0 := by simp [pix]
    rw [e1]
    exact subpix_x_rows_w1_fails bytes srcX ssX nX dn ds h hn hss _ h 0 _ dst hh (by omega)
  · obtain ⟨new, hrun, hmem⟩ := buffer_subpix_y_h1_spec smemY dst srcY ssY nY dn ds w SY hY ov
      hwI ⟨init, []⟩
    simp only [List.append_nil] at hrun
    exact ⟨⟨init, new⟩, hrun, hmem⟩
  · intro hn hss bytes
    exact buffer_subpix_y_h1_fails bytes ⟨init, []⟩ dst srcY ssY nY dn ds w hw hwI hn hss ov

/-- Concrete instance of C19: one row of 3 oversampled ramp pixels of 3 bytes
(offsets 0..8), output pixels of 4 bytes: byte 0 of a second output pixel,
offset 4, is stored from offset 12 of the source, and with only the 9 bytes
of the row readable the run fails. -/
theorem C19_degenerate_size_witness :
    (∃ b' : DstBuf,
      buffer_subpix_x rampMem ⟨fun _ => 0, []⟩ 0 4 8 0 3 9 1 1 SUBPIXEL_HRGB = some b' ∧
      (pix 0 8 4 0 0 0 + 4 + ((0 : Nat) : Int), 12) ∈ b'.writes) ∧
    buffer_subpix_x (planeOnly (fun a => a.toNat % 256) 0 9 3 1 3) ⟨fun _ => 0, []⟩ 0 4 8 0 3 9
      1 1 SUBPIXEL_HRGB = none := by
  obtain ⟨⟨b', h1, -, h3⟩, h4, -, -⟩ :=
    C19_degenerate_size rampMem rampMem (fun _ => 0) 0 4 8 0 9 3 0 3 3 1 1 (rampPlane 9 3)
      (rampPlane 3 3) (rampMem_holds 9 3 1 5) (rampMem_holds 3 3 5 1) (by decide) (by decide)
      (by decide) (by decide) SUBPIXEL_HRGB SUBPIXEL_VRGB
  have e : rampPlane 9 3 0 4 0 = 12 := by decide
  have h5 := h3 0 0 (by decide) (by decide)
  rw [e] at h5
  exact ⟨⟨b', h1, h5⟩, h4 (by decide) (by decide) _⟩

/-- C20 (as amended).  The filter never overshoots its inputs as long as its
`int` arithmetic does not overflow: for all integers `0 ≤ x0..x4 ≤ 7456539`
(the largest value with `288 x + 144 ≤ INT_MAX`), in particular for all
bytes, the 32-bit computation is the exact one and
`min(x0..x4) ≤ filter(x0..x4) ≤ max(x0..x4)`. -/
theorem C20_filter_within_inputs (x0 x1 x2 x3 x4 : Int)
    (h0 : 0 ≤ x0 ∧ x0 ≤ 7456539) (h1 : 0 ≤ x1 ∧ x1 ≤ 7456539) (h2 : 0 ≤ x2 ∧ x2 ≤ 7456539)
    (h3 : 0 ≤ x3 ∧ x3 ≤ 7456539) (h4 : 0 ≤ x4 ∧ x4 ≤ 7456539) :
    filter_i32 x0 x1 x2 x3 x4 = filter x0 x1 x2 x3 x4 ∧
    min x0 (min x1 (min x2 (min x3 x4))) ≤ filter_i32 x0 x1 x2 x3 x4 ∧
    filter_i32 x0 x1 x2 x3 x4 ≤ max x0 (max x1 (max x2 (max x3 x4))) := by
  have e := filter_i32_eq_filter x0 x1 x2 x3 x4 h0 h1 h2 h3 h4
  rw [e, filter_eq_div x0 x1 x2 x3 x4 h0.1 h1.1 h2.1 h3.1 h4.1]
  have m0 : min x0 (min x1 (min x2 (min x3 x4))) ≤ x0 := min_le_left _ _
  have m1 : min x0 (min x1 (min x2 (min x3 x4))) ≤ x1 :=
    le_trans (min_le_right _ _) (min_le_left _ _)
  have m2 : min x0 (min x1 (min x2 (min x3 x4))) ≤ x2 :=
    le_trans (min_le_right _ _) (le_trans (min_le_right _ _) (min_le_left _ _))
  have m3 : min x0 (min x1 (min x2 (min x3 x4))) ≤ x3 :=
    le_trans (min_le_right _ _) (le_trans (min_le_right _ _)
      (le_trans (min_le_right _ _) (min_le_left _ _)))
  have m4 : min x0 (min x1 (min x2 (min x3 x4))) ≤ x4 :=
    le_trans (min_le_right _ _) (le_trans (min_le_right _ _)
      (le_trans (min_le_right _ _) (min_le_right _ _)))
  have M0 : x0 ≤ max x0 (max x1 (max x2 (max x3 x4))) := le_max_left _ _
  have M1 : x1 ≤ max x0 (max x1 (max x2 (max x3 x4))) :=
    le_trans (le_max_left _ _) (le_max_right _ _)
  have M2 : x2 ≤ max x0 (max x1 (max x2 (max x3 x4))) :=
    le_trans (le_trans (le_max_left _ _) (le_max_right _ _)) (le_max_right _ _)
  have M3 : x3 ≤ max x0 (max x1 (max x2 (max x3 x4))) :=
    le_trans (le_trans (le_trans (le_max_left _ _) (le_max_right _ _)) (le_max_right _ _))
      (le_max_right _ _)
  have M4 : x4 ≤ max x0 (max x1 (max x2 (max x3 x4))) :=
    le_trans (le_trans (le_trans (le_max_right _ _) (le_max_right _ _)) (le_max_right _ _))
      (le_max_right _ _)
  generalize min x0 (min x1 (min x2 (min x3 x4))) = m at m0 m1 m2 m3 m4 ⊢
  generalize max x0 (max x1 (max x2 (max x3 x4))) = M at M0 M1 M2 M3 M4 ⊢
  refine ⟨rfl, ?_, ?_⟩ <;> omega

/-- Concrete instance of C20: the largest admitted samples. -/
theorem C20_filter_within_inputs_witness :
    filter_i32 7456539 0 7456539 255 7456539 = filter 7456539 0 7456539 255 7456539 ∧
    min 7456539 (min 0 (min 7456539 (min 255 7456539)))
      ≤ filter_i32 7456539 0 7456539 255 7456539 ∧
    filter_i32 7456539 0 7456539 255 7456539
      ≤ max 7456539 (max 0 (max 7456539 (max 255 7456539))) :=
  C20_filter_within_inputs 7456539 0 7456539 255 7456539 (by decide) (by decide) (by decide)
    (by decide) (by decide)

/-- Counterexample to C20 as stated: the non-negative `int` samples
`x0 = .. = x4 = 7456540` make the sum `288 * 7456540 + 144` exceed `INT_MAX`;
in 32-bit arithmetic `filter` returns `-7456540`, below the minimum of its
inputs. -/
theorem C20_filter_overshoot_counterexample :
    (0 : Int) ≤ 7456540 ∧ (7456540 : Int) ≤ INT_MAX ∧
    INT_MAX < 16 * 7456540 + 80 * 7456540 + 96 * 7456540 + 80 * 7456540 + 16 * 7456540 + 144 ∧
    filter_i32 7456540 7456540 7456540 7456540 7456540 = -7456540 ∧
    ¬ (min (7456540 : Int) (min 7456540 (min 7456540 (min 7456540 7456540)))
        ≤ filter_i32 7456540 7456540 7456540 7456540 7456540) := by
  have e : filter_i32 7456540 7456540 7456540 7456540 7456540 = -7456540 := by decide
  refine ⟨by decide, by decide, by decide, e, ?_⟩
  rw [e]
  decide

end Render
